import Mathlib

/-!
# dsim: the simulation core of `src/main.cpp`

A shallow embedding of `Node`, `World`, `drand`, `infectTest`, the log records
and the argument loop of `main` of `src/main.cpp`, followed by theorems about
the construction of a world, one simulation tick, runs of several ticks and
the reading of the arguments.

Conventions of the embedding.

* A C++ `double` is a value of `Dbl R`: either a number `val r` of an ordered
  field `R` (the reals in every theorem that needs geometry) or `nan`, the
  result of an operation without a real value. `nan` behaves like the IEEE
  not-a-number of the program: arithmetic propagates it, `<` is false on it
  and `!=` is true on it.
* Every `+`, `-`, `*`, `/` of doubles and every decimal literal rounds its
  exact result to a `double`: the rounding is the parameter `Platform.rnd`.
  The identity stands for arithmetic over the reals; `roundTo 53` is the
  binary64 rounding (to nearest, ties to even) of the actual platform.
  Overflow and underflow are not modelled. The narrowing of a `double` to a
  `float` is the parameter `Platform.toFloat` (`roundTo 24` on the actual
  platform). A theorem that holds up to rounding takes the hypothesis
  `Accurate P` (every operation and `sqrt` has a relative error of at most
  `2^-53`), which `binaryPlatform` satisfies.
* What the program takes from outside `main.cpp` is a parameter: the math
  functions `sqrt`, `sin`, `cos`, which return doubles, the order in which the
  compiler evaluates two constructor arguments (`Platform`), and the
  generator behind `srand`/`rand` with its `RAND_MAX` (`Rng`), and the
  conversions `std::stoi`/`std::stod` (`Conversions`). The process-wide
  generator state is passed explicitly through every function that draws.
* The output stream is the list of records written so far; the text layout of
  a number is not modelled.
-/

set_option linter.dupNamespace false

namespace DSim

/-- A `double`: a number, or `nan` when an operation has no real value. -/
inductive Dbl (R : Type) where
  | val (r : R)
  | nan
  deriving DecidableEq

/-- What the C++ implementation fixes outside `main.cpp`: the rounding `rnd`
of the exact result of an arithmetic operation (or of a decimal literal) to a
`double`, the math functions, the rounding of a `double` to a `float`, and
whether the first of the two arguments `drand(), drand()` of a constructor
call is evaluated first (the language leaves that order unspecified). -/
structure Platform (R : Type) where
  rnd : R → R
  sqrt : R → R
  sin : R → R
  cos : R → R
  toFloat : R → R
  leftToRight : Bool

/-- Rounding to the nearest number with `p` significant binary digits, ties to
the even significand, with an unbounded exponent: `roundTo 53` is the rounding
of binary64 (`double`) and `roundTo 24` that of binary32 (`float`), outside
overflow and underflow. -/
def roundTo {R : Type} [LinearOrderedField R] [FloorRing R] (p : Nat) (x : R) : R :=
  let e : Int := Int.log 2 |x|
  let q : R := x / (2 : R) ^ (e + 1 - (p : Int))
  let n : Int := ⌊q⌋
  let m : Int :=
    if q - (n : R) < 1 / 2 then n
    else if 1 / 2 < q - (n : R) then n + 1
    else if n % 2 = 0 then n else n + 1
  (m : R) * (2 : R) ^ (e + 1 - (p : Int))

/-- The arithmetic of the actual platform: every operation rounds to binary64,
to nearest; `sqrt`, `sin` and `cos` are the exact functions (the parameters,
which keep the definition executable) rounded to binary64; the narrowing to
`float` rounds to binary32; constructor arguments are evaluated left to right.
(A math library may miss the nearest double of `sin` or `cos` by one unit in
the last place; at the argument 0 it returns 0 and 1, as this platform does.) -/
def binaryPlatform {R : Type} [LinearOrderedField R] [FloorRing R] (sqrt sin cos : R → R) :
    Platform R :=
  { rnd := roundTo 53, sqrt := fun x => roundTo 53 (sqrt x), sin := fun x => roundTo 53 (sin x),
    cos := fun x => roundTo 53 (cos x), toFloat := roundTo 24, leftToRight := true }

namespace Dbl

variable {R : Type} [LinearOrderedField R]

/-- Addition of doubles: `operator+`, the exact sum rounded. -/
def add (P : Platform R) : Dbl R → Dbl R → Dbl R
  | val a, val b => val (P.rnd (a + b))
  | _, _ => nan

/-- Subtraction of doubles: `operator-`, the exact difference rounded. -/
def sub (P : Platform R) : Dbl R → Dbl R → Dbl R
  | val a, val b => val (P.rnd (a - b))
  | _, _ => nan

/-- Multiplication of doubles: `operator*`, the exact product rounded. -/
def mul (P : Platform R) : Dbl R → Dbl R → Dbl R
  | val a, val b => val (P.rnd (a * b))
  | _, _ => nan

/-- Division of doubles: `operator/`, the exact quotient rounded. A division
by zero has no real value. (In the program `1 / 0` is an infinity; its only use
is `norm()`, where it is multiplied by the zero components of the vector, which
gives not-a-number.) -/
def div (P : Platform R) : Dbl R → Dbl R → Dbl R
  | val a, val b => if b = 0 then nan else val (P.rnd (a / b))
  | _, _ => nan

/-- Comparison `a < b` of doubles; false when an operand is `nan`. -/
def lt : Dbl R → Dbl R → Bool
  | val a, val b => decide (a < b)
  | _, _ => false

/-- Comparison `a != b` of doubles; true when an operand is `nan`. -/
def ne : Dbl R → Dbl R → Bool
  | val a, val b => decide (a ≠ b)
  | _, _ => true

/-- The function `std::min(a, b)`, which is `(b < a) ? b : a`. -/
def min (a b : Dbl R) : Dbl R := if lt b a then b else a

/-- A function of the math library applied to a double; `nan` is propagated. -/
def map (f : R → R) : Dbl R → Dbl R
  | val a => val (f a)
  | nan => nan

/-- The square root `std::sqrt`: `nan` on a negative argument. -/
def sqrt (f : R → R) : Dbl R → Dbl R
  | val a => if a < 0 then nan else val (f a)
  | nan => nan

end Dbl

/-- The generator of the C library: `srand` installs a state that depends on
the seed only, `rand` returns a number and the next state. -/
structure Rng (G : Type) where
  RAND_MAX : Int
  srand : Int → G
  rand : G → Int × G

/-- Modelled from the spec: `olc::vd2d` of the header `olcPixelGameEngine.h`,
which is not under `src/`: a pair of doubles with componentwise `+`, `-` and
`*`, scaling by a double, the Euclidean magnitude `mag()` and the unit
direction `norm()`, computed as `r = 1 / mag()` and `(x * r, y * r)`. -/
structure vd2d (R : Type) where
  x : Dbl R
  y : Dbl R
  deriving DecidableEq

namespace vd2d

variable {R : Type} [LinearOrderedField R]

/-- Modelled from the spec: componentwise sum `a + b` of `olc::vd2d`. -/
def add (P : Platform R) (a b : vd2d R) : vd2d R := ⟨Dbl.add P a.x b.x, Dbl.add P a.y b.y⟩

/-- Modelled from the spec: componentwise difference `a - b` of `olc::vd2d`. -/
def sub (P : Platform R) (a b : vd2d R) : vd2d R := ⟨Dbl.sub P a.x b.x, Dbl.sub P a.y b.y⟩

/-- Modelled from the spec: componentwise product `a * b` of two `olc::vd2d`. -/
def mul (P : Platform R) (a b : vd2d R) : vd2d R := ⟨Dbl.mul P a.x b.x, Dbl.mul P a.y b.y⟩

/-- Modelled from the spec: an `olc::vd2d` scaled by a double, `a * s`. -/
def scale (P : Platform R) (a : vd2d R) (s : Dbl R) : vd2d R :=
  ⟨Dbl.mul P a.x s, Dbl.mul P a.y s⟩

/-- Modelled from the spec: the Euclidean magnitude `mag()` of `olc::vd2d`,
`sqrt(x * x + y * y)`. -/
def mag (P : Platform R) (a : vd2d R) : Dbl R :=
  Dbl.sqrt P.sqrt (Dbl.add P (Dbl.mul P a.x a.x) (Dbl.mul P a.y a.y))

/-- Modelled from the spec: the unit direction `norm()` of `olc::vd2d`. -/
def norm (P : Platform R) (a : vd2d R) : vd2d R :=
  let r := Dbl.div P (Dbl.val 1) (mag P a)
  ⟨Dbl.mul P a.x r, Dbl.mul P a.y r⟩

/-- The conversion of an `olc::vd2d` to an `olc::vf2d` (and back, when it is
stored in a `vd2d` field): each component is rounded to a `float`. -/
def toFloat (P : Platform R) (a : vd2d R) : vd2d R :=
  ⟨Dbl.map P.toFloat a.x, Dbl.map P.toFloat a.y⟩

end vd2d

/-- The constant `PI = 3.141592` of `main.cpp`: the double nearest to the
decimal literal. -/
def PI {R : Type} [LinearOrderedField R] (P : Platform R) : Dbl R :=
  Dbl.val (P.rnd (3141592 / 1000000))

/-- The function `drand` of `main.cpp`: `rand() / (double)RAND_MAX`. The
conversion of an `int` to a `double` is exact. -/
def drand {R G : Type} [LinearOrderedField R] (P : Platform R) (rng : Rng G) (g : G) :
    Dbl R × G :=
  let r := rng.rand g
  (Dbl.div P (Dbl.val (r.1 : R)) (Dbl.val (rng.RAND_MAX : R)), r.2)

/-- The class `Node` of `main.cpp`. -/
structure Node (R : Type) where
  id : Int
  cPos : vd2d R
  sPos : vd2d R
  reinfectable : Bool
  infectable : Bool
  infected : Bool
  infectedFor : Int
  maxTravel : Dbl R
  maxSpeed : Dbl R
  deriving DecidableEq

/-- One line written to the log stream. `node` is the line of `operator<<` for
a `Node`; the other constructors are the lines of the run header and the column
header `NODEHEADER`. -/
inductive Record (R : Type) where
  | seed (v : Int)
  | nodeCount (v : Int)
  | minInfTime (v : Int)
  | maxInfTime (v : Int)
  | suvRate (v : Dbl R)
  | reinfect (v : Bool)
  | maxSpeed (v : Dbl R)
  | NODEHEADER
  | node (id : Int) (cPos sPos : vd2d R) (infectable infected : Bool) (infectedFor : Int)
      (maxTravel maxSpeed : Dbl R)
  deriving DecidableEq

/-- The line `operator<<(std::ostream&, const Node&)` writes for a node. -/
def Node.record {R : Type} (n : Node R) : Record R :=
  Record.node n.id n.cPos n.sPos n.infectable n.infected n.infectedFor n.maxTravel n.maxSpeed

/-- The function `infectTest` of `main.cpp`:
`(n1.cPos - n2.cPos).mag() < 4 ? n2.infected : false`. -/
def infectTest {R : Type} [LinearOrderedField R] (P : Platform R) (n1 n2 : Node R) : Bool :=
  if Dbl.lt (vd2d.mag P (vd2d.sub P n1.cPos n2.cPos)) (Dbl.val 4) then n2.infected else false

namespace Node

variable {R G : Type} [LinearOrderedField R]

/-- The constructor `Node::Node`: the position arrives as an `olc::vf2d` and
the speed as a `float`; the new node is written to the log. -/
def Node (P : Platform R) (log : List (Record R)) (id : Int) (pos : vd2d R)
    (maxTravel maxSpeed : Dbl R) (reinfect : Bool) : DSim.Node R × List (Record R) :=
  let pos := vd2d.toFloat P pos
  let maxSpeed := Dbl.map P.toFloat maxSpeed
  let self : DSim.Node R :=
    { id := id, cPos := pos, sPos := pos, reinfectable := reinfect, infectable := true,
      infected := false, infectedFor := 0, maxTravel := maxTravel, maxSpeed := maxSpeed }
  (self, log ++ [self.record])

/-- The method `Node::move`. -/
def move (P : Platform R) (rng : Rng G) (self : DSim.Node R) (g : G) : DSim.Node R × G :=
  let d1 := drand P rng g
  let dir := Dbl.mul P (Dbl.mul P d1.1 (PI P)) (Dbl.val 2)
  let d2 := drand P rng d1.2
  let dist := Dbl.mul P d2.1 self.maxSpeed
  let posOff := vd2d.scale P ⟨Dbl.map P.sin dir, Dbl.map P.cos dir⟩ dist
  let ndist := vd2d.mag P (vd2d.sub P (vd2d.add P posOff self.cPos) self.sPos)
  let self := { self with cPos := self.sPos }
  if Dbl.ne ndist (Dbl.val 0) then
    ({ self with
        cPos := vd2d.add P self.cPos
          (vd2d.scale P (vd2d.norm P (vd2d.sub P (vd2d.add P posOff self.cPos) self.sPos))
            (Dbl.min ndist self.maxTravel)) },
      d2.2)
  else (self, d2.2)

/-- The method `Node::update`, run on `self` against the nodes of the world. -/
def update (P : Platform R) (self : DSim.Node R) (nodes : List (DSim.Node R)) : DSim.Node R :=
  nodes.foldl
    (fun self node =>
      if node.id ≠ self.id ∧ !self.infected then
        { self with infected := infectTest P self node }
      else self)
    self

end Node

/-- The class `World` of `main.cpp`; `stream` holds the lines written so far. -/
structure World (R : Type) where
  nodes : List (Node R)
  minInfTime : Int
  maxInfTime : Int
  suvRate : Dbl R
  maxSpeed : Dbl R
  stream : List (Record R)
  nextSeed : Int

namespace World

variable {R G : Type} [LinearOrderedField R]

/-- One round of the construction loop of `World::World`: draw the position
and the travel radius of node `i` and append the node. -/
def addNode (P : Platform R) (rng : Rng G) (minMaxTravel maxMaxTravel : Dbl R)
    (posDif minPos : vd2d R) (maxSpeed : Dbl R) (reInfect : Bool)
    (st : List (Node R) × List (Record R) × G) (i : Nat) :
    List (Node R) × List (Record R) × G :=
  let a := drand P rng st.2.2
  let b := drand P rng a.2
  let draws : vd2d R := if P.leftToRight then ⟨a.1, b.1⟩ else ⟨b.1, a.1⟩
  let nodePos := vd2d.add P minPos (vd2d.mul P draws posDif)
  let c := drand P rng b.2
  let nodeMaxTravel :=
    Dbl.add P minMaxTravel (Dbl.mul P c.1 (Dbl.sub P maxMaxTravel minMaxTravel))
  let made := Node.Node P st.2.1 (i : Int) nodePos nodeMaxTravel maxSpeed reInfect
  (st.1 ++ [made.1], made.2, c.2)

/-- The constructor `World::World`. The incoming state `g` of the process-wide
generator is discarded by `srand(randSeed)`. -/
def World (P : Platform R) (rng : Rng G) (log : List (Record R)) (numNodes : Int)
    (minInfTime maxInfTime : Int) (suvRate : Dbl R) (reInfect : Bool)
    (minMaxTravel maxMaxTravel : Dbl R) (maxPos minPos : vd2d R) (maxSpeed : Dbl R)
    (randSeed : Int) (_g : G) : DSim.World R × G :=
  let log := log ++ [Record.seed randSeed, Record.nodeCount numNodes,
    Record.minInfTime minInfTime, Record.maxInfTime maxInfTime, Record.suvRate suvRate,
    Record.reinfect reInfect, Record.maxSpeed maxSpeed, Record.NODEHEADER]
  let g := rng.srand randSeed
  let posDif := vd2d.sub P maxPos minPos
  let st := (List.range numNodes.toNat).foldl
    (addNode P rng minMaxTravel maxMaxTravel posDif minPos maxSpeed reInfect) ([], log, g)
  let r := rng.rand st.2.2
  ({ nodes := st.1, minInfTime := minInfTime, maxInfTime := maxInfTime, suvRate := suvRate,
     maxSpeed := maxSpeed, stream := st.2.1, nextSeed := r.1 }, r.2)

/-- The first loop of `World::update`: every node moves, in order. -/
def moveAll (P : Platform R) (rng : Rng G) : List (Node R) → G → List (Node R) × G
  | [], g => ([], g)
  | n :: ns, g =>
    let m := Node.move P rng n g
    let rest := moveAll P rng ns m.2
    (m.1 :: rest.1, rest.2)

/-- One round of the second loop of `World::update`: node `i` is updated in
place against the current nodes, then written to the stream. -/
def checkStep (P : Platform R) (st : List (Node R) × List (Record R)) (i : Nat) :
    List (Node R) × List (Record R) :=
  match st.1[i]? with
  | some n =>
    let n := Node.update P n st.1
    (st.1.set i n, st.2 ++ [n.record])
  | none => st

/-- The second loop of `World::update`. -/
def checkAll (P : Platform R) (nodes : List (Node R)) (stream : List (Record R)) :
    List (Node R) × List (Record R) :=
  (List.range nodes.length).foldl (checkStep P) (nodes, stream)

/-- The method `World::update`. The incoming state `g` of the process-wide
generator is discarded by `srand(nextSeed)`. -/
def update (P : Platform R) (rng : Rng G) (self : DSim.World R) (_g : G) : DSim.World R × G :=
  let g := rng.srand self.nextSeed
  let stream := self.stream ++ [Record.NODEHEADER]
  let moved := moveAll P rng self.nodes g
  let checked := checkAll P moved.1 stream
  let r := rng.rand moved.2
  ({ self with nodes := checked.1, stream := checked.2, nextSeed := r.1 }, r.2)

end World

/-! ## The argument loop of `main` -/

/-- The struct `WorldParams` of `main.cpp`, without its reference `log` to the
output stream; an `olc::vi2d` is a pair of integers. -/
structure WorldParams (R : Type) where
  numNodes : Int
  minInfTime : Int
  maxInfTime : Int
  suvRate : Dbl R
  reInfect : Bool
  minMaxTravel : Dbl R
  maxMaxTravel : Dbl R
  maxPos : vd2d R
  minPos : vd2d R
  res : Int × Int
  pixSize : Int × Int
  maxSpeed : Dbl R
  randSeed : Int
  origin : Bool
  showRange : Bool

/-- The conversions `std::stoi` and `std::stod` of the C++ library, which
`main` applies to the value of an option: `none` when the conversion throws. -/
structure Conversions (R : Type) where
  stoi : String → Option Int
  stod : String → Option (Dbl R)

/-- How the argument loop of `main` ends: with the report `unknown argument`
and the exit code 1, with the parameters the simulation is started with, or
with an exception thrown by a conversion. -/
inductive ParseResult (R : Type) where
  | unknownArgument (arg : String)
  | start (wp : WorldParams R)
  | thrown

namespace main

variable {R : Type} [LinearOrderedField R]

/-- The initial `WorldParams wp` of `main`; `now` is the value of `time(0)` as
an `int`. The rate `0.8` is the double nearest to the decimal literal. -/
def wp (P : Platform R) (now : Int) : WorldParams R :=
  { numNodes := 3000, minInfTime := 5, maxInfTime := 20, suvRate := Dbl.val (P.rnd (8 / 10)),
    reInfect := false, minMaxTravel := Dbl.val 3, maxMaxTravel := Dbl.val 10,
    maxPos := ⟨Dbl.val 500, Dbl.val 500⟩, minPos := ⟨Dbl.val 0, Dbl.val 0⟩,
    res := (512, 512), pixSize := (2, 2), maxSpeed := Dbl.val 1, randSeed := now, origin := false,
    showRange := false }

/-- The string `argv[i]`. -/
def arg (argv : List String) (i : Int) : String := argv.getD i.toNat default

/-- The body of `if (argc - i <= 1)`: the options without a value. It returns
the parameters and the counter `falls`. -/
def noArgs (argv : List String) (i : Int) (wp : WorldParams R) (falls : Int) :
    WorldParams R × Int :=
  if arg argv i = "--reInf" then ({ wp with reInfect := true }, falls)
  else if arg argv i = "--showRange" then ({ wp with showRange := true }, falls)
  else if arg argv i = "--showOrigins" then ({ wp with origin := true }, falls)
  else (wp, falls + 1)

/-- The body of `if (argc - i >= 2)`: the options with one value. It returns
the index `i`, the parameters and the counter `falls`, or `none` when a
conversion throws. -/
def oneArg (S : Conversions R) (argv : List String) (i : Int) (wp : WorldParams R)
    (falls : Int) : Option (Int × WorldParams R × Int) :=
  if arg argv i = "--file" then some (i + 1, wp, falls)
  else if arg argv i = "--nodeCount" then
    (S.stoi (arg argv (i + 1))).map fun (v : Int) => (i + 1, { wp with numNodes := v }, falls)
  else if arg argv i = "--minMaxTravel" then
    (S.stoi (arg argv (i + 1))).map fun (v : Int) =>
      (i + 1, { wp with minMaxTravel := Dbl.val (v : R) }, falls)
  else if arg argv i = "--maxMaxTravel" then
    (S.stoi (arg argv (i + 1))).map fun (v : Int) =>
      (i + 1, { wp with maxMaxTravel := Dbl.val (v : R) }, falls)
  else if arg argv i = "--suvRate" then
    (S.stod (arg argv (i + 1))).map fun (v : Dbl R) => (i + 1, { wp with suvRate := v }, falls)
  else if arg argv i = "--minMaxTravel" then
    (S.stod (arg argv (i + 1))).map fun (v : Dbl R) => (i + 1, { wp with minMaxTravel := v }, falls)
  else if arg argv i = "--maxMaxTravel" then
    (S.stod (arg argv (i + 1))).map fun (v : Dbl R) => (i + 1, { wp with maxMaxTravel := v }, falls)
  else if arg argv i = "--minPosX" then
    (S.stod (arg argv (i + 1))).map fun (v : Dbl R) =>
      (i + 1, { wp with minPos := { wp.minPos with x := v } }, falls)
  else if arg argv i = "--minPosY" then
    (S.stod (arg argv (i + 1))).map fun (v : Dbl R) =>
      (i + 1, { wp with minPos := { wp.minPos with y := v } }, falls)
  else if arg argv i = "--maxPosX" then
    (S.stod (arg argv (i + 1))).map fun (v : Dbl R) =>
      (i + 1, { wp with maxPos := { wp.maxPos with x := v } }, falls)
  else if arg argv i = "--maxPosY" then
    (S.stod (arg argv (i + 1))).map fun (v : Dbl R) =>
      (i + 1, { wp with maxPos := { wp.maxPos with y := v } }, falls)
  else if arg argv i = "--resX" then
    (S.stoi (arg argv (i + 1))).map fun (v : Int) =>
      (i + 1, { wp with res := (v, wp.res.2) }, falls)
  else if arg argv i = "--resY" then
    (S.stoi (arg argv (i + 1))).map fun (v : Int) =>
      (i + 1, { wp with res := (wp.res.1, v) }, falls)
  else if arg argv i = "--pixX" then
    (S.stoi (arg argv (i + 1))).map fun (v : Int) =>
      (i + 1, { wp with pixSize := (v, wp.pixSize.2) }, falls)
  else if arg argv i = "--pixY" then
    (S.stoi (arg argv (i + 1))).map fun (v : Int) =>
      (i + 1, { wp with pixSize := (wp.pixSize.1, v) }, falls)
  else if arg argv i = "--maxSpeed" then
    (S.stod (arg argv (i + 1))).map fun (v : Dbl R) => (i + 1, { wp with maxSpeed := v }, falls)
  else if arg argv i = "--seed" then
    (S.stoi (arg argv (i + 1))).map fun (v : Int) => (i + 1, { wp with randSeed := v }, falls)
  else some (i, wp, falls + 1)

/-- One round of the argument loop of `main`, up to the test `falls == 2`: the
index `i`, the parameters and `falls` at that test, or `none` when a conversion
throws. -/
def round (S : Conversions R) (argc : Int) (argv : List String) (i : Int)
    (wp : WorldParams R) : Option (Int × WorldParams R × Int) :=
  let falls : Int := 0
  let st := if argc - i ≤ 1 then noArgs argv i wp falls else (wp, falls)
  if argc - i ≥ 2 then oneArg S argv i st.1 st.2 else some (i, st.1, st.2)

/-- The argument loop of `main`, run for at most `fuel` rounds from the index
`i`; `none` when the rounds do not suffice. -/
def loop (S : Conversions R) (argc : Int) (argv : List String) :
    Nat → Int → WorldParams R → Option (ParseResult R)
  | 0, i, wp => if i < argc then none else some (ParseResult.start wp)
  | fuel + 1, i, wp =>
    if i < argc then
      match round S argc argv i wp with
      | none => some ParseResult.thrown
      | some r =>
        if r.2.2 = 2 then some (ParseResult.unknownArgument (arg argv r.1))
        else loop S argc argv fuel (r.1 + 1) r.2.1
    else some (ParseResult.start wp)

/-- The options the argument loop of `main` compares `argv[i]` with. -/
def knownFlags : List String :=
  ["--reInf", "--showRange", "--showOrigins", "--file", "--nodeCount", "--minMaxTravel",
    "--maxMaxTravel", "--suvRate", "--minPosX", "--minPosY", "--maxPosX", "--maxPosY", "--resX",
    "--resY", "--pixX", "--pixY", "--maxSpeed", "--seed"]

/-- What holds of a round that started at the index `i` with the counter
`falls`, when it has a result: the counter has grown by at most 1 and the
index has not gone back. -/
def RoundOk (i falls : Int) (o : Option (Int × WorldParams R × Int)) : Prop :=
  ∀ r, o = some r → r.2.2 ≤ falls + 1 ∧ i ≤ r.1

end main

/-- The function `main` up to the construction of the simulation: the
argument loop over `argv`, whose length is `argc`. -/
def main {R : Type} [LinearOrderedField R] (P : Platform R) (S : Conversions R) (now : Int)
    (argv : List String) : Option (ParseResult R) :=
  main.loop S argv.length argv argv.length 1 (main.wp P now)

/-! ## Definitions used by the statements -/

/-- The infected flag of the node at index `i` of a population (false when
there is no such node). -/
def infectedAt {R : Type} (nodes : List (Node R)) (i : Nat) : Bool :=
  match nodes[i]? with
  | some n => n.infected
  | none => false

/-- The state of the second loop of `World::update` after its first `k` rounds. -/
def checkPrefix {R : Type} [LinearOrderedField R] (P : Platform R) (nodes : List (Node R))
    (stream : List (Record R)) (k : Nat) :
    List (Node R) × List (Record R) :=
  (List.range k).foldl (World.checkStep P) (nodes, stream)

/-- The population after the first loop of `World::update`: the positions the
infection checks of the tick work on. -/
def afterMoves {R G : Type} [LinearOrderedField R] (P : Platform R) (rng : Rng G)
    (w : World R) : List (Node R) :=
  (World.moveAll P rng w.nodes (rng.srand w.nextSeed)).1

/-- A generator whose every draw is 0. -/
def zeroRng : Rng Unit := { RAND_MAX := 32767, srand := fun _ => (), rand := fun _ => (0, ()) }

/-- A node at `(x, 0)`, at home, with the travel radius 5 and the speed bound 1. -/
def chainNode (id : Int) (x : ℝ) (infected : Bool) : Node ℝ :=
  { id := id, cPos := ⟨Dbl.val x, Dbl.val 0⟩, sPos := ⟨Dbl.val x, Dbl.val 0⟩,
    reinfectable := false, infectable := true, infected := infected, infectedFor := 0,
    maxTravel := Dbl.val 5, maxSpeed := Dbl.val 1 }

/-- Three nodes on a line, 3 apart; only the last one is infected. -/
def chainWorld : World ℝ :=
  { nodes := [chainNode 0 3 false, chainNode 1 6 false, chainNode 2 0 true],
    minInfTime := 5, maxInfTime := 20, suvRate := Dbl.val 1, maxSpeed := Dbl.val 1,
    stream := [], nextSeed := 0 }

/-- The program run for `k` ticks. Before tick number `t` the rest of the
process may have drawn from the process-wide generator: `other t` is what it
makes of the generator state. -/
def runTicks {R G : Type} [LinearOrderedField R] (P : Platform R) (rng : Rng G)
    (other : Nat → G → G) : Nat → World R × G → World R × G
  | 0, s => s
  | k + 1, s =>
    let s1 := runTicks P rng other k s
    World.update P rng s1.1 (other k s1.2)

/-- The state of the construction loop of `World::World` after its first `k`
rounds, started with an empty population. -/
def buildPrefix {R G : Type} [LinearOrderedField R] (P : Platform R) (rng : Rng G)
    (minMaxTravel maxMaxTravel : Dbl R) (posDif minPos : vd2d R) (maxSpeed : Dbl R)
    (reInfect : Bool) (log : List (Record R)) (g : G) (k : Nat) :
    List (Node R) × List (Record R) × G :=
  (List.range k).foldl
    (World.addNode P rng minMaxTravel maxMaxTravel posDif minPos maxSpeed reInfect) ([], log, g)

/-- The displacement `posOff` that `Node::move` draws for a node from the
generator state `g`. -/
def drawPosOff {R G : Type} [LinearOrderedField R] (P : Platform R) (rng : Rng G)
    (self : Node R) (g : G) : vd2d R :=
  let d1 := drand P rng g
  let dir := Dbl.mul P (Dbl.mul P d1.1 (PI P)) (Dbl.val 2)
  let d2 := drand P rng d1.2
  let dist := Dbl.mul P d2.1 self.maxSpeed
  vd2d.scale P ⟨Dbl.map P.sin dir, Dbl.map P.cos dir⟩ dist

/-- The part of `Node::move` that follows the drawing of `posOff`. -/
def moveWith {R : Type} [LinearOrderedField R] (P : Platform R) (self : Node R)
    (posOff : vd2d R) : Node R :=
  let ndist := vd2d.mag P (vd2d.sub P (vd2d.add P posOff self.cPos) self.sPos)
  let self := { self with cPos := self.sPos }
  if Dbl.ne ndist (Dbl.val 0) then
    { self with
        cPos := vd2d.add P self.cPos
          (vd2d.scale P (vd2d.norm P (vd2d.sub P (vd2d.add P posOff self.cPos) self.sPos))
            (Dbl.min ndist self.maxTravel)) }
  else self

/-- A generator that follows a script: the state counts the draws since the
seed, `srand` starts at the seed, and the draws number 1 and 2 are `RAND_MAX`
and 7; every other draw is 0. -/
def scriptRng : Rng Int :=
  { RAND_MAX := 32767, srand := fun seed => seed,
    rand := fun g => (if g = 1 then 32767 else if g = 2 then 7 else 0, g + 1) }

/-- A node with home `(0, 0)`, travel radius 5 and speed bound 1, at the
position `(0, y)`. -/
def homeNode (y : ℝ) : Node ℝ :=
  { id := 0, cPos := ⟨Dbl.val 0, Dbl.val y⟩, sPos := ⟨Dbl.val 0, Dbl.val 0⟩,
    reinfectable := false, infectable := true, infected := false, infectedFor := 0,
    maxTravel := Dbl.val 5, maxSpeed := Dbl.val 1 }

/-- Two nodes with the travel radius 10 and the speed bound `speed`, at home,
the first one infected: node 0 at `(0, 0)`, node 1 at `(x, 0)`. -/
def pairWorld (x speed : ℝ) : World ℝ :=
  { nodes :=
      [ { id := 0, cPos := ⟨Dbl.val 0, Dbl.val 0⟩, sPos := ⟨Dbl.val 0, Dbl.val 0⟩,
          reinfectable := false, infectable := true, infected := true, infectedFor := 0,
          maxTravel := Dbl.val 10, maxSpeed := Dbl.val speed },
        { id := 1, cPos := ⟨Dbl.val x, Dbl.val 0⟩, sPos := ⟨Dbl.val x, Dbl.val 0⟩,
          reinfectable := false, infectable := true, infected := false, infectedFor := 0,
          maxTravel := Dbl.val 10, maxSpeed := Dbl.val speed } ],
    minInfTime := 5, maxInfTime := 20, suvRate := Dbl.val 1, maxSpeed := Dbl.val speed,
    stream := [], nextSeed := 0 }

/-- Two nodes at home with the speed bound 2. Node 0, infected, has the home
`(0, 100)` and the travel radius `1.5 + 17 * 2^-51`; node 1 has the home
`(5 * 2^-24, 105.5)` and the travel radius 0. The homes are a little more than
`1.5 + 17 * 2^-51 + 0 + 4` apart. Every coordinate is a `float`, the radius a
`double`. -/
def grazeWorld {R : Type} [LinearOrderedField R] : World R :=
  { nodes :=
      [ { id := 0, cPos := ⟨Dbl.val 0, Dbl.val 100⟩, sPos := ⟨Dbl.val 0, Dbl.val 100⟩,
          reinfectable := false, infectable := true, infected := true, infectedFor := 0,
          maxTravel := Dbl.val (3377699720527889 / 2251799813685248), maxSpeed := Dbl.val 2 },
        { id := 1, cPos := ⟨Dbl.val (5 / 16777216), Dbl.val (211 / 2)⟩,
          sPos := ⟨Dbl.val (5 / 16777216), Dbl.val (211 / 2)⟩,
          reinfectable := false, infectable := true, infected := false, infectedFor := 0,
          maxTravel := Dbl.val 0, maxSpeed := Dbl.val 2 } ],
    minInfTime := 5, maxInfTime := 20, suvRate := Dbl.val 1, maxSpeed := Dbl.val 2,
    stream := [], nextSeed := 0 }

/-- An accurate platform: every arithmetic operation and `sqrt` return their
exact result with a relative error of at most `2^-53`, as the rounding to the
nearest binary64 number does outside overflow and underflow. -/
def Accurate (P : Platform ℝ) : Prop :=
  (∀ x, |P.rnd x - x| ≤ |x| / 2 ^ 53) ∧
    ∀ x, 0 ≤ x → |P.sqrt x - Real.sqrt x| ≤ Real.sqrt x / 2 ^ 53

/-- The computed sine and cosine of an angle are the coordinates of a vector
of length at most `1 + 2^-52`. -/
def TrigBounded (P : Platform ℝ) : Prop :=
  ∀ x, P.sin x * P.sin x + P.cos x * P.cos x ≤ (1 + 1 / 2 ^ 52) * (1 + 1 / 2 ^ 52)

/-- What a tick leaves alone in a node: every field but `cPos` and `infected`. -/
def Node.frame {R : Type} (n : DSim.Node R) :
    Int × vd2d R × Bool × Bool × Int × Dbl R × Dbl R :=
  (n.id, n.sPos, n.reinfectable, n.infectable, n.infectedFor, n.maxTravel, n.maxSpeed)

/-- A chain of agents of the population `ns` from index `i` to index `k` in
which each agent is at distance strictly less than 4 from the next one. -/
def contactChain {R : Type} [LinearOrderedField R] (P : Platform R) (ns : List (Node R)) :
    Nat → Nat → Prop :=
  Relation.ReflTransGen (fun a b => ∃ A B, ns[a]? = some A ∧ ns[b]? = some B ∧
    Dbl.lt (vd2d.mag P (vd2d.sub P A.cPos B.cPos)) (Dbl.val 4) = true)

/-- The movement rule in the words of the specification (section 4.1), for a
drawn displacement `posOff`: the candidate offset is `posOff` plus the offset
of the old position from home; the position is reset to home; when the
candidate magnitude is not zero, the unit direction of the candidate offset
scaled by `min(candidateMagnitude, maxTravel)` is added. -/
def moveSpec {R : Type} [LinearOrderedField R] (P : Platform R) (self : Node R)
    (posOff : vd2d R) : Node R :=
  let candidate := vd2d.sub P (vd2d.add P posOff self.cPos) self.sPos
  let candidateMagnitude := vd2d.mag P candidate
  if Dbl.ne candidateMagnitude (Dbl.val 0) then
    { self with
        cPos := vd2d.add P self.sPos
          (vd2d.scale P (vd2d.norm P candidate) (Dbl.min candidateMagnitude self.maxTravel)) }
  else { self with cPos := self.sPos }

/-- A generator whose first draw after the seed 0 is 1 and whose every other
draw is `RAND_MAX`. -/
def turnRng : Rng Int :=
  { RAND_MAX := 32767, srand := fun seed => seed,
    rand := fun g => (if g = 0 then 1 else 32767, g + 1) }

/-! # Theorems -/

/-! ## Evaluation rules of the double arithmetic -/

@[simp] theorem Dbl.map_val {R : Type} (f : R → R) (a : R) :
    Dbl.map f (Dbl.val a) = Dbl.val (f a) := rfl

@[simp] theorem Dbl.map_nan {R : Type} (f : R → R) : Dbl.map f (Dbl.nan : Dbl R) = Dbl.nan := rfl

section DblRules

variable {R : Type} [LinearOrderedField R]

variable (P : Platform R)

@[simp] theorem Dbl.val_add_val (a b : R) :
    Dbl.add P (Dbl.val a) (Dbl.val b) = Dbl.val (P.rnd (a + b)) := rfl

@[simp] theorem Dbl.val_sub_val (a b : R) :
    Dbl.sub P (Dbl.val a) (Dbl.val b) = Dbl.val (P.rnd (a - b)) := rfl

@[simp] theorem Dbl.val_mul_val (a b : R) :
    Dbl.mul P (Dbl.val a) (Dbl.val b) = Dbl.val (P.rnd (a * b)) := rfl

theorem Dbl.val_div_val (a b : R) :
    Dbl.div P (Dbl.val a) (Dbl.val b) = if b = 0 then Dbl.nan else Dbl.val (P.rnd (a / b)) :=
  rfl

@[simp] theorem Dbl.val_div_val_of_ne (a b : R) (h : b ≠ 0) :
    Dbl.div P (Dbl.val a) (Dbl.val b) = Dbl.val (P.rnd (a / b)) := by
  rw [Dbl.val_div_val, if_neg h]

@[simp] theorem Dbl.val_div_zero (a : R) :
    Dbl.div P (Dbl.val a) (Dbl.val 0) = (Dbl.nan : Dbl R) := by
  rw [Dbl.val_div_val, if_pos rfl]

@[simp] theorem Dbl.nan_add (a : Dbl R) : Dbl.add P Dbl.nan a = Dbl.nan := rfl

@[simp] theorem Dbl.add_nan (a : Dbl R) : Dbl.add P a Dbl.nan = Dbl.nan := by cases a <;> rfl

@[simp] theorem Dbl.nan_sub (a : Dbl R) : Dbl.sub P Dbl.nan a = Dbl.nan := rfl

@[simp] theorem Dbl.sub_nan (a : Dbl R) : Dbl.sub P a Dbl.nan = Dbl.nan := by cases a <;> rfl

@[simp] theorem Dbl.nan_mul (a : Dbl R) : Dbl.mul P Dbl.nan a = Dbl.nan := rfl

@[simp] theorem Dbl.mul_nan (a : Dbl R) : Dbl.mul P a Dbl.nan = Dbl.nan := by cases a <;> rfl

@[simp] theorem Dbl.nan_div (a : Dbl R) : Dbl.div P Dbl.nan a = Dbl.nan := rfl

@[simp] theorem Dbl.div_nan (a : Dbl R) : Dbl.div P a Dbl.nan = Dbl.nan := by cases a <;> rfl

@[simp] theorem Dbl.lt_val_val (a b : R) : Dbl.lt (Dbl.val a) (Dbl.val b) = decide (a < b) := rfl

@[simp] theorem Dbl.lt_nan_left (a : Dbl R) : Dbl.lt Dbl.nan a = false := rfl

@[simp] theorem Dbl.lt_nan_right (a : Dbl R) : Dbl.lt a Dbl.nan = false := by cases a <;> rfl

@[simp] theorem Dbl.ne_val_val (a b : R) : Dbl.ne (Dbl.val a) (Dbl.val b) = decide (a ≠ b) := rfl

@[simp] theorem Dbl.ne_nan_left (a : Dbl R) : Dbl.ne Dbl.nan a = true := rfl

@[simp] theorem Dbl.ne_nan_right (a : Dbl R) : Dbl.ne a Dbl.nan = true := by cases a <;> rfl

theorem Dbl.sqrt_val (f : R → R) (a : R) :
    Dbl.sqrt f (Dbl.val a) = if a < 0 then Dbl.nan else Dbl.val (f a) := rfl

@[simp] theorem Dbl.sqrt_val_of_nonneg (f : R → R) (a : R) (h : 0 ≤ a) :
    Dbl.sqrt f (Dbl.val a) = Dbl.val (f a) := by
  rw [Dbl.sqrt_val, if_neg (not_lt.mpr h)]

@[simp] theorem Dbl.sqrt_nan (f : R → R) : Dbl.sqrt f (Dbl.nan : Dbl R) = Dbl.nan := rfl

theorem Dbl.min_val_val (a b : R) :
    Dbl.min (Dbl.val a) (Dbl.val b) = Dbl.val (if b < a then b else a) := by
  unfold Dbl.min
  by_cases h : b < a <;> simp [h]

@[simp] theorem vd2d.add_mk (a b c d : Dbl R) :
    vd2d.add P (vd2d.mk a b) (vd2d.mk c d) = vd2d.mk (Dbl.add P a c) (Dbl.add P b d) := rfl

@[simp] theorem vd2d.sub_mk (a b c d : Dbl R) :
    vd2d.sub P (vd2d.mk a b) (vd2d.mk c d) = vd2d.mk (Dbl.sub P a c) (Dbl.sub P b d) := rfl

@[simp] theorem vd2d.mul_mk (a b c d : Dbl R) :
    vd2d.mul P (vd2d.mk a b) (vd2d.mk c d) = vd2d.mk (Dbl.mul P a c) (Dbl.mul P b d) := rfl

@[simp] theorem vd2d.scale_mk (a b s : Dbl R) :
    vd2d.scale P (vd2d.mk a b) s = vd2d.mk (Dbl.mul P a s) (Dbl.mul P b s) := rfl

theorem vd2d.mag_mk (a b : Dbl R) :
    vd2d.mag P (vd2d.mk a b) = Dbl.sqrt P.sqrt (Dbl.add P (Dbl.mul P a a) (Dbl.mul P b b)) :=
  rfl

theorem vd2d.norm_mk (a b : Dbl R) :
    vd2d.norm P (vd2d.mk a b) =
      vd2d.mk (Dbl.mul P a (Dbl.div P (Dbl.val 1) (vd2d.mag P (vd2d.mk a b))))
        (Dbl.mul P b (Dbl.div P (Dbl.val 1) (vd2d.mag P (vd2d.mk a b)))) := rfl

end DblRules

/-! ## Rounding to a binary format -/

section Rounding

variable {R : Type} [LinearOrderedField R] [FloorRing R]

theorem roundTo_zero (p : Nat) : roundTo p (0 : R) = 0 := by
  simp [roundTo]

/-- The value of `roundTo p x` for a number `x` of the binade `[2^e, 2^(e+1))`
that is nearer to the multiple `n * 2^(e+1-p)` of the spacing of that binade
than to any other one. -/
theorem roundTo_eq (p : Nat) (x : R) (e n : Int) (h1 : (2 : R) ^ e ≤ |x|)
    (h2 : |x| < (2 : R) ^ (e + 1))
    (h3 : (n : R) - 1 / 2 < x / (2 : R) ^ (e + 1 - (p : Int)))
    (h4 : x / (2 : R) ^ (e + 1 - (p : Int)) < (n : R) + 1 / 2) :
    roundTo p x = (n : R) * (2 : R) ^ (e + 1 - (p : Int)) := by
  have hpos : 0 < |x| := lt_of_lt_of_le (zpow_pos (by norm_num) e) h1
  have hlog : Int.log 2 |x| = e := by
    have a1 : e ≤ Int.log 2 |x| := (Int.zpow_le_iff_le_log (by norm_num) hpos).1 h1
    have a2 : Int.log 2 |x| < e + 1 := (Int.lt_zpow_iff_log_lt (by norm_num) hpos).1 h2
    omega
  unfold roundTo
  simp only [hlog]
  generalize x / (2 : R) ^ (e + 1 - (p : Int)) = q at h3 h4
  congr 1
  by_cases hq : (n : R) ≤ q
  · have hf : ⌊q⌋ = n := by
      rw [Int.floor_eq_iff]; constructor
      · exact hq
      · linarith
    rw [hf, if_pos (by linarith)]
  · have hq1 : q < (n : R) := lt_of_not_le hq
    have hf : ⌊q⌋ = n - 1 := by
      rw [Int.floor_eq_iff]; push_cast; constructor <;> linarith
    rw [hf]
    push_cast
    rw [if_neg (by linarith), if_pos (by linarith)]
    ring

/-- The value of `roundTo p x` for a positive `x`, in the form used to
evaluate it on a numeral. -/
theorem roundTo_of_pos (p : Nat) (x y : R) (e n : Int) (h0 : 0 < x) (h1 : (2 : R) ^ e ≤ x)
    (h2 : x < (2 : R) ^ (e + 1))
    (h3 : (n : R) - 1 / 2 < x / (2 : R) ^ (e + 1 - (p : Int)))
    (h4 : x / (2 : R) ^ (e + 1 - (p : Int)) < (n : R) + 1 / 2)
    (hy : (n : R) * (2 : R) ^ (e + 1 - (p : Int)) = y) :
    roundTo p x = y := by
  rw [← hy]
  exact roundTo_eq p x e n (by rwa [abs_of_pos h0]) (by rwa [abs_of_pos h0]) h3 h4

/-- The rounding `roundTo p` has a relative error of at most `2^-p`. -/
theorem roundTo_rel {R : Type} [LinearOrderedField R] [FloorRing R] (p : Nat) (x : R) :
    |roundTo p x - x| ≤ |x| / 2 ^ p := by
  by_cases hx : x = 0
  · subst hx; simp [roundTo_zero]
  have hpos : 0 < |x| := abs_pos.2 hx
  have hlog : (2 : R) ^ Int.log 2 |x| ≤ |x| := Int.zpow_log_le_self (by norm_num) hpos
  unfold roundTo
  simp only
  generalize Int.log 2 |x| = e at hlog
  have hg : (0 : R) < (2 : R) ^ (e + 1 - (p : Int)) := zpow_pos (by norm_num) _
  have hxq : x = x / (2 : R) ^ (e + 1 - (p : Int)) * (2 : R) ^ (e + 1 - (p : Int)) := by
    field_simp
  generalize x / (2 : R) ^ (e + 1 - (p : Int)) = q at hxq
  have hfl := Int.floor_le q
  have hfl1 := Int.lt_floor_add_one q
  have hm : ∀ m : Int, |(m : R) - q| ≤ 1 / 2 →
      |(m : R) * (2 : R) ^ (e + 1 - (p : Int)) - x| ≤ |x| / 2 ^ p := by
    intro m hmq
    have e1 : (m : R) * (2 : R) ^ (e + 1 - (p : Int)) - x =
        ((m : R) - q) * (2 : R) ^ (e + 1 - (p : Int)) := by
      rw [hxq]; ring
    rw [e1, abs_mul, abs_of_pos hg]
    have e2 : (2 : R) ^ (e + 1 - (p : Int)) = 2 * (2 : R) ^ e / 2 ^ p := by
      rw [zpow_sub₀ (by norm_num), zpow_add₀ (by norm_num), zpow_one, zpow_natCast]
      ring
    rw [e2]
    have h2p : (0 : R) < 2 ^ p := by positivity
    have h2e : (0 : R) < (2 : R) ^ e := zpow_pos (by norm_num) _
    calc |(m : R) - q| * (2 * (2 : R) ^ e / 2 ^ p)
        ≤ 1 / 2 * (2 * (2 : R) ^ e / 2 ^ p) :=
          mul_le_mul_of_nonneg_right hmq (by positivity)
      _ = (2 : R) ^ e / 2 ^ p := by ring
      _ ≤ |x| / 2 ^ p := div_le_div_of_nonneg_right hlog (le_of_lt h2p)
  split_ifs with h1 h2 h3
  · apply hm
    rw [abs_le]; constructor <;> linarith
  · apply hm
    push_cast
    rw [abs_le]; constructor <;> linarith
  · apply hm
    rw [abs_le]; constructor <;> linarith
  · apply hm
    push_cast
    rw [abs_le]; constructor <;> linarith

/-! Values of the binary64 and the binary32 rounding that the evaluations below
meet. The exact values are fixed; `100 + (1.5 + 17 * 2^-51)` rounds up to
`101.5 + 2^-46`, `(4 - 2^-46)^2` rounds down to `16 - 2^-43`, `4 - 2^-60`
rounds up to 4, and the double `0.7` rounds down to the float
`11744051 / 2^24`. -/

theorem double_half : roundTo 53 (1 / 2 : ℝ) = 1 / 2 := by
  apply roundTo_of_pos 53 _ _ (-1) 4503599627370496 <;> norm_num

theorem double_one : roundTo 53 (1 : ℝ) = 1 := by
  apply roundTo_of_pos 53 _ _ 0 4503599627370496 <;> norm_num

theorem double_two : roundTo 53 (2 : ℝ) = 2 := by
  apply roundTo_of_pos 53 _ _ 1 4503599627370496 <;> norm_num

theorem double_four : roundTo 53 (4 : ℝ) = 4 := by
  apply roundTo_of_pos 53 _ _ 2 4503599627370496 <;> norm_num

theorem double_sixteen : roundTo 53 (16 : ℝ) = 16 := by
  apply roundTo_of_pos 53 _ _ 4 4503599627370496 <;> norm_num

theorem double_hundred_two : roundTo 53 (102 : ℝ) = 102 := by
  apply roundTo_of_pos 53 _ _ 6 7177611906121728 <;> norm_num

theorem double_seven_tenths :
    roundTo 53 (3152519739159347 / 4503599627370496 : ℝ) =
      3152519739159347 / 4503599627370496 := by
  apply roundTo_of_pos 53 _ _ (-1) 6305039478318694 <;> norm_num

theorem float_seven_tenths :
    roundTo 24 (3152519739159347 / 4503599627370496 : ℝ) =
      11744051 / 16777216 := by
  apply roundTo_of_pos 24 _ _ (-1) 11744051 <;> norm_num

theorem double_graze_radius :
    roundTo 53 (3377699720527889 / 2251799813685248 : ℝ) =
      3377699720527889 / 2251799813685248 := by
  apply roundTo_of_pos 53 _ _ 0 6755399441055778 <;> norm_num

theorem double_graze_moved :
    roundTo 53 (228557681089052689 / 2251799813685248 : ℝ) =
      7142427534032897 / 70368744177664 := by
  apply roundTo_of_pos 53 _ _ 6 7142427534032897 <;> norm_num

theorem double_graze_dx : roundTo 53 (5 / 16777216 : ℝ) = 5 / 16777216 := by
  apply roundTo_of_pos 53 _ _ (-22) 5629499534213120 <;> norm_num

theorem double_graze_y : roundTo 53 (211 / 2 : ℝ) = 211 / 2 := by
  apply roundTo_of_pos 53 _ _ 6 7423902510743552 <;> norm_num

theorem double_graze_dy :
    roundTo 53 (281474976710655 / 70368744177664 : ℝ) =
      281474976710655 / 70368744177664 := by
  apply roundTo_of_pos 53 _ _ 1 9007199254740960 <;> norm_num

theorem double_graze_dx_sq : roundTo 53 (25 / 281474976710656 : ℝ) = 25 / 281474976710656 := by
  apply roundTo_of_pos 53 _ _ (-44) 7036874417766400 <;> norm_num

theorem double_graze_dy_sq :
    roundTo 53 (79228162514263774643590529025 / 4951760157141521099596496896 : ℝ) =
      140737488355327 / 8796093022208 := by
  apply roundTo_of_pos 53 _ _ 3 9007199254740928 <;> norm_num

theorem double_graze_sum :
    roundTo 53 (4503599627370489 / 281474976710656 : ℝ) =
      4503599627370489 / 281474976710656 := by
  apply roundTo_of_pos 53 _ _ 3 9007199254740978 <;> norm_num

theorem double_four_minus : roundTo 53 ((4 : ℝ) - 1 / 2 ^ 60) = 4 := by
  apply roundTo_of_pos 53 _ _ 1 (2 ^ 53) <;> norm_num

theorem sqrt_four : Real.sqrt 4 = 2 := by
  rw [show (4 : ℝ) = 2 ^ 2 by norm_num]; exact Real.sqrt_sq (by norm_num)

theorem sqrt_sixteen : Real.sqrt 16 = 4 := by
  rw [show (16 : ℝ) = 4 ^ 2 by norm_num]; exact Real.sqrt_sq (by norm_num)

/-- The square root of `16 - 7 * 2^-48` rounds to `4 - 7 * 2^-51`. -/
theorem double_graze_distance :
    roundTo 53 (Real.sqrt (4503599627370489 / 281474976710656)) =
      9007199254740985 / 2251799813685248 := by
  have hpos : (0 : ℝ) < Real.sqrt (4503599627370489 / 281474976710656) :=
    Real.sqrt_pos.2 (by norm_num)
  have hlo : (18014398509481969 / 4503599627370496 : ℝ) <
      Real.sqrt (4503599627370489 / 281474976710656) := by
    rw [Real.lt_sqrt (by norm_num)]; norm_num
  have hhi : Real.sqrt (4503599627370489 / 281474976710656) <
      (18014398509481971 / 4503599627370496 : ℝ) := by
    rw [Real.sqrt_lt' (by norm_num)]; norm_num
  generalize Real.sqrt (4503599627370489 / 281474976710656) = s at hpos hlo hhi
  apply roundTo_of_pos 53 _ _ 1 9007199254740985 hpos
  · norm_num; linarith
  · norm_num; linarith
  · rw [lt_div_iff₀ (by positivity)]; norm_num; linarith
  · rw [div_lt_iff₀ (by positivity)]; norm_num; linarith
  · norm_num

end Rounding

/-! ## The infection check of one node -/

section Check

variable {R G : Type} [LinearOrderedField R]

theorem infectTest_set_infected (P : Platform R) (a b : Node R) (f : Bool) :
    infectTest P { a with infected := f } b = infectTest P a b := rfl

theorem nodeUpdate_eq (P : Platform R) (self : Node R) (nodes : List (Node R)) :
    Node.update P self nodes =
      { self with infected := self.infected ||
          nodes.any (fun node => decide (node.id ≠ self.id) && infectTest P self node) } := by
  unfold Node.update
  induction nodes generalizing self with
  | nil => simp
  | cons n ns ih =>
    rw [List.foldl_cons, ih]
    by_cases hid : n.id = self.id
    · simp [hid]
    · cases hinf : self.infected
      · simp [hid, infectTest_set_infected, Bool.or_assoc]
      · simp [hid, hinf]

end Check

/-! ## The second loop of `World::update` -/

section CheckAll

variable {R G : Type} [LinearOrderedField R]

theorem checkAll_eq_checkPrefix (P : Platform R) (nodes : List (Node R))
    (stream : List (Record R)) :
    World.checkAll P nodes stream = checkPrefix P nodes stream nodes.length := rfl

theorem checkPrefix_succ (P : Platform R) (nodes : List (Node R)) (stream : List (Record R))
    (k : Nat) :
    checkPrefix P nodes stream (k + 1) = World.checkStep P (checkPrefix P nodes stream k) k := by
  simp [checkPrefix, List.range_succ, List.foldl_append]

theorem checkPrefix_getElem? (P : Platform R) (nodes : List (Node R))
    (stream : List (Record R)) (k j : Nat) :
    (checkPrefix P nodes stream k).1[j]? =
      if j < k then
        (nodes[j]?).map (fun n => Node.update P n (checkPrefix P nodes stream j).1)
      else nodes[j]? := by
  induction k generalizing j with
  | zero => simp [checkPrefix]
  | succ k ih =>
    rw [checkPrefix_succ]
    have hk : (checkPrefix P nodes stream k).1[k]? = nodes[k]? := by simpa using ih k
    unfold World.checkStep
    cases hn : nodes[k]? with
    | none =>
      rw [hk, hn]
      simp only [ih j]
      rcases Nat.lt_trichotomy j k with h | h | h
      · simp [h, Nat.lt_succ_of_lt h]
      · subst h; simp [hn]
      · have h1 : ¬ j < k := by omega
        have h2 : ¬ j < k + 1 := by omega
        simp [h1, h2]
    | some n =>
      rw [hk, hn]
      have hlen : k < (checkPrefix P nodes stream k).1.length := by
        have := hk.trans hn
        exact (List.getElem?_eq_some.mp this).1
      simp only [List.getElem?_set, hlen, if_true, ih j]
      rcases Nat.lt_trichotomy j k with h | h | h
      · have h1 : ¬ k = j := by omega
        simp [h, h1, Nat.lt_succ_of_lt h]
      · subst h; simp [hn]
      · have h1 : ¬ j < k := by omega
        have h2 : ¬ j < k + 1 := by omega
        have h3 : ¬ k = j := by omega
        simp [h1, h2, h3]

theorem checkAll_getElem? (P : Platform R) (nodes : List (Node R)) (stream : List (Record R))
    (j : Nat) :
    (World.checkAll P nodes stream).1[j]? =
      (nodes[j]?).map (fun n => Node.update P n (checkPrefix P nodes stream j).1) := by
  rw [checkAll_eq_checkPrefix, checkPrefix_getElem?]
  by_cases h : j < nodes.length
  · simp [h]
  · have : nodes[j]? = none := List.getElem?_eq_none (by omega)
    simp [h, this]

theorem checkPrefix_getElem?_final (P : Platform R) (nodes : List (Node R))
    (stream : List (Record R)) (k j : Nat) :
    (checkPrefix P nodes stream k).1[j]? =
      if j < k then (World.checkAll P nodes stream).1[j]? else nodes[j]? := by
  rw [checkPrefix_getElem?, checkAll_getElem?]

theorem nodeUpdate_id (P : Platform R) (self : Node R) (nodes : List (Node R)) :
    (Node.update P self nodes).id = self.id := by
  rw [nodeUpdate_eq]

theorem nodeUpdate_cPos (P : Platform R) (self : Node R) (nodes : List (Node R)) :
    (Node.update P self nodes).cPos = self.cPos := by
  rw [nodeUpdate_eq]

theorem nodeUpdate_infected (P : Platform R) (self : Node R) (nodes : List (Node R)) :
    (Node.update P self nodes).infected = (self.infected ||
      nodes.any (fun node => decide (node.id ≠ self.id) && infectTest P self node)) := by
  rw [nodeUpdate_eq]

theorem nodeUpdate_of_infected (P : Platform R) (self : Node R) (nodes : List (Node R))
    (h : self.infected = true) : Node.update P self nodes = self := by
  rw [nodeUpdate_eq]
  cases self
  simp_all

theorem infectedAt_checkAll (P : Platform R) (nodes : List (Node R)) (stream : List (Record R))
    (j : Nat) (B : Node R) (hB : nodes[j]? = some B) :
    infectedAt (World.checkAll P nodes stream).1 j =
      (Node.update P B (checkPrefix P nodes stream j).1).infected := by
  simp [infectedAt, checkAll_getElem?, hB]

/-- The infected flag of node `i` after the second loop: it was infected, or
some node with another id is within the contact distance and is infected when
the check of node `i` runs, that is, it was infected before the loop or it
stands before node `i` and has been infected earlier in the loop. -/
theorem checkAll_infected_iff (P : Platform R) (nodes : List (Node R))
    (stream : List (Record R)) (i : Nat) (A : Node R) (hA : nodes[i]? = some A) :
    infectedAt (World.checkAll P nodes stream).1 i = true ↔
      A.infected = true ∨ ∃ j B, nodes[j]? = some B ∧ B.id ≠ A.id ∧
        Dbl.lt (vd2d.mag P (vd2d.sub P A.cPos B.cPos)) (Dbl.val 4) = true ∧
        (B.infected = true ∨
          (j < i ∧ infectedAt (World.checkAll P nodes stream).1 j = true)) := by
  rw [infectedAt_checkAll P nodes stream i A hA, nodeUpdate_infected, Bool.or_eq_true,
    List.any_eq_true]
  apply or_congr Iff.rfl
  constructor
  · rintro ⟨x, hx, hc⟩
    obtain ⟨m, hm⟩ := List.mem_iff_getElem?.mp hx
    rw [checkPrefix_getElem?] at hm
    simp only [Bool.and_eq_true, decide_eq_true_eq, infectTest] at hc
    obtain ⟨hid, ht⟩ := hc
    by_cases hlt : Dbl.lt (vd2d.mag P (vd2d.sub P A.cPos x.cPos)) (Dbl.val 4) = true
    · rw [if_pos hlt] at ht
      by_cases hmi : m < i
      · rw [if_pos hmi] at hm
        cases hB : nodes[m]? with
        | none => simp [hB] at hm
        | some B =>
          simp only [hB, Option.map_some', Option.some.injEq] at hm
          subst hm
          refine ⟨m, B, hB, ?_, ?_, Or.inr ⟨hmi, ?_⟩⟩
          · simpa [nodeUpdate_id] using hid
          · simpa [nodeUpdate_cPos] using hlt
          · rw [infectedAt_checkAll P nodes stream m B hB]; exact ht
      · rw [if_neg hmi] at hm
        exact ⟨m, x, hm, hid, hlt, Or.inl ht⟩
    · rw [if_neg hlt] at ht
      exact absurd ht (by simp)
  · rintro ⟨j, B, hB, hid, hlt, hinf⟩
    by_cases hji : j < i
    · refine ⟨Node.update P B (checkPrefix P nodes stream j).1, ?_, ?_⟩
      · apply List.mem_iff_getElem?.mpr
        exact ⟨j, by rw [checkPrefix_getElem?, if_pos hji, hB]; rfl⟩
      · have hfin : (Node.update P B (checkPrefix P nodes stream j).1).infected = true := by
          rcases hinf with h | ⟨_, h⟩
          · rw [nodeUpdate_infected, h]; rfl
          · rw [← infectedAt_checkAll P nodes stream j B hB]; exact h
        simp [infectTest, nodeUpdate_id, nodeUpdate_cPos, hid, hlt, hfin]
    · refine ⟨B, ?_, ?_⟩
      · apply List.mem_iff_getElem?.mpr
        exact ⟨j, by rw [checkPrefix_getElem?, if_neg hji, hB]⟩
      · have hfin : B.infected = true := by
          rcases hinf with h | ⟨h, _⟩
          · exact h
          · exact absurd h hji
        simp [infectTest, hid, hlt, hfin]

end CheckAll

/-! ## The first loop of `World::update` -/

section MoveAll

variable {R G : Type} [LinearOrderedField R]

theorem move_eq_set_cPos (P : Platform R) (rng : Rng G) (n : Node R) (g : G) :
    (Node.move P rng n g).1 = { n with cPos := (Node.move P rng n g).1.cPos } := by
  unfold Node.move
  simp only
  split <;> rfl

theorem move_infected (P : Platform R) (rng : Rng G) (n : Node R) (g : G) :
    (Node.move P rng n g).1.infected = n.infected := by
  rw [move_eq_set_cPos]

theorem move_id (P : Platform R) (rng : Rng G) (n : Node R) (g : G) :
    (Node.move P rng n g).1.id = n.id := by
  rw [move_eq_set_cPos]

theorem moveAll_getElem? (P : Platform R) (rng : Rng G) (ns : List (Node R)) (g : G) (i : Nat) :
    (World.moveAll P rng ns g).1[i]? =
      (ns[i]?).map (fun n => (Node.move P rng n (World.moveAll P rng (ns.take i) g).2).1) := by
  induction ns generalizing g i with
  | nil => simp [World.moveAll]
  | cons n ns ih =>
    cases i with
    | zero => simp [World.moveAll]
    | succ i => simp [World.moveAll, ih]

theorem moveAll_length (P : Platform R) (rng : Rng G) (ns : List (Node R)) (g : G) :
    (World.moveAll P rng ns g).1.length = ns.length := by
  induction ns generalizing g with
  | nil => simp [World.moveAll]
  | cons n ns ih => simp [World.moveAll, ih]

theorem moveAll_map (P : Platform R) (rng : Rng G) {β : Type} (f : Node R → β)
    (hf : ∀ n g, f (Node.move P rng n g).1 = f n) (ns : List (Node R)) (g : G) :
    (World.moveAll P rng ns g).1.map f = ns.map f := by
  induction ns generalizing g with
  | nil => simp [World.moveAll]
  | cons n ns ih => simp [World.moveAll, ih, hf]

theorem infectedAt_moveAll (P : Platform R) (rng : Rng G) (ns : List (Node R)) (g : G)
    (i : Nat) : infectedAt (World.moveAll P rng ns g).1 i = infectedAt ns i := by
  unfold infectedAt
  rw [moveAll_getElem?]
  cases ns[i]? with
  | none => rfl
  | some n => simp [move_infected]

end MoveAll

/-! ## Construction -/

section Build

variable {R G : Type} [LinearOrderedField R]

theorem buildPrefix_succ (P : Platform R) (rng : Rng G) (minMaxTravel maxMaxTravel : Dbl R)
    (posDif minPos : vd2d R) (maxSpeed : Dbl R) (reInfect : Bool) (log : List (Record R))
    (g : G) (k : Nat) :
    buildPrefix P rng minMaxTravel maxMaxTravel posDif minPos maxSpeed reInfect log g (k + 1) =
      World.addNode P rng minMaxTravel maxMaxTravel posDif minPos maxSpeed reInfect
        (buildPrefix P rng minMaxTravel maxMaxTravel posDif minPos maxSpeed reInfect log g k)
        k := by
  simp [buildPrefix, List.range_succ, List.foldl_append]

theorem World_nodes (P : Platform R) (rng : Rng G) (log : List (Record R)) (numNodes : Int)
    (minInfTime maxInfTime : Int) (suvRate : Dbl R) (reInfect : Bool)
    (minMaxTravel maxMaxTravel : Dbl R) (maxPos minPos : vd2d R) (maxSpeed : Dbl R)
    (randSeed : Int) (g : G) :
    (World.World P rng log numNodes minInfTime maxInfTime suvRate reInfect minMaxTravel
        maxMaxTravel maxPos minPos maxSpeed randSeed g).1.nodes =
      (buildPrefix P rng minMaxTravel maxMaxTravel (vd2d.sub P maxPos minPos) minPos maxSpeed
        reInfect (log ++ [Record.seed randSeed, Record.nodeCount numNodes,
          Record.minInfTime minInfTime, Record.maxInfTime maxInfTime, Record.suvRate suvRate,
          Record.reinfect reInfect, Record.maxSpeed maxSpeed, Record.NODEHEADER])
        (rng.srand randSeed) numNodes.toNat).1 := rfl

theorem buildPrefix_ids (P : Platform R) (rng : Rng G) (minMaxTravel maxMaxTravel : Dbl R)
    (posDif minPos : vd2d R) (maxSpeed : Dbl R) (reInfect : Bool) (log : List (Record R))
    (g : G) (k : Nat) :
    (buildPrefix P rng minMaxTravel maxMaxTravel posDif minPos maxSpeed reInfect log g k).1.map
        (fun n => n.id) = (List.range k).map (fun (i : Nat) => (i : Int)) := by
  induction k with
  | zero => simp [buildPrefix]
  | succ k ih =>
    rw [buildPrefix_succ]
    simp [World.addNode, Node.Node, ih, List.range_succ]

theorem buildPrefix_fresh (P : Platform R) (rng : Rng G) (minMaxTravel maxMaxTravel : Dbl R)
    (posDif minPos : vd2d R) (maxSpeed : Dbl R) (reInfect : Bool) (log : List (Record R))
    (g : G) (k : Nat) (n : Node R)
    (hn : n ∈ (buildPrefix P rng minMaxTravel maxMaxTravel posDif minPos maxSpeed reInfect
      log g k).1) :
    n.cPos = n.sPos ∧ n.infected = false ∧ n.infectedFor = 0 ∧ n.infectable = true ∧
      n.reinfectable = reInfect ∧ n.maxSpeed = Dbl.map P.toFloat maxSpeed := by
  induction k with
  | zero => simp [buildPrefix] at hn
  | succ k ih =>
    rw [buildPrefix_succ] at hn
    simp only [World.addNode, Node.Node, List.mem_append, List.mem_singleton] at hn
    rcases hn with h | h
    · exact ih h
    · subst h; simp

end Build

/-! ## One tick -/

section Tick

variable {R G : Type} [LinearOrderedField R]

theorem update_nodes (P : Platform R) (rng : Rng G) (w : World R) (g : G) :
    (World.update P rng w g).1.nodes =
      (World.checkAll P (afterMoves P rng w) (w.stream ++ [Record.NODEHEADER])).1 := rfl

theorem sqrt_nine : Real.sqrt 9 = 3 := by
  rw [show (9 : ℝ) = 3 ^ 2 by norm_num]; exact Real.sqrt_sq (by norm_num)

theorem sqrt_thirty_six : Real.sqrt 36 = 6 := by
  rw [show (36 : ℝ) = 6 ^ 2 by norm_num]; exact Real.sqrt_sq (by norm_num)

theorem chainWorld_afterMoves :
    afterMoves (Platform.mk id Real.sqrt Real.sin Real.cos id true) zeroRng chainWorld
      = [chainNode 0 3 false, chainNode 1 6 false, chainNode 2 0 true] := by
  simp [afterMoves, World.moveAll, Node.move, drand, chainWorld, chainNode, zeroRng, PI,
    vd2d.mag_mk]

theorem chainWorld_update_nodes :
    (World.update (Platform.mk id Real.sqrt Real.sin Real.cos id true) zeroRng
        chainWorld ()).1.nodes
      = [chainNode 0 3 true, chainNode 1 6 true, chainNode 2 0 true] := by
  rw [update_nodes, chainWorld_afterMoves]
  norm_num [World.checkAll, World.checkStep, List.range_succ, Node.update, infectTest, chainNode,
    vd2d.mag_mk, Dbl.sqrt_val, sqrt_nine, sqrt_thirty_six]

/-- C1 (amended): for an agent `A` that is not infected when the infection
checks of a tick begin, `A` is infected after `World::update` if and only if
some agent `B` with another id is at post-move distance strictly less than 4
from `A` and was infected before the checks began, or stands before `A` in the
population and is itself infected after the tick. -/
theorem infection_spread_tick (P : Platform R) (rng : Rng G) (w : World R) (g : G) (i : Nat)
    (A : Node R) (hA : (afterMoves P rng w)[i]? = some A) (hinf : A.infected = false) :
    infectedAt (World.update P rng w g).1.nodes i = true ↔
      ∃ j B, (afterMoves P rng w)[j]? = some B ∧ B.id ≠ A.id ∧
        Dbl.lt (vd2d.mag P (vd2d.sub P A.cPos B.cPos)) (Dbl.val 4) = true ∧
        (B.infected = true ∨
          (j < i ∧ infectedAt (World.update P rng w g).1.nodes j = true)) := by
  rw [update_nodes, checkAll_infected_iff P _ _ i A hA]
  simp [hinf]

/-- C1 as stated fails: in `chainWorld` node 1 is not infected when the checks
begin, no node infected before the checks is within distance 4 of it, and yet
it is infected after the tick (through node 0, infected earlier in the loop). -/
theorem infection_spread_tick_counterexample :
    afterMoves (Platform.mk id Real.sqrt Real.sin Real.cos id true) zeroRng chainWorld
        = [chainNode 0 3 false, chainNode 1 6 false, chainNode 2 0 true] ∧
      (chainNode 1 6 false).infected = false ∧
      infectedAt (World.update (Platform.mk id Real.sqrt Real.sin Real.cos id true) zeroRng
        chainWorld ()).1.nodes 1 = true ∧
      ¬ ∃ (j : Nat) (B : Node ℝ),
          [chainNode 0 3 false, chainNode 1 6 false, chainNode 2 0 true][j]? = some B ∧
          B.id ≠ (chainNode 1 6 false).id ∧
          Dbl.lt (vd2d.mag (Platform.mk id Real.sqrt Real.sin Real.cos id true)
            (vd2d.sub (Platform.mk id Real.sqrt Real.sin Real.cos id true)
              (chainNode 1 6 false).cPos B.cPos)) (Dbl.val 4) = true ∧
          B.infected = true := by
  refine ⟨chainWorld_afterMoves, rfl, ?_, ?_⟩
  · rw [chainWorld_update_nodes]; rfl
  · rintro ⟨j, B, hB, hid, hlt, hinf⟩
    match j, hB with
    | 0, hB => simp at hB; subst hB; simp [chainNode] at hinf
    | 1, hB => simp at hB; subst hB; simp at hid
    | 2, hB =>
      simp at hB; subst hB
      norm_num [chainNode, vd2d.mag_mk, Dbl.sqrt_val, sqrt_thirty_six] at hlt
    | j + 3, hB => simp at hB

/-- C1 (amended), applied to node 1 of `chainWorld`. -/
theorem infection_spread_tick_witness :
    infectedAt (World.update (Platform.mk id Real.sqrt Real.sin Real.cos id true) zeroRng
        chainWorld ()).1.nodes 1 = true ↔
      ∃ j B, (afterMoves (Platform.mk id Real.sqrt Real.sin Real.cos id true) zeroRng
          chainWorld)[j]? = some B ∧ B.id ≠ (chainNode 1 6 false).id ∧
        Dbl.lt (vd2d.mag (Platform.mk id Real.sqrt Real.sin Real.cos id true)
          (vd2d.sub (Platform.mk id Real.sqrt Real.sin Real.cos id true)
            (chainNode 1 6 false).cPos B.cPos)) (Dbl.val 4) = true ∧
        (B.infected = true ∨
          (j < 1 ∧ infectedAt (World.update (Platform.mk id Real.sqrt Real.sin Real.cos id true)
            zeroRng chainWorld ()).1.nodes j = true)) :=
  infection_spread_tick _ zeroRng chainWorld () 1 (chainNode 1 6 false)
    (by rw [chainWorld_afterMoves]; rfl) rfl

theorem update_infectedAt_mono (P : Platform R) (rng : Rng G) (w : World R) (g : G) (i : Nat)
    (h : infectedAt w.nodes i = true) :
    infectedAt (World.update P rng w g).1.nodes i = true := by
  have h1 : infectedAt (afterMoves P rng w) i = true := by
    unfold afterMoves; rw [infectedAt_moveAll]; exact h
  cases hA : (afterMoves P rng w)[i]? with
  | none => simp [infectedAt, hA] at h1
  | some A =>
    rw [update_nodes, checkAll_infected_iff P _ _ i A hA]
    left
    simpa [infectedAt, hA] using h1

theorem runTicks_infectedAt_mono (P : Platform R) (rng : Rng G) (other : Nat → G → G) (k : Nat)
    (s : World R × G) (i : Nat) (h : infectedAt s.1.nodes i = true) :
    infectedAt (runTicks P rng other k s).1.nodes i = true := by
  induction k with
  | zero => exact h
  | succ k ih =>
    exact update_infectedAt_mono P rng (runTicks P rng other k s).1
      (other k (runTicks P rng other k s).2) i ih

/-- C2: in a population with pairwise distinct ids, an agent `A` that after the
move pass has another agent `B` at distance strictly less than 4, `B` being
infected when the infection checks begin, is infected at the end of the tick. -/
theorem infected_neighbour_infects (P : Platform R) (rng : Rng G) (w : World R) (g : G)
    (hids : (w.nodes.map (fun n => n.id)).Nodup) (i j : Nat) (A B : Node R) (hij : i ≠ j)
    (hA : (afterMoves P rng w)[i]? = some A) (hB : (afterMoves P rng w)[j]? = some B)
    (hnear : Dbl.lt (vd2d.mag P (vd2d.sub P A.cPos B.cPos)) (Dbl.val 4) = true)
    (hinf : B.infected = true) :
    infectedAt (World.update P rng w g).1.nodes i = true := by
  have hmap : (afterMoves P rng w).map (fun n => n.id) = w.nodes.map (fun n => n.id) :=
    moveAll_map P rng (fun n => n.id) (move_id P rng) _ _
  have hids2 : ((afterMoves P rng w).map (fun n => n.id)).Nodup := by rw [hmap]; exact hids
  have hid : B.id ≠ A.id := by
    intro hEq
    have hi : ((afterMoves P rng w).map (fun n => n.id))[i]? = some A.id := by
      rw [List.getElem?_map, hA]; rfl
    have hj : ((afterMoves P rng w).map (fun n => n.id))[j]? = some A.id := by
      rw [List.getElem?_map, hB, ← hEq]; rfl
    obtain ⟨hi1, hi2⟩ := List.getElem?_eq_some.mp hi
    obtain ⟨hj1, hj2⟩ := List.getElem?_eq_some.mp hj
    exact hij ((List.Nodup.getElem_inj_iff hids2).mp (hi2.trans hj2.symm))
  rw [update_nodes, checkAll_infected_iff P _ _ i A hA]
  exact Or.inr ⟨j, B, hB, hid, hnear, Or.inl hinf⟩

/-- C2, applied to node 0 of `chainWorld`, which is 3 away from the infected
node 2. -/
theorem infected_neighbour_infects_witness :
    infectedAt (World.update (Platform.mk id Real.sqrt Real.sin Real.cos id true) zeroRng
      chainWorld ()).1.nodes 0 = true :=
  infected_neighbour_infects _ zeroRng chainWorld () (by decide) 0 2
    (chainNode 0 3 false) (chainNode 2 0 true) (by decide)
    (by rw [chainWorld_afterMoves]; rfl) (by rw [chainWorld_afterMoves]; rfl)
    (by norm_num [chainNode, vd2d.mag_mk, Dbl.sqrt_val, sqrt_nine]) rfl

/-- C3: an agent whose infected flag is true keeps it through any number `k`
of ticks, whatever the generator draws and whatever is drawn between the ticks;
`Node::update` returns an infected agent unchanged and `Node::move` leaves the
flag as it is. -/
theorem infection_monotone (P : Platform R) (rng : Rng G) (other : Nat → G → G) (k : Nat)
    (w : World R) (g : G) (i : Nat) (h : infectedAt w.nodes i = true) :
    infectedAt (runTicks P rng other k (w, g)).1.nodes i = true ∧
      (∀ (n : Node R) (nodes : List (Node R)),
        n.infected = true → Node.update P n nodes = n) ∧
      (∀ (n : Node R) (g1 : G), (Node.move P rng n g1).1.infected = n.infected) :=
  ⟨runTicks_infectedAt_mono P rng other k (w, g) i h,
    fun n nodes hn => nodeUpdate_of_infected P n nodes hn,
    fun n g1 => move_infected P rng n g1⟩

/-- C3, applied to the infected node 2 of `chainWorld` over 50 ticks. -/
theorem infection_monotone_witness :
    infectedAt (runTicks (Platform.mk id Real.sqrt Real.sin Real.cos id true) zeroRng
      (fun _ g => g) 50 (chainWorld, ())).1.nodes 2 = true :=
  (infection_monotone _ zeroRng (fun _ g => g) 50 chainWorld () 2 rfl).1

theorem checkAll_map (P : Platform R) {β : Type} (f : Node R → β)
    (hf : ∀ (n : Node R) (b : Bool), f { n with infected := b } = f n) (nodes : List (Node R))
    (stream : List (Record R)) :
    (World.checkAll P nodes stream).1.map f = nodes.map f := by
  apply List.ext_getElem?
  intro j
  rw [List.getElem?_map, List.getElem?_map, checkAll_getElem?]
  cases nodes[j]? with
  | none => rfl
  | some n => simp [nodeUpdate_eq, hf]

theorem update_map (P : Platform R) (rng : Rng G) {β : Type} (f : Node R → β)
    (hf : ∀ (n : Node R) (b : Bool), f { n with infected := b } = f n)
    (hm : ∀ (n : Node R) (c : vd2d R), f { n with cPos := c } = f n) (w : World R) (g : G) :
    (World.update P rng w g).1.nodes.map f = w.nodes.map f := by
  rw [update_nodes, checkAll_map P f hf]
  exact moveAll_map P rng f (fun n g1 => by rw [move_eq_set_cPos, hm]) _ _

/-- C10: a freshly constructed `World` holds exactly `numNodes` agents when
`numNodes >= 0`, the agent at index `i` has id `i` (so the ids are pairwise
distinct and in creation order), and `World::update` keeps the number of
agents, their order and their ids. -/
theorem population_size_and_ids (P : Platform R) (rng : Rng G) (log : List (Record R))
    (numNodes : Int) (minInfTime maxInfTime : Int) (suvRate : Dbl R) (reInfect : Bool)
    (minMaxTravel maxMaxTravel : Dbl R) (maxPos minPos : vd2d R) (maxSpeed : Dbl R)
    (randSeed : Int) (g : G) (hn : 0 ≤ numNodes) :
    ((World.World P rng log numNodes minInfTime maxInfTime suvRate reInfect minMaxTravel
        maxMaxTravel maxPos minPos maxSpeed randSeed g).1.nodes.length : Int) = numNodes ∧
      (World.World P rng log numNodes minInfTime maxInfTime suvRate reInfect minMaxTravel
        maxMaxTravel maxPos minPos maxSpeed randSeed g).1.nodes.map (fun n => n.id) =
        (List.range numNodes.toNat).map (fun (i : Nat) => (i : Int)) ∧
      ((World.World P rng log numNodes minInfTime maxInfTime suvRate reInfect minMaxTravel
        maxMaxTravel maxPos minPos maxSpeed randSeed g).1.nodes.map (fun n => n.id)).Nodup ∧
      (∀ (w : World R) (g1 : G),
        (World.update P rng w g1).1.nodes.length = w.nodes.length ∧
        (World.update P rng w g1).1.nodes.map (fun n => n.id) = w.nodes.map (fun n => n.id)) := by
  have hids := buildPrefix_ids P rng minMaxTravel maxMaxTravel (vd2d.sub P maxPos minPos) minPos
    maxSpeed reInfect (log ++ [Record.seed randSeed, Record.nodeCount numNodes,
      Record.minInfTime minInfTime, Record.maxInfTime maxInfTime, Record.suvRate suvRate,
      Record.reinfect reInfect, Record.maxSpeed maxSpeed, Record.NODEHEADER])
    (rng.srand randSeed) numNodes.toNat
  rw [← World_nodes P rng log numNodes minInfTime maxInfTime suvRate reInfect minMaxTravel
    maxMaxTravel maxPos minPos maxSpeed randSeed g] at hids
  refine ⟨?_, hids, ?_, ?_⟩
  · have h := congrArg List.length hids
    simp only [List.length_map, List.length_range] at h
    rw [h]
    exact Int.toNat_of_nonneg hn
  · rw [hids]
    apply List.Nodup.map _ (List.nodup_range _)
    intro a b hab
    exact Int.ofNat.inj hab
  · intro w g1
    have h := update_map P rng (fun n => n.id) (fun _ _ => rfl) (fun _ _ => rfl) w g1
    exact ⟨by simpa using congrArg List.length h, h⟩

/-- C10, applied to a population of three agents built with the draws of
`zeroRng`. -/
theorem population_size_and_ids_witness :
    (0 : Int) ≤ 3 ∧
      (World.World (Platform.mk id Real.sqrt Real.sin Real.cos id true) zeroRng [] 3 5 20
        (Dbl.val 1) false (Dbl.val 3) (Dbl.val 10) ⟨Dbl.val 500, Dbl.val 500⟩
        ⟨Dbl.val 0, Dbl.val 0⟩ (Dbl.val 1) 42 ()).1.nodes.map (fun n => n.id) =
        (List.range (3 : Int).toNat).map (fun (i : Nat) => (i : Int)) :=
  ⟨by decide, (population_size_and_ids (Platform.mk id Real.sqrt Real.sin Real.cos id true)
    zeroRng [] 3 5 20 (Dbl.val 1) false (Dbl.val 3) (Dbl.val 10) ⟨Dbl.val 500, Dbl.val 500⟩
    ⟨Dbl.val 0, Dbl.val 0⟩ (Dbl.val 1) 42 () (by decide)).2.1⟩

theorem update_ignores_generator (P : Platform R) (rng : Rng G) (w : World R) (g g1 : G) :
    World.update P rng w g = World.update P rng w g1 := rfl

/-- C5: the world (agents, `nextSeed`, log records) and the generator state
reached by constructing a `World` from a configuration and applying
`World::update` `k` times do not depend on the state of the process-wide
generator before the construction nor on what is drawn from it between the
ticks: the construction seeds from `randSeed` and every tick reseeds from the
stored `nextSeed`. -/
theorem seed_chained_determinism (P : Platform R) (rng : Rng G) (log : List (Record R))
    (numNodes : Int) (minInfTime maxInfTime : Int) (suvRate : Dbl R) (reInfect : Bool)
    (minMaxTravel maxMaxTravel : Dbl R) (maxPos minPos : vd2d R) (maxSpeed : Dbl R)
    (randSeed : Int) (g g1 : G) (other other1 : Nat → G → G) (k : Nat) :
    runTicks P rng other k
        (World.World P rng log numNodes minInfTime maxInfTime suvRate reInfect minMaxTravel
          maxMaxTravel maxPos minPos maxSpeed randSeed g) =
      runTicks P rng other1 k
        (World.World P rng log numNodes minInfTime maxInfTime suvRate reInfect minMaxTravel
          maxMaxTravel maxPos minPos maxSpeed randSeed g1) := by
  induction k with
  | zero => rfl
  | succ k ih =>
    simp only [runTicks]
    rw [ih]
    exact update_ignores_generator P rng _ _ _

/-- Every agent of a freshly constructed `World` is at home, not infected, with
`infectedFor = 0`, `infectable = true` and the configured `reInfect`; its
`maxSpeed` is the configured `maxSpeed` after the narrowing to `float` of the
constructor parameter of `Node::Node`. -/
theorem creation_postcondition (P : Platform R) (rng : Rng G) (log : List (Record R))
    (numNodes : Int) (minInfTime maxInfTime : Int) (suvRate : Dbl R) (reInfect : Bool)
    (minMaxTravel maxMaxTravel : Dbl R) (maxPos minPos : vd2d R) (maxSpeed : Dbl R)
    (randSeed : Int) (g : G) (n : Node R)
    (hn : n ∈ (World.World P rng log numNodes minInfTime maxInfTime suvRate reInfect
      minMaxTravel maxMaxTravel maxPos minPos maxSpeed randSeed g).1.nodes) :
    n.cPos = n.sPos ∧ n.infected = false ∧ n.infectedFor = 0 ∧ n.infectable = true ∧
      n.reinfectable = reInfect ∧ n.maxSpeed = Dbl.map P.toFloat maxSpeed ∧
      (World.World P rng log numNodes minInfTime maxInfTime suvRate reInfect
        minMaxTravel maxMaxTravel maxPos minPos maxSpeed randSeed g).1.maxSpeed = maxSpeed := by
  rw [World_nodes] at hn
  have h := buildPrefix_fresh P rng minMaxTravel maxMaxTravel (vd2d.sub P maxPos minPos) minPos
    maxSpeed reInfect _ _ _ n hn
  exact ⟨h.1, h.2.1, h.2.2.1, h.2.2.2.1, h.2.2.2.2.1, h.2.2.2.2.2, rfl⟩

theorem floor_tenth :
    ⌊(3602879701896397 / 36028797018963968 : ℝ) * 134217728 + 1 / 2⌋ = 13421773 := by
  rw [Int.floor_eq_iff]
  constructor <;> norm_num

/-- C9 fails on the code: `maxSpeed = 0.1` (the `double` nearest to it,
`3602879701896397 / 2^55`). `Node::Node` takes the speed as a `float`, and the
`float` nearest to that `double` is `13421773 / 2^27` (on the binade of 0.1 the
narrowing rounds to a multiple of `2^-27`): the agent stores
`0.100000001490116...` while the `World` stores the configured value. -/
theorem creation_failing_input :
    (World.World
        (Platform.mk id Real.sqrt Real.sin Real.cos
          (fun x => (⌊x * 134217728 + 1 / 2⌋ : ℝ) / 134217728) true)
        zeroRng [] 1 5 20 (Dbl.val 1) false (Dbl.val 3) (Dbl.val 10)
        ⟨Dbl.val 500, Dbl.val 500⟩ ⟨Dbl.val 0, Dbl.val 0⟩
        (Dbl.val (3602879701896397 / 36028797018963968)) 42 ()).1.nodes.map
          (fun n => n.maxSpeed) = [Dbl.val (13421773 / 134217728)] ∧
      (World.World
        (Platform.mk id Real.sqrt Real.sin Real.cos
          (fun x => (⌊x * 134217728 + 1 / 2⌋ : ℝ) / 134217728) true)
        zeroRng [] 1 5 20 (Dbl.val 1) false (Dbl.val 3) (Dbl.val 10)
        ⟨Dbl.val 500, Dbl.val 500⟩ ⟨Dbl.val 0, Dbl.val 0⟩
        (Dbl.val (3602879701896397 / 36028797018963968)) 42 ()).1.maxSpeed =
          Dbl.val (3602879701896397 / 36028797018963968) ∧
      (Dbl.val (13421773 / 134217728) : Dbl ℝ) ≠
        Dbl.val (3602879701896397 / 36028797018963968) := by
  refine ⟨?_, rfl, ?_⟩
  · simp only [World.World, World.addNode, Node.Node, Int.toNat_one,
      show List.range 1 = [0] from rfl, List.foldl_cons, List.foldl_nil, List.nil_append,
      List.map_cons, List.map_nil, Dbl.map_val, floor_tenth]
    norm_num
  · intro h
    injection h with h
    norm_num at h

end Tick

/-! ## The contact rule -/

section Contact

theorem mag_nan (P : Platform ℝ) (v : vd2d ℝ) (h : v.x = Dbl.nan ∨ v.y = Dbl.nan) :
    vd2d.mag P v = Dbl.nan := by
  obtain ⟨x, y⟩ := v
  rcases h with h | h <;> simp only at h <;> subst h <;> simp [vd2d.mag_mk]

/-- The contact test over the reals: without rounding, and with the real
square root, `infectTest(a, b)` is true if and only if the Euclidean distance
of the two positions is strictly less than 4 and `b.infected` is true. -/
theorem contact_rule_exact (P : Platform ℝ) (hrnd : ∀ x, P.rnd x = x)
    (hsqrt : P.sqrt = Real.sqrt) (a b : Node ℝ)
    (ax ay bx by1 : ℝ) (ha : a.cPos = ⟨Dbl.val ax, Dbl.val ay⟩)
    (hb : b.cPos = ⟨Dbl.val bx, Dbl.val by1⟩) :
    infectTest P a b = true ↔
      Real.sqrt ((ax - bx) ^ 2 + (ay - by1) ^ 2) < 4 ∧ b.infected = true := by
  have hnn : (0 : ℝ) ≤ (ax - bx) * (ax - bx) + (ay - by1) * (ay - by1) := by nlinarith
  unfold infectTest
  rw [ha, hb]
  simp only [vd2d.sub_mk, Dbl.val_sub_val, vd2d.mag_mk, Dbl.val_mul_val, Dbl.val_add_val, hrnd,
    Dbl.sqrt_val_of_nonneg _ _ hnn, Dbl.lt_val_val, hsqrt]
  rw [show (ax - bx) ^ 2 + (ay - by1) ^ 2 = (ax - bx) * (ax - bx) + (ay - by1) * (ay - by1) by
    ring]
  by_cases h : Real.sqrt ((ax - bx) * (ax - bx) + (ay - by1) * (ay - by1)) < 4
  · simp [h]
  · simp [h]

/-- C8 (amended): for agents at the positions `(ax, ay)` and `(bx, by)`,
`infectTest(a, b)` is true if and only if the distance the program computes,
`sqrt(dx * dx + dy * dy)` with `dx = ax - bx`, `dy = ay - by` and every
operation rounded to a `double`, is strictly less than 4 and `b.infected` is
true; without rounding and with the real square root (arithmetic over the
reals) that distance is the Euclidean distance of the two positions; the result
does not depend on `a.infected`. (`infectTest` returns a `bool` only: it
changes neither agent.) -/
theorem contact_rule (P : Platform ℝ) (a b : Node ℝ)
    (ax ay bx by1 : ℝ) (ha : a.cPos = ⟨Dbl.val ax, Dbl.val ay⟩)
    (hb : b.cPos = ⟨Dbl.val bx, Dbl.val by1⟩) :
    (infectTest P a b = true ↔
        ((0 ≤ P.rnd (P.rnd (P.rnd (ax - bx) * P.rnd (ax - bx)) +
              P.rnd (P.rnd (ay - by1) * P.rnd (ay - by1))) ∧
          P.sqrt (P.rnd (P.rnd (P.rnd (ax - bx) * P.rnd (ax - bx)) +
              P.rnd (P.rnd (ay - by1) * P.rnd (ay - by1)))) < 4) ∧
          b.infected = true)) ∧
      ((∀ x, P.rnd x = x) → P.sqrt = Real.sqrt →
        (infectTest P a b = true ↔
          Real.sqrt ((ax - bx) ^ 2 + (ay - by1) ^ 2) < 4 ∧ b.infected = true)) ∧
      (∀ f : Bool, infectTest P { a with infected := f } b = infectTest P a b) := by
  refine ⟨?_, fun hrnd hsqrt => contact_rule_exact P hrnd hsqrt a b ax ay bx by1 ha hb,
    fun f => rfl⟩
  unfold infectTest
  rw [ha, hb]
  simp only [vd2d.sub_mk, Dbl.val_sub_val, vd2d.mag_mk, Dbl.val_mul_val, Dbl.val_add_val,
    Dbl.sqrt_val]
  by_cases h0 : P.rnd (P.rnd (P.rnd (ax - bx) * P.rnd (ax - bx)) +
      P.rnd (P.rnd (ay - by1) * P.rnd (ay - by1))) < 0
  · simp [h0, not_le.mpr h0]
  · by_cases h : P.sqrt (P.rnd (P.rnd (P.rnd (ax - bx) * P.rnd (ax - bx)) +
        P.rnd (P.rnd (ay - by1) * P.rnd (ay - by1)))) < 4
    · simp [h0, h, not_lt.mp h0]
    · simp [h0, h]

/-- C8 (amended), applied to nodes 0 and 2 of `chainWorld`, which are 3 apart,
with arithmetic over the reals. -/
theorem contact_rule_witness :
    infectTest (Platform.mk id Real.sqrt Real.sin Real.cos id true) (chainNode 0 3 false)
        (chainNode 2 0 true) = true ↔
      Real.sqrt (((3 : ℝ) - 0) ^ 2 + ((0 : ℝ) - 0) ^ 2) < 4 ∧
        (chainNode 2 0 true).infected = true :=
  (contact_rule (Platform.mk id Real.sqrt Real.sin Real.cos id true) (chainNode 0 3 false)
    (chainNode 2 0 true) 3 0 0 0 rfl rfl).2.1 (fun _ => rfl) rfl

/-- C8 as stated fails on the actual platform: for `a` at `(4, 0)` and an
infected `b` at `(2^-60, 0)` the Euclidean distance `4 - 2^-60` is strictly
less than 4, but the difference `4 - 2^-60` of the coordinates rounds to the
double 4, the computed distance is `sqrt(4 * 4 + 0 * 0) = 4`, and
`infectTest(a, b)` is false. -/
theorem contact_rule_counterexample :
    infectTest (binaryPlatform Real.sqrt Real.sin Real.cos) (chainNode 0 4 false)
        (chainNode 2 (1 / 2 ^ 60) true) = false ∧
      Real.sqrt (((4 : ℝ) - 1 / 2 ^ 60) ^ 2 + ((0 : ℝ) - 0) ^ 2) < 4 ∧
      (chainNode 2 (1 / 2 ^ 60) true).infected = true := by
  refine ⟨?_, ?_, rfl⟩
  · simp only [infectTest, chainNode, binaryPlatform, vd2d.sub_mk, Dbl.val_sub_val, vd2d.mag_mk,
      Dbl.val_mul_val, Dbl.val_add_val, double_four_minus, sub_zero, mul_zero, roundTo_zero,
      add_zero]
    norm_num [Dbl.sqrt_val, double_sixteen, double_four, sqrt_sixteen]
  · rw [Real.sqrt_lt' (by norm_num)]
    norm_num

/-- When a coordinate of one of the two positions is not a number, neither is
the distance, and `infectTest` is false. -/
theorem infectTest_nan (P : Platform ℝ) (a b : Node ℝ)
    (h : a.cPos.x = Dbl.nan ∨ a.cPos.y = Dbl.nan ∨ b.cPos.x = Dbl.nan ∨ b.cPos.y = Dbl.nan) :
    infectTest P a b = false := by
  have hmag : vd2d.mag P (vd2d.sub P a.cPos b.cPos) = Dbl.nan := by
    apply mag_nan
    rcases ha : a.cPos with ⟨ax, ay⟩
    rcases hb : b.cPos with ⟨bx, by1⟩
    rw [ha, hb] at h
    simp only [vd2d.sub_mk]
    rcases h with h | h | h | h <;> simp only at h <;> subst h <;> simp
  simp [infectTest, hmag]

end Contact

/-! ## The geometry of `Node::move` -/

section Geometry

theorem move_eq_moveWith {R G : Type} [LinearOrderedField R] (P : Platform R) (rng : Rng G)
    (self : Node R) (g : G) :
    (Node.move P rng self g).1 = moveWith P self (drawPosOff P rng self g) := by
  unfold Node.move moveWith drawPosOff
  simp only
  split <;> rfl

theorem sqrt_add_le (a b c d : ℝ) :
    Real.sqrt ((a + b) * (a + b) + (c + d) * (c + d)) ≤
      Real.sqrt (a * a + c * c) + Real.sqrt (b * b + d * d) := by
  have h := Complex.abs.add_le ⟨a, c⟩ ⟨b, d⟩
  simpa [Complex.abs_apply, Complex.normSq_apply] using h

theorem sq_add_sq_nonneg (a b : ℝ) : 0 ≤ a * a + b * b := by
  nlinarith [mul_self_nonneg a, mul_self_nonneg b]

theorem sqrt_unit_scale (px py m : ℝ) (h : Real.sqrt (px * px + py * py) ≠ 0) (hm : 0 ≤ m) :
    Real.sqrt
        (px * (1 / Real.sqrt (px * px + py * py)) * m *
            (px * (1 / Real.sqrt (px * px + py * py)) * m) +
          py * (1 / Real.sqrt (px * px + py * py)) * m *
            (py * (1 / Real.sqrt (px * px + py * py)) * m)) = m := by
  have hr : Real.sqrt (px * px + py * py) * Real.sqrt (px * px + py * py) = px * px + py * py :=
    Real.mul_self_sqrt (sq_add_sq_nonneg px py)
  generalize Real.sqrt (px * px + py * py) = r at h hr
  have hEq : px * (1 / r) * m * (px * (1 / r) * m) + py * (1 / r) * m * (py * (1 / r) * m)
      = m * m := by
    field_simp
    linear_combination (m * m) * hr.symm
  rw [hEq]
  exact Real.sqrt_mul_self hm

/-- The position after `Node::move` when every number involved is defined: the
home position when the candidate offset has magnitude 0; no number when the
candidate offset is not zero but the drawn displacement `posOff` is (the
normalisation divides by the magnitude of `posOff`); otherwise the home
position plus the unit direction of `posOff` scaled by
`min(candidateMagnitude, maxTravel)`. -/
theorem moveWith_defined (P : Platform ℝ) (hrnd : ∀ x, P.rnd x = x)
    (hsqrt : P.sqrt = Real.sqrt) (self : Node ℝ)
    (px py cx cy sx sy mt : ℝ) (hc : self.cPos = ⟨Dbl.val cx, Dbl.val cy⟩)
    (hs : self.sPos = ⟨Dbl.val sx, Dbl.val sy⟩) (hmt : self.maxTravel = Dbl.val mt) :
    (moveWith P self ⟨Dbl.val px, Dbl.val py⟩).cPos =
      if Real.sqrt ((px + cx - sx) * (px + cx - sx) + (py + cy - sy) * (py + cy - sy)) = 0 then
        ⟨Dbl.val sx, Dbl.val sy⟩
      else if Real.sqrt (px * px + py * py) = 0 then ⟨Dbl.nan, Dbl.nan⟩
      else
        ⟨Dbl.val (sx + px * (1 / Real.sqrt (px * px + py * py)) *
            (if mt < Real.sqrt ((px + cx - sx) * (px + cx - sx) + (py + cy - sy) * (py + cy - sy))
              then mt
              else Real.sqrt
                ((px + cx - sx) * (px + cx - sx) + (py + cy - sy) * (py + cy - sy)))),
          Dbl.val (sy + py * (1 / Real.sqrt (px * px + py * py)) *
            (if mt < Real.sqrt ((px + cx - sx) * (px + cx - sx) + (py + cy - sy) * (py + cy - sy))
              then mt
              else Real.sqrt
                ((px + cx - sx) * (px + cx - sx) + (py + cy - sy) * (py + cy - sy))))⟩ := by
  unfold moveWith
  simp only [hc, hs, hmt, vd2d.add_mk, vd2d.sub_mk, Dbl.val_add_val, Dbl.val_sub_val,
    vd2d.mag_mk, vd2d.norm_mk, Dbl.val_mul_val, Dbl.sqrt_val_of_nonneg _ _ (sq_add_sq_nonneg _ _),
    hrnd, hsqrt, Dbl.ne_val_val, Dbl.min_val_val, Dbl.val_div_val, add_sub_cancel_right]
  by_cases h1 : Real.sqrt ((px + cx - sx) * (px + cx - sx) + (py + cy - sy) * (py + cy - sy)) = 0
  · simp [h1, hrnd]
  · by_cases h2 : Real.sqrt (px * px + py * py) = 0
    · simp [h1, h2, hrnd]
    · simp [h1, h2, hrnd]

/-- When a coordinate of the drawn displacement or of the current position is
not defined, neither is the new position. -/
theorem moveWith_nan (P : Platform ℝ) (self : Node ℝ) (posOff : vd2d ℝ)
    (h : posOff.x = Dbl.nan ∨ posOff.y = Dbl.nan ∨ self.cPos.x = Dbl.nan ∨
      self.cPos.y = Dbl.nan) :
    (moveWith P self posOff).cPos = ⟨Dbl.nan, Dbl.nan⟩ := by
  have hmag : vd2d.mag P (vd2d.sub P (vd2d.add P posOff self.cPos) self.sPos) = Dbl.nan := by
    apply mag_nan
    obtain ⟨px, py⟩ := posOff
    rcases hc : self.cPos with ⟨cx, cy⟩
    rcases hs : self.sPos with ⟨sx, sy⟩
    rw [hc] at h
    simp only [vd2d.add_mk, vd2d.sub_mk]
    rcases h with h | h | h | h <;> simp only at h <;> subst h <;> simp
  unfold moveWith
  simp only [hmag, Dbl.ne_nan_left, if_true, Dbl.min, Dbl.lt_nan_right]
  rcases self.sPos with ⟨sx, sy⟩
  rcases vd2d.norm P (vd2d.sub P (vd2d.add P posOff (vd2d.mk sx sy)) (vd2d.mk sx sy)) with
    ⟨nx, ny⟩
  simp

theorem ite_lt_eq_min (a b : ℝ) : (if b < a then b else a) = min a b := by
  by_cases h : b < a
  · rw [if_pos h, min_eq_right (le_of_lt h)]
  · rw [if_neg h, min_eq_left (not_lt.mp h)]

/-- The distance from home after `Node::move`, every number involved being
defined and `maxTravel >= 0`: either the candidate offset is not zero while the
drawn displacement is, and the new position is not a number; or the new
position is at distance 0 or `min(candidateMagnitude, maxTravel)` from home,
a distance between 0 and `maxTravel`. -/
theorem moveWith_distance (P : Platform ℝ) (hrnd : ∀ x, P.rnd x = x)
    (hsqrt : P.sqrt = Real.sqrt) (self : Node ℝ)
    (px py cx cy sx sy mt : ℝ) (hc : self.cPos = ⟨Dbl.val cx, Dbl.val cy⟩)
    (hs : self.sPos = ⟨Dbl.val sx, Dbl.val sy⟩) (hmt : self.maxTravel = Dbl.val mt)
    (h0 : 0 ≤ mt) :
    (Real.sqrt ((px + cx - sx) * (px + cx - sx) + (py + cy - sy) * (py + cy - sy)) ≠ 0 ∧
        Real.sqrt (px * px + py * py) = 0 ∧
        (moveWith P self ⟨Dbl.val px, Dbl.val py⟩).cPos = ⟨Dbl.nan, Dbl.nan⟩) ∨
      ∃ nx ny : ℝ,
        (moveWith P self ⟨Dbl.val px, Dbl.val py⟩).cPos = ⟨Dbl.val nx, Dbl.val ny⟩ ∧
        (Real.sqrt ((nx - sx) * (nx - sx) + (ny - sy) * (ny - sy)) = 0 ∨
          Real.sqrt ((nx - sx) * (nx - sx) + (ny - sy) * (ny - sy)) =
            min (Real.sqrt ((px + cx - sx) * (px + cx - sx) + (py + cy - sy) * (py + cy - sy)))
              mt) ∧
        0 ≤ Real.sqrt ((nx - sx) * (nx - sx) + (ny - sy) * (ny - sy)) ∧
        Real.sqrt ((nx - sx) * (nx - sx) + (ny - sy) * (ny - sy)) ≤
          min (Real.sqrt ((px + cx - sx) * (px + cx - sx) + (py + cy - sy) * (py + cy - sy)))
            mt := by
  rw [moveWith_defined P hrnd hsqrt self px py cx cy sx sy mt hc hs hmt]
  by_cases h1 : Real.sqrt ((px + cx - sx) * (px + cx - sx) + (py + cy - sy) * (py + cy - sy)) = 0
  · right
    refine ⟨sx, sy, by rw [if_pos h1], Or.inl (by simp), Real.sqrt_nonneg _, ?_⟩
    simp only [sub_self, mul_zero, add_zero, Real.sqrt_zero]
    exact le_min (Real.sqrt_nonneg _) h0
  · by_cases h2 : Real.sqrt (px * px + py * py) = 0
    · left
      exact ⟨h1, h2, by rw [if_neg h1, if_pos h2]⟩
    · right
      rw [if_neg h1, if_neg h2, ite_lt_eq_min]
      have hm : 0 ≤ min (Real.sqrt
          ((px + cx - sx) * (px + cx - sx) + (py + cy - sy) * (py + cy - sy))) mt :=
        le_min (Real.sqrt_nonneg _) h0
      refine ⟨_, _, rfl, ?_⟩
      simp only [add_sub_cancel_left]
      rw [sqrt_unit_scale px py _ h2 hm]
      exact ⟨Or.inr rfl, hm, le_refl _⟩

/-- After `Node::move` of a node with a defined home and `maxTravel >= 0`, the
position is not a number or lies within `maxTravel` of home. -/
theorem moveWith_within (P : Platform ℝ) (hrnd : ∀ x, P.rnd x = x)
    (hsqrt : P.sqrt = Real.sqrt) (self : Node ℝ)
    (posOff : vd2d ℝ) (sx sy mt : ℝ) (hs : self.sPos = ⟨Dbl.val sx, Dbl.val sy⟩)
    (hmt : self.maxTravel = Dbl.val mt) (h0 : 0 ≤ mt) :
    (moveWith P self posOff).cPos = ⟨Dbl.nan, Dbl.nan⟩ ∨
      ∃ nx ny : ℝ, (moveWith P self posOff).cPos = ⟨Dbl.val nx, Dbl.val ny⟩ ∧
        Real.sqrt ((nx - sx) * (nx - sx) + (ny - sy) * (ny - sy)) ≤ mt := by
  rcases hp : posOff with ⟨px, py⟩
  rcases hc : self.cPos with ⟨cx, cy⟩
  cases px with
  | nan => exact Or.inl (moveWith_nan P self _ (Or.inl rfl))
  | val px =>
    cases py with
    | nan => exact Or.inl (moveWith_nan P self _ (Or.inr (Or.inl rfl)))
    | val py =>
      cases cx with
      | nan => exact Or.inl (moveWith_nan P self _ (Or.inr (Or.inr (Or.inl (by rw [hc])))))
      | val cx =>
        cases cy with
        | nan => exact Or.inl (moveWith_nan P self _ (Or.inr (Or.inr (Or.inr (by rw [hc])))))
        | val cy =>
          rcases moveWith_distance P hrnd hsqrt self px py cx cy sx sy mt hc hs hmt h0 with
            h | ⟨nx, ny, h1, _, _, h4⟩
          · exact Or.inl h.2.2
          · exact Or.inr ⟨nx, ny, h1, le_trans h4 (min_le_right _ _)⟩

/-- C4 fails on the code: the node `homeNode 1`, one unit away from its home,
draws the speed 0. The candidate offset has magnitude 1, so the guard
`ndist != 0` passes, but the vector that is normalised after the reset to home
is the drawn displacement `(0, 0)`: the division by its magnitude has no value
and the new position is not a number, at no distance from home (the claim
promises the distance 0 or `min(1, 5) = 1`). The node `homeNode 1` is what
`Node::move` makes of the node at home when the draws are the direction 0 and
the full speed. -/
theorem move_distance_failing_input :
    (Node.move (Platform.mk id Real.sqrt Real.sin Real.cos id true) scriptRng (homeNode 0) 0).1 =
        homeNode 1 ∧
      (Node.move (Platform.mk id Real.sqrt Real.sin Real.cos id true) zeroRng
          (homeNode 1) ()).1.cPos =
        ⟨Dbl.nan, Dbl.nan⟩ ∧
      vd2d.mag (Platform.mk id Real.sqrt Real.sin Real.cos id true)
        (vd2d.sub (Platform.mk id Real.sqrt Real.sin Real.cos id true)
          (Node.move (Platform.mk id Real.sqrt Real.sin Real.cos id true) zeroRng
            (homeNode 1) ()).1.cPos (homeNode 1).sPos) = Dbl.nan := by
  have h2 : (Node.move (Platform.mk id Real.sqrt Real.sin Real.cos id true) zeroRng
      (homeNode 1) ()).1.cPos = ⟨Dbl.nan, Dbl.nan⟩ := by
    norm_num [Node.move, drand, zeroRng, homeNode, PI, vd2d.mag_mk, vd2d.norm_mk, Dbl.sqrt_val,
      Dbl.val_div_val]
  refine ⟨?_, h2, ?_⟩
  · norm_num [Node.move, drand, scriptRng, homeNode, PI, vd2d.mag_mk, vd2d.norm_mk,
      Dbl.sqrt_val, Dbl.val_div_val, Dbl.min_val_val]
  · rw [h2]; rfl

theorem sqrt_sub_comm (a b c d : ℝ) :
    Real.sqrt ((a - b) * (a - b) + (c - d) * (c - d)) =
      Real.sqrt ((b - a) * (b - a) + (d - c) * (d - c)) := by
  congr 1; ring

/-- Two points that lie within `m0` and `m1` of two homes which are at least
`m0 + m1 + t` apart are at least `t` apart. -/
theorem far_homes_far_points (x0 y0 x1 y1 ax ay bx by1 m0 m1 t : ℝ)
    (ha : Real.sqrt ((ax - x0) * (ax - x0) + (ay - y0) * (ay - y0)) ≤ m0)
    (hb : Real.sqrt ((bx - x1) * (bx - x1) + (by1 - y1) * (by1 - y1)) ≤ m1)
    (hfar : m0 + m1 + t ≤ Real.sqrt ((x0 - x1) * (x0 - x1) + (y0 - y1) * (y0 - y1))) :
    t ≤ Real.sqrt ((bx - ax) * (bx - ax) + (by1 - ay) * (by1 - ay)) := by
  have h1 := sqrt_add_le (x0 - ax) (ax - x1) (y0 - ay) (ay - y1)
  have h2 := sqrt_add_le (ax - bx) (bx - x1) (ay - by1) (by1 - y1)
  have e1 : x0 - ax + (ax - x1) = x0 - x1 := by ring
  have e2 : y0 - ay + (ay - y1) = y0 - y1 := by ring
  have e3 : ax - bx + (bx - x1) = ax - x1 := by ring
  have e4 : ay - by1 + (by1 - y1) = ay - y1 := by ring
  rw [e1, e2] at h1
  rw [e3, e4] at h2
  rw [sqrt_sub_comm x0 ax y0 ay] at h1
  rw [sqrt_sub_comm ax bx ay by1] at h2
  linarith

/-- Two moved nodes whose homes are at least `mt0 + mt1 + 4` apart are not in
contact: a position is not a number, or the positions are at least 4 apart. -/
theorem far_homes_no_contact (P : Platform ℝ) (hrnd : ∀ x, P.rnd x = x)
    (hsqrt : P.sqrt = Real.sqrt) (n0 n1 : Node ℝ)
    (p0 p1 : vd2d ℝ) (x0 y0 x1 y1 mt0 mt1 : ℝ)
    (hs0 : n0.sPos = ⟨Dbl.val x0, Dbl.val y0⟩) (hs1 : n1.sPos = ⟨Dbl.val x1, Dbl.val y1⟩)
    (hm0 : n0.maxTravel = Dbl.val mt0) (hm1 : n1.maxTravel = Dbl.val mt1)
    (h0 : 0 ≤ mt0) (h1 : 0 ≤ mt1)
    (hfar : mt0 + mt1 + 4 ≤ Real.sqrt ((x0 - x1) * (x0 - x1) + (y0 - y1) * (y0 - y1))) :
    Dbl.lt (vd2d.mag P (vd2d.sub P (moveWith P n1 p1).cPos (moveWith P n0 p0).cPos))
      (Dbl.val 4) = false := by
  rcases moveWith_within P hrnd hsqrt n0 p0 x0 y0 mt0 hs0 hm0 h0 with ha | ⟨ax, ay, ha, hda⟩
  · rw [ha, mag_nan P _ (Or.inl (by cases (moveWith P n1 p1).cPos; simp))]
    rfl
  · rcases moveWith_within P hrnd hsqrt n1 p1 x1 y1 mt1 hs1 hm1 h1 with hb | ⟨bx, by1, hb, hdb⟩
    · rw [hb, mag_nan P _ (Or.inl rfl)]
      rfl
    · rw [ha, hb]
      simp only [vd2d.sub_mk, Dbl.val_sub_val, vd2d.mag_mk, Dbl.val_mul_val, Dbl.val_add_val,
        Dbl.sqrt_val_of_nonneg _ _ (sq_add_sq_nonneg _ _), hrnd, hsqrt, Dbl.lt_val_val,
        decide_eq_false_iff_not, not_lt]
      exact far_homes_far_points x0 y0 x1 y1 ax ay bx by1 mt0 mt1 4 hda hdb hfar

/-! ### Rounding errors

On an accurate platform a moved node is within `maxTravel + 2^-28` of a home
whose coordinates are at most `2^20`, and the computed distance of two
positions is their Euclidean distance up to the factor `(1 ± 2^-53)^3`. -/

/-- The actual platform is accurate. -/
theorem binaryPlatform_accurate : Accurate (binaryPlatform Real.sqrt Real.sin Real.cos) := by
  refine ⟨fun x => roundTo_rel 53 x, fun x _ => ?_⟩
  have h := roundTo_rel 53 (Real.sqrt x)
  rw [abs_of_nonneg (Real.sqrt_nonneg x)] at h
  exact h

/-- The sine and the cosine of the actual platform are bounded. -/
theorem binaryPlatform_trigBounded :
    TrigBounded (binaryPlatform Real.sqrt Real.sin Real.cos) := by
  intro x
  have hs := roundTo_rel 53 (Real.sin x)
  have hc := roundTo_rel 53 (Real.cos x)
  have hs1 : |roundTo 53 (Real.sin x)| ≤ (1 + 1 / 2 ^ 53) * |Real.sin x| := by
    have h1 : |roundTo 53 (Real.sin x)| ≤ |roundTo 53 (Real.sin x) - Real.sin x| +
        |Real.sin x| := by
      have := abs_add (roundTo 53 (Real.sin x) - Real.sin x) (Real.sin x)
      simpa using this
    linarith
  have hc1 : |roundTo 53 (Real.cos x)| ≤ (1 + 1 / 2 ^ 53) * |Real.cos x| := by
    have h1 : |roundTo 53 (Real.cos x)| ≤ |roundTo 53 (Real.cos x) - Real.cos x| +
        |Real.cos x| := by
      have := abs_add (roundTo 53 (Real.cos x) - Real.cos x) (Real.cos x)
      simpa using this
    linarith
  simp only [binaryPlatform]
  have hb : (0 : ℝ) ≤ 1 + 1 / 2 ^ 53 := by norm_num
  have h1 : roundTo 53 (Real.sin x) * roundTo 53 (Real.sin x) ≤
      ((1 + 1 / 2 ^ 53) * |Real.sin x|) * ((1 + 1 / 2 ^ 53) * |Real.sin x|) := by
    rw [← abs_mul_abs_self (roundTo 53 (Real.sin x))]
    exact mul_le_mul hs1 hs1 (abs_nonneg _) (mul_nonneg hb (abs_nonneg _))
  have h2 : roundTo 53 (Real.cos x) * roundTo 53 (Real.cos x) ≤
      ((1 + 1 / 2 ^ 53) * |Real.cos x|) * ((1 + 1 / 2 ^ 53) * |Real.cos x|) := by
    rw [← abs_mul_abs_self (roundTo 53 (Real.cos x))]
    exact mul_le_mul hc1 hc1 (abs_nonneg _) (mul_nonneg hb (abs_nonneg _))
  have h3 : ((1 + 1 / 2 ^ 53) * |Real.sin x|) * ((1 + 1 / 2 ^ 53) * |Real.sin x|) +
      ((1 + 1 / 2 ^ 53) * |Real.cos x|) * ((1 + 1 / 2 ^ 53) * |Real.cos x|) =
      (1 + 1 / 2 ^ 53) ^ 2 := by
    have := Real.sin_sq_add_cos_sq x
    rw [show ((1 + 1 / 2 ^ 53) * |Real.sin x|) * ((1 + 1 / 2 ^ 53) * |Real.sin x|) +
      ((1 + 1 / 2 ^ 53) * |Real.cos x|) * ((1 + 1 / 2 ^ 53) * |Real.cos x|) =
      (1 + 1 / 2 ^ 53) ^ 2 * (|Real.sin x| * |Real.sin x| + |Real.cos x| * |Real.cos x|) by
        ring, abs_mul_abs_self, abs_mul_abs_self]
    rw [show Real.sin x * Real.sin x + Real.cos x * Real.cos x =
      Real.sin x ^ 2 + Real.cos x ^ 2 by ring, this, mul_one]
  have h4 : ((1 : ℝ) + 1 / 2 ^ 53) ^ 2 ≤ (1 + 1 / 2 ^ 52) * (1 + 1 / 2 ^ 52) := by norm_num
  linarith

theorem rnd_abs_le (P : Platform ℝ) (hacc : Accurate P) (x : ℝ) :
    |P.rnd x| ≤ (1 + 1 / 2 ^ 53) * |x| := by
  have h := hacc.1 x
  have h1 : |P.rnd x| ≤ |P.rnd x - x| + |x| := by
    have := abs_add (P.rnd x - x) x
    simpa using this
  linarith

theorem rnd_abs_ge (P : Platform ℝ) (hacc : Accurate P) (x : ℝ) :
    (1 - 1 / 2 ^ 53) * |x| ≤ |P.rnd x| := by
  have h := hacc.1 x
  have h1 : |x| ≤ |P.rnd x - x| + |P.rnd x| := by
    have := abs_sub (P.rnd x) (P.rnd x - x)
    have e : P.rnd x - (P.rnd x - x) = x := by ring
    rw [e] at this
    linarith
  linarith

theorem rnd_zero (P : Platform ℝ) (hacc : Accurate P) : P.rnd 0 = 0 := by
  have h := hacc.1 0
  simp at h
  exact h

theorem rnd_ge_of_nonneg (P : Platform ℝ) (hacc : Accurate P) (x : ℝ) (hx : 0 ≤ x) :
    (1 - 1 / 2 ^ 53) * x ≤ P.rnd x := by
  have h := hacc.1 x
  rw [abs_of_nonneg hx] at h
  have := (abs_le.1 h).1
  linarith

theorem rnd_le_of_nonneg (P : Platform ℝ) (hacc : Accurate P) (x : ℝ) (hx : 0 ≤ x) :
    P.rnd x ≤ (1 + 1 / 2 ^ 53) * x := by
  have h := hacc.1 x
  rw [abs_of_nonneg hx] at h
  have := (abs_le.1 h).2
  linarith

theorem platform_sqrt_ge (P : Platform ℝ) (hacc : Accurate P) (x : ℝ) (hx : 0 ≤ x) :
    (1 - 1 / 2 ^ 53) * Real.sqrt x ≤ P.sqrt x := by
  have h := hacc.2 x hx
  have := (abs_le.1 h).1
  linarith

theorem platform_sqrt_le (P : Platform ℝ) (hacc : Accurate P) (x : ℝ) (hx : 0 ≤ x) :
    P.sqrt x ≤ (1 + 1 / 2 ^ 53) * Real.sqrt x := by
  have h := hacc.2 x hx
  have := (abs_le.1 h).2
  linarith

theorem magsq_ge (P : Platform ℝ) (hacc : Accurate P) (p q : ℝ) :
    (1 - 1 / 2 ^ 53) ^ 2 * (p * p + q * q) ≤ P.rnd (P.rnd (p * p) + P.rnd (q * q)) := by
  have hp := rnd_ge_of_nonneg P hacc (p * p) (mul_self_nonneg p)
  have hq := rnd_ge_of_nonneg P hacc (q * q) (mul_self_nonneg q)
  have hpq : 0 ≤ P.rnd (p * p) + P.rnd (q * q) := by
    have : (0 : ℝ) ≤ (1 - 1 / 2 ^ 53) := by norm_num
    nlinarith [mul_self_nonneg p, mul_self_nonneg q]
  have hs := rnd_ge_of_nonneg P hacc _ hpq
  have ha : (0 : ℝ) ≤ (1 - 1 / 2 ^ 53) := by norm_num
  calc (1 - 1 / 2 ^ 53) ^ 2 * (p * p + q * q)
      = (1 - 1 / 2 ^ 53) * ((1 - 1 / 2 ^ 53) * (p * p) + (1 - 1 / 2 ^ 53) * (q * q)) := by ring
    _ ≤ (1 - 1 / 2 ^ 53) * (P.rnd (p * p) + P.rnd (q * q)) :=
        mul_le_mul_of_nonneg_left (by linarith) ha
    _ ≤ _ := hs

theorem magsq_nonneg (P : Platform ℝ) (hacc : Accurate P) (p q : ℝ) :
    0 ≤ P.rnd (P.rnd (p * p) + P.rnd (q * q)) := by
  have h := magsq_ge P hacc p q
  have : 0 ≤ (1 - 1 / 2 ^ 53 : ℝ) ^ 2 * (p * p + q * q) :=
    mul_nonneg (by positivity) (by nlinarith [mul_self_nonneg p, mul_self_nonneg q])
  linarith

theorem mag_ge (P : Platform ℝ) (hacc : Accurate P) (p q : ℝ) :
    (1 - 1 / 2 ^ 53) ^ 2 * Real.sqrt (p * p + q * q) ≤
      P.sqrt (P.rnd (P.rnd (p * p) + P.rnd (q * q))) := by
  have ha : (0 : ℝ) ≤ (1 - 1 / 2 ^ 53) := by norm_num
  have h1 := platform_sqrt_ge P hacc _ (magsq_nonneg P hacc p q)
  have h2 : (1 - 1 / 2 ^ 53) * Real.sqrt (p * p + q * q) ≤
      Real.sqrt (P.rnd (P.rnd (p * p) + P.rnd (q * q))) := by
    apply Real.le_sqrt_of_sq_le
    rw [mul_pow, Real.sq_sqrt (sq_add_sq_nonneg p q)]
    exact magsq_ge P hacc p q
  calc (1 - 1 / 2 ^ 53) ^ 2 * Real.sqrt (p * p + q * q)
      = (1 - 1 / 2 ^ 53) * ((1 - 1 / 2 ^ 53) * Real.sqrt (p * p + q * q)) := by ring
    _ ≤ (1 - 1 / 2 ^ 53) * Real.sqrt (P.rnd (P.rnd (p * p) + P.rnd (q * q))) :=
        mul_le_mul_of_nonneg_left h2 ha
    _ ≤ _ := h1


/-- The computed unit direction has a magnitude of at most `((1 + u) / (1 - u))^2`. -/
theorem unit_norm_le (P : Platform ℝ) (hacc : Accurate P) (p q : ℝ)
    (hM : P.sqrt (P.rnd (P.rnd (p * p) + P.rnd (q * q))) ≠ 0) :
    P.rnd (p * P.rnd (1 / P.sqrt (P.rnd (P.rnd (p * p) + P.rnd (q * q))))) *
        P.rnd (p * P.rnd (1 / P.sqrt (P.rnd (P.rnd (p * p) + P.rnd (q * q))))) +
      P.rnd (q * P.rnd (1 / P.sqrt (P.rnd (P.rnd (p * p) + P.rnd (q * q))))) *
        P.rnd (q * P.rnd (1 / P.sqrt (P.rnd (P.rnd (p * p) + P.rnd (q * q))))) ≤
      ((1 + 1 / 2 ^ 53) ^ 2 / (1 - 1 / 2 ^ 53) ^ 2) ^ 2 := by
  have hMge := mag_ge P hacc p q
  generalize P.sqrt (P.rnd (P.rnd (p * p) + P.rnd (q * q))) = M at hM hMge
  have hQ0 : 0 ≤ Real.sqrt (p * p + q * q) := Real.sqrt_nonneg _
  have hQ : Real.sqrt (p * p + q * q) * Real.sqrt (p * p + q * q) = p * p + q * q :=
    Real.mul_self_sqrt (sq_add_sq_nonneg p q)
  generalize Real.sqrt (p * p + q * q) = N at hMge hQ0 hQ
  have ha : (0 : ℝ) < (1 - 1 / 2 ^ 53) ^ 2 := by norm_num
  have hM0 : 0 ≤ M := le_trans (mul_nonneg (le_of_lt ha) hQ0) hMge
  have hMpos : 0 < M := lt_of_le_of_ne hM0 (Ne.symm hM)
  have hr := rnd_abs_le P hacc (1 / M)
  rw [abs_of_pos (by positivity : (0 : ℝ) < 1 / M)] at hr
  generalize P.rnd (1 / M) = r at hr
  have hnx := rnd_abs_le P hacc (p * r)
  have hny := rnd_abs_le P hacc (q * r)
  rw [abs_mul] at hnx hny
  -- |nx| * M ≤ b^2 * |p|
  have hb : (0 : ℝ) ≤ 1 + 1 / 2 ^ 53 := by norm_num
  have hrM : |r| * M ≤ (1 + 1 / 2 ^ 53) := by
    calc |r| * M ≤ (1 + 1 / 2 ^ 53) * (1 / M) * M :=
          mul_le_mul_of_nonneg_right hr hM0
      _ = 1 + 1 / 2 ^ 53 := by rw [mul_assoc, one_div_mul_cancel hM, mul_one]
  have hx : |P.rnd (p * r)| * M ≤ (1 + 1 / 2 ^ 53) ^ 2 * |p| := by
    calc |P.rnd (p * r)| * M ≤ (1 + 1 / 2 ^ 53) * (|p| * |r|) * M :=
          mul_le_mul_of_nonneg_right hnx hM0
      _ = (1 + 1 / 2 ^ 53) * |p| * (|r| * M) := by ring
      _ ≤ (1 + 1 / 2 ^ 53) * |p| * (1 + 1 / 2 ^ 53) :=
          mul_le_mul_of_nonneg_left hrM (mul_nonneg hb (abs_nonneg p))
      _ = _ := by ring
  have hy : |P.rnd (q * r)| * M ≤ (1 + 1 / 2 ^ 53) ^ 2 * |q| := by
    calc |P.rnd (q * r)| * M ≤ (1 + 1 / 2 ^ 53) * (|q| * |r|) * M :=
          mul_le_mul_of_nonneg_right hny hM0
      _ = (1 + 1 / 2 ^ 53) * |q| * (|r| * M) := by ring
      _ ≤ (1 + 1 / 2 ^ 53) * |q| * (1 + 1 / 2 ^ 53) :=
          mul_le_mul_of_nonneg_left hrM (mul_nonneg hb (abs_nonneg q))
      _ = _ := by ring
  generalize P.rnd (p * r) = nx at hx
  generalize P.rnd (q * r) = ny at hy
  -- squares
  have hx2 : nx * nx * (M * M) ≤ (1 + 1 / 2 ^ 53) ^ 4 * (p * p) := by
    have h0 : 0 ≤ |nx| * M := mul_nonneg (abs_nonneg _) hM0
    have := mul_le_mul hx hx h0 (le_trans h0 hx)
    have e1 : |nx| * M * (|nx| * M) = nx * nx * (M * M) := by
      rw [show |nx| * M * (|nx| * M) = (|nx| * |nx|) * (M * M) by ring, abs_mul_abs_self]
    have e2 : (1 + 1 / 2 ^ 53 : ℝ) ^ 2 * |p| * ((1 + 1 / 2 ^ 53) ^ 2 * |p|) =
        (1 + 1 / 2 ^ 53) ^ 4 * (p * p) := by
      rw [show (1 + 1 / 2 ^ 53 : ℝ) ^ 2 * |p| * ((1 + 1 / 2 ^ 53) ^ 2 * |p|) =
        (1 + 1 / 2 ^ 53) ^ 4 * (|p| * |p|) by ring, abs_mul_abs_self]
    rw [e1, e2] at this
    exact this
  have hy2 : ny * ny * (M * M) ≤ (1 + 1 / 2 ^ 53) ^ 4 * (q * q) := by
    have h0 : 0 ≤ |ny| * M := mul_nonneg (abs_nonneg _) hM0
    have := mul_le_mul hy hy h0 (le_trans h0 hy)
    have e1 : |ny| * M * (|ny| * M) = ny * ny * (M * M) := by
      rw [show |ny| * M * (|ny| * M) = (|ny| * |ny|) * (M * M) by ring, abs_mul_abs_self]
    have e2 : (1 + 1 / 2 ^ 53 : ℝ) ^ 2 * |q| * ((1 + 1 / 2 ^ 53) ^ 2 * |q|) =
        (1 + 1 / 2 ^ 53) ^ 4 * (q * q) := by
      rw [show (1 + 1 / 2 ^ 53 : ℝ) ^ 2 * |q| * ((1 + 1 / 2 ^ 53) ^ 2 * |q|) =
        (1 + 1 / 2 ^ 53) ^ 4 * (|q| * |q|) by ring, abs_mul_abs_self]
    rw [e1, e2] at this
    exact this
  -- N^2 ≤ M^2 / a^4
  have hMM : (1 - 1 / 2 ^ 53) ^ 4 * (p * p + q * q) ≤ M * M := by
    have h0 : 0 ≤ (1 - 1 / 2 ^ 53 : ℝ) ^ 2 * N := mul_nonneg (le_of_lt ha) hQ0
    have := mul_le_mul hMge hMge h0 hM0
    calc (1 - 1 / 2 ^ 53) ^ 4 * (p * p + q * q)
        = (1 - 1 / 2 ^ 53) ^ 2 * N * ((1 - 1 / 2 ^ 53) ^ 2 * N) := by rw [← hQ]; ring
      _ ≤ M * M := this
  have hsum : (nx * nx + ny * ny) * (M * M) ≤
      (1 + 1 / 2 ^ 53) ^ 4 * (p * p + q * q) := by linarith
  have hMMpos : 0 < M * M := mul_pos hMpos hMpos
  have ha4 : (0 : ℝ) < (1 - 1 / 2 ^ 53) ^ 4 := by norm_num
  have hfin : (nx * nx + ny * ny) * ((1 - 1 / 2 ^ 53) ^ 4 * (M * M)) ≤
      (1 + 1 / 2 ^ 53) ^ 4 * (M * M) := by
    calc (nx * nx + ny * ny) * ((1 - 1 / 2 ^ 53) ^ 4 * (M * M))
        = (1 - 1 / 2 ^ 53) ^ 4 * ((nx * nx + ny * ny) * (M * M)) := by ring
      _ ≤ (1 - 1 / 2 ^ 53) ^ 4 * ((1 + 1 / 2 ^ 53) ^ 4 * (p * p + q * q)) :=
          mul_le_mul_of_nonneg_left hsum (le_of_lt ha4)
      _ = (1 + 1 / 2 ^ 53) ^ 4 * ((1 - 1 / 2 ^ 53) ^ 4 * (p * p + q * q)) := by ring
      _ ≤ (1 + 1 / 2 ^ 53) ^ 4 * (M * M) :=
          mul_le_mul_of_nonneg_left hMM (by positivity)
  have hdiv : nx * nx + ny * ny ≤ (1 + 1 / 2 ^ 53) ^ 4 / (1 - 1 / 2 ^ 53) ^ 4 := by
    rw [le_div_iff₀ ha4]
    have h3 : (nx * nx + ny * ny) * (1 - 1 / 2 ^ 53) ^ 4 * (M * M) ≤
        (1 + 1 / 2 ^ 53) ^ 4 * (M * M) := by
      calc (nx * nx + ny * ny) * (1 - 1 / 2 ^ 53) ^ 4 * (M * M)
          = (nx * nx + ny * ny) * ((1 - 1 / 2 ^ 53) ^ 4 * (M * M)) := by ring
        _ ≤ _ := hfin
    exact le_of_mul_le_mul_right h3 hMMpos
  calc nx * nx + ny * ny ≤ (1 + 1 / 2 ^ 53) ^ 4 / (1 - 1 / 2 ^ 53) ^ 4 := hdiv
    _ = ((1 + 1 / 2 ^ 53) ^ 2 / (1 - 1 / 2 ^ 53) ^ 2) ^ 2 := by
        rw [div_pow]; ring_nf


theorem sqrt_sq_add_sq_le (a b L : ℝ) (hL : 0 ≤ L) (h : a * a + b * b ≤ L * L) :
    Real.sqrt (a * a + b * b) ≤ L := by
  rw [show L = Real.sqrt (L * L) from (Real.sqrt_mul_self hL).symm]
  exact Real.sqrt_le_sqrt h

theorem abs_le_of_sq_add_sq_le (a b L : ℝ) (hL : 0 ≤ L) (h : a * a + b * b ≤ L * L) :
    |a| ≤ L := by
  calc |a| = Real.sqrt (a * a) := (Real.sqrt_mul_self_eq_abs a).symm
    _ ≤ Real.sqrt (a * a + b * b) :=
        Real.sqrt_le_sqrt (by linarith [mul_self_nonneg b])
    _ ≤ L := sqrt_sq_add_sq_le a b L hL h

theorem sqrt_sq_add_sq_le_abs (a b : ℝ) : Real.sqrt (a * a + b * b) ≤ |a| + |b| := by
  apply sqrt_sq_add_sq_le a b _ (add_nonneg (abs_nonneg a) (abs_nonneg b))
  nlinarith [abs_mul_abs_self a, abs_mul_abs_self b, abs_nonneg a, abs_nonneg b,
    mul_nonneg (abs_nonneg a) (abs_nonneg b)]

/-- The position after a move is within `maxTravel + 2^-28` of home. -/
theorem step_le (P : Platform ℝ) (hacc : Accurate P) (nx ny m mt sx sy : ℝ)
    (hn : nx * nx + ny * ny ≤ ((1 + 1 / 2 ^ 53) ^ 2 / (1 - 1 / 2 ^ 53) ^ 2) ^ 2)
    (hm0 : 0 ≤ m) (hm : m ≤ mt) (hsx : |sx| ≤ 2 ^ 20) (hsy : |sy| ≤ 2 ^ 20)
    (hmt : mt ≤ 2 ^ 20) :
    Real.sqrt ((P.rnd (sx + P.rnd (nx * m)) - sx) * (P.rnd (sx + P.rnd (nx * m)) - sx) +
        (P.rnd (sy + P.rnd (ny * m)) - sy) * (P.rnd (sy + P.rnd (ny * m)) - sy)) ≤
      mt + 1 / 2 ^ 28 := by
  have hb : (0 : ℝ) ≤ 1 + 1 / 2 ^ 53 := by norm_num
  have hK : (0 : ℝ) ≤ (1 + 1 / 2 ^ 53) ^ 2 / (1 - 1 / 2 ^ 53) ^ 2 := by norm_num
  have hdx := rnd_abs_le P hacc (nx * m)
  have hdy := rnd_abs_le P hacc (ny * m)
  rw [abs_mul, abs_of_nonneg hm0] at hdx hdy
  have hex := hacc.1 (sx + P.rnd (nx * m))
  have hey := hacc.1 (sy + P.rnd (ny * m))
  generalize P.rnd (sx + P.rnd (nx * m)) = cx at hex
  generalize P.rnd (sy + P.rnd (ny * m)) = cy at hey
  generalize P.rnd (nx * m) = dx at hdx hex
  generalize P.rnd (ny * m) = dy at hdy hey
  -- the displacement
  have hL0 : 0 ≤ (1 + 1 / 2 ^ 53) * ((1 + 1 / 2 ^ 53) ^ 2 / (1 - 1 / 2 ^ 53) ^ 2) * m :=
    mul_nonneg (mul_nonneg hb hK) hm0
  have hd : dx * dx + dy * dy ≤
      (1 + 1 / 2 ^ 53) * ((1 + 1 / 2 ^ 53) ^ 2 / (1 - 1 / 2 ^ 53) ^ 2) * m *
        ((1 + 1 / 2 ^ 53) * ((1 + 1 / 2 ^ 53) ^ 2 / (1 - 1 / 2 ^ 53) ^ 2) * m) := by
    have h1 : dx * dx ≤ ((1 + 1 / 2 ^ 53) * (|nx| * m)) * ((1 + 1 / 2 ^ 53) * (|nx| * m)) := by
      rw [← abs_mul_abs_self dx]
      exact mul_le_mul hdx hdx (abs_nonneg _) (le_trans (abs_nonneg _) hdx)
    have h2 : dy * dy ≤ ((1 + 1 / 2 ^ 53) * (|ny| * m)) * ((1 + 1 / 2 ^ 53) * (|ny| * m)) := by
      rw [← abs_mul_abs_self dy]
      exact mul_le_mul hdy hdy (abs_nonneg _) (le_trans (abs_nonneg _) hdy)
    have h3 : ((1 + 1 / 2 ^ 53) * (|nx| * m)) * ((1 + 1 / 2 ^ 53) * (|nx| * m)) +
        ((1 + 1 / 2 ^ 53) * (|ny| * m)) * ((1 + 1 / 2 ^ 53) * (|ny| * m)) =
        ((1 + 1 / 2 ^ 53) * m) ^ 2 * (nx * nx + ny * ny) := by
      rw [← abs_mul_abs_self nx, ← abs_mul_abs_self ny]; ring
    have h4 : ((1 + 1 / 2 ^ 53) * m) ^ 2 * (nx * nx + ny * ny) ≤
        ((1 + 1 / 2 ^ 53) * m) ^ 2 * ((1 + 1 / 2 ^ 53) ^ 2 / (1 - 1 / 2 ^ 53) ^ 2) ^ 2 :=
      mul_le_mul_of_nonneg_left hn (sq_nonneg _)
    calc dx * dx + dy * dy ≤ _ := add_le_add h1 h2
      _ = _ := h3
      _ ≤ _ := h4
      _ = _ := by ring
  have hLle : (1 + 1 / 2 ^ 53 : ℝ) * ((1 + 1 / 2 ^ 53) ^ 2 / (1 - 1 / 2 ^ 53) ^ 2) * m ≤
      (1 + 1 / 2 ^ 50) * mt := by
    have hk : (1 + 1 / 2 ^ 53 : ℝ) * ((1 + 1 / 2 ^ 53) ^ 2 / (1 - 1 / 2 ^ 53) ^ 2) ≤
        1 + 1 / 2 ^ 50 := by norm_num
    calc (1 + 1 / 2 ^ 53 : ℝ) * ((1 + 1 / 2 ^ 53) ^ 2 / (1 - 1 / 2 ^ 53) ^ 2) * m
        ≤ (1 + 1 / 2 ^ 50) * m := mul_le_mul_of_nonneg_right hk hm0
      _ ≤ (1 + 1 / 2 ^ 50) * mt := mul_le_mul_of_nonneg_left hm (by norm_num)
  generalize (1 + 1 / 2 ^ 53 : ℝ) * ((1 + 1 / 2 ^ 53) ^ 2 / (1 - 1 / 2 ^ 53) ^ 2) * m = L
    at hL0 hd hLle
  have hdxL : |dx| ≤ L := abs_le_of_sq_add_sq_le dx dy L hL0 hd
  have hdyL : |dy| ≤ L := abs_le_of_sq_add_sq_le dy dx L hL0 (by linarith)
  have hsq : Real.sqrt (dx * dx + dy * dy) ≤ L := sqrt_sq_add_sq_le dx dy L hL0 hd
  have hex1 : |cx - (sx + dx)| ≤ (2 ^ 20 + L) / 2 ^ 53 := by
    have : |sx + dx| ≤ 2 ^ 20 + L := le_trans (abs_add sx dx) (add_le_add hsx hdxL)
    calc |cx - (sx + dx)| ≤ |sx + dx| / 2 ^ 53 := hex
      _ ≤ (2 ^ 20 + L) / 2 ^ 53 := div_le_div_of_nonneg_right this (by positivity)
  have hey1 : |cy - (sy + dy)| ≤ (2 ^ 20 + L) / 2 ^ 53 := by
    have : |sy + dy| ≤ 2 ^ 20 + L := le_trans (abs_add sy dy) (add_le_add hsy hdyL)
    calc |cy - (sy + dy)| ≤ |sy + dy| / 2 ^ 53 := hey
      _ ≤ (2 ^ 20 + L) / 2 ^ 53 := div_le_div_of_nonneg_right this (by positivity)
  have htri := sqrt_add_le dx (cx - (sx + dx)) dy (cy - (sy + dy))
  have e1 : dx + (cx - (sx + dx)) = cx - sx := by ring
  have e2 : dy + (cy - (sy + dy)) = cy - sy := by ring
  rw [e1, e2] at htri
  have herr := sqrt_sq_add_sq_le_abs (cx - (sx + dx)) (cy - (sy + dy))
  have hmt0 : 0 ≤ mt := le_trans hm0 hm
  have hnum : L + ((2 ^ 20 + L) / 2 ^ 53 + (2 ^ 20 + L) / 2 ^ 53) ≤ mt + 1 / 2 ^ 28 := by
    have h1 : L + ((2 ^ 20 + L) / 2 ^ 53 + (2 ^ 20 + L) / 2 ^ 53) =
        (1 + 1 / 2 ^ 52) * L + 1 / 2 ^ 32 := by
      field_simp; ring
    rw [h1]
    have h2 : (1 + 1 / 2 ^ 52 : ℝ) * L ≤ (1 + 1 / 2 ^ 52) * ((1 + 1 / 2 ^ 50) * mt) :=
      mul_le_mul_of_nonneg_left hLle (by norm_num)
    have h3 : (1 + 1 / 2 ^ 52 : ℝ) * ((1 + 1 / 2 ^ 50) * mt) ≤ mt + 1 / 2 ^ 29 := by
      have h4 : (1 + 1 / 2 ^ 52 : ℝ) * ((1 + 1 / 2 ^ 50) * mt) =
          mt + ((1 + 1 / 2 ^ 52) * (1 + 1 / 2 ^ 50) - 1) * mt := by ring
      rw [h4]
      have h5 : ((1 + 1 / 2 ^ 52 : ℝ) * (1 + 1 / 2 ^ 50) - 1) * mt ≤
          ((1 + 1 / 2 ^ 52) * (1 + 1 / 2 ^ 50) - 1) * 2 ^ 20 :=
        mul_le_mul_of_nonneg_left hmt (by norm_num)
      have h6 : ((1 + 1 / 2 ^ 52 : ℝ) * (1 + 1 / 2 ^ 50) - 1) * 2 ^ 20 ≤ 1 / 2 ^ 29 := by
        norm_num
      linarith
    have h7 : (1 / 2 ^ 29 : ℝ) + 1 / 2 ^ 32 ≤ 1 / 2 ^ 28 := by norm_num
    linarith
  linarith

theorem mag_nonneg (P : Platform ℝ) (hacc : Accurate P) (p q : ℝ) :
    0 ≤ P.sqrt (P.rnd (P.rnd (p * p) + P.rnd (q * q))) :=
  le_trans (mul_nonneg (by norm_num) (Real.sqrt_nonneg _)) (mag_ge P hacc p q)

/-- After `Node::move` on an accurate platform, of a node with a home of
coordinates at most `2^20` and `0 <= maxTravel <= 2^20`, the position is not a
number or lies within `maxTravel + 2^-28` of home. -/
theorem moveWith_within_rounded (P : Platform ℝ) (hacc : Accurate P) (self : Node ℝ)
    (posOff : vd2d ℝ) (sx sy mt : ℝ) (hs : self.sPos = ⟨Dbl.val sx, Dbl.val sy⟩)
    (hmt : self.maxTravel = Dbl.val mt) (h0 : 0 ≤ mt) (hsx : |sx| ≤ 2 ^ 20)
    (hsy : |sy| ≤ 2 ^ 20) (hmtB : mt ≤ 2 ^ 20) :
    (moveWith P self posOff).cPos = ⟨Dbl.nan, Dbl.nan⟩ ∨
      ∃ nx ny : ℝ, (moveWith P self posOff).cPos = ⟨Dbl.val nx, Dbl.val ny⟩ ∧
        Real.sqrt ((nx - sx) * (nx - sx) + (ny - sy) * (ny - sy)) ≤ mt + 1 / 2 ^ 28 := by
  rcases hp : posOff with ⟨px, py⟩
  rcases hc : self.cPos with ⟨cx, cy⟩
  cases px with
  | nan => exact Or.inl (moveWith_nan P self _ (Or.inl rfl))
  | val px =>
    cases py with
    | nan => exact Or.inl (moveWith_nan P self _ (Or.inr (Or.inl rfl)))
    | val py =>
      cases cx with
      | nan => exact Or.inl (moveWith_nan P self _ (Or.inr (Or.inr (Or.inl (by rw [hc])))))
      | val cx =>
        cases cy with
        | nan => exact Or.inl (moveWith_nan P self _ (Or.inr (Or.inr (Or.inr (by rw [hc])))))
        | val cy =>
          unfold moveWith
          simp only [hc, hs, hmt, vd2d.add_mk, vd2d.sub_mk, Dbl.val_add_val, Dbl.val_sub_val,
            vd2d.mag_mk, vd2d.norm_mk, Dbl.val_mul_val,
            Dbl.sqrt_val_of_nonneg _ _ (magsq_nonneg P hacc _ _), Dbl.ne_val_val,
            Dbl.min_val_val, Dbl.val_div_val]
          generalize P.rnd (P.rnd (px + cx) - sx) = ux
          generalize P.rnd (P.rnd (py + cy) - sy) = uy
          generalize P.rnd (P.rnd (px + sx) - sx) = vx
          generalize P.rnd (P.rnd (py + sy) - sy) = vy
          have hN0 := mag_nonneg P hacc ux uy
          by_cases hN : P.sqrt (P.rnd (P.rnd (ux * ux) + P.rnd (uy * uy))) = 0
          · right
            refine ⟨sx, sy, by simp [hN], ?_⟩
            simp only [sub_self, mul_zero, add_zero, Real.sqrt_zero]
            linarith [show (0 : ℝ) ≤ 1 / 2 ^ 28 by norm_num]
          · by_cases hM : P.sqrt (P.rnd (P.rnd (vx * vx) + P.rnd (vy * vy))) = 0
            · left
              simp [hN, hM]
            · right
              have hm0 : 0 ≤ (if mt < P.sqrt (P.rnd (P.rnd (ux * ux) + P.rnd (uy * uy))) then mt
                  else P.sqrt (P.rnd (P.rnd (ux * ux) + P.rnd (uy * uy)))) := by
                split_ifs <;> assumption
              have hm1 : (if mt < P.sqrt (P.rnd (P.rnd (ux * ux) + P.rnd (uy * uy))) then mt
                  else P.sqrt (P.rnd (P.rnd (ux * ux) + P.rnd (uy * uy)))) ≤ mt := by
                split_ifs with h
                · exact le_refl _
                · exact not_lt.1 h
              refine ⟨_, _, by
                simp only [hN, hM, ne_eq, not_false_eq_true, decide_True, if_true,
                  if_false, Dbl.val_mul_val, vd2d.scale_mk, vd2d.add_mk, Dbl.val_add_val]
                rfl, ?_⟩
              exact step_le P hacc _ _ _ mt sx sy (unit_norm_le P hacc vx vy hM) hm0 hm1 hsx hsy
                hmtB

/-- On an accurate platform two positions that are at least `4 + 2^-21` apart
are not in contact. -/
theorem apart_no_contact (P : Platform ℝ) (hacc : Accurate P) (ax ay bx by1 : ℝ)
    (h : 4 + 1 / 2 ^ 21 ≤ Real.sqrt ((bx - ax) * (bx - ax) + (by1 - ay) * (by1 - ay))) :
    Dbl.lt (vd2d.mag P (vd2d.sub P ⟨Dbl.val bx, Dbl.val by1⟩ ⟨Dbl.val ax, Dbl.val ay⟩))
      (Dbl.val 4) = false := by
  simp only [vd2d.sub_mk, Dbl.val_sub_val, vd2d.mag_mk, Dbl.val_mul_val, Dbl.val_add_val,
    Dbl.sqrt_val_of_nonneg _ _ (magsq_nonneg P hacc _ _), Dbl.lt_val_val,
    decide_eq_false_iff_not, not_lt]
  have hD := mag_ge P hacc (P.rnd (bx - ax)) (P.rnd (by1 - ay))
  have hx := rnd_abs_ge P hacc (bx - ax)
  have hy := rnd_abs_ge P hacc (by1 - ay)
  generalize P.rnd (bx - ax) = dx at hD hx
  generalize P.rnd (by1 - ay) = dy at hD hy
  generalize P.sqrt (P.rnd (P.rnd (dx * dx) + P.rnd (dy * dy))) = D at hD
  have ha : (0 : ℝ) ≤ 1 - 1 / 2 ^ 53 := by norm_num
  have hX0 : 0 ≤ Real.sqrt ((bx - ax) * (bx - ax) + (by1 - ay) * (by1 - ay)) :=
    Real.sqrt_nonneg _
  have hXX := Real.mul_self_sqrt (sq_add_sq_nonneg (bx - ax) (by1 - ay))
  have hx2 : ((1 - 1 / 2 ^ 53) * |bx - ax|) * ((1 - 1 / 2 ^ 53) * |bx - ax|) ≤ dx * dx := by
    rw [← abs_mul_abs_self dx]
    exact mul_le_mul hx hx (mul_nonneg ha (abs_nonneg _)) (abs_nonneg _)
  have hy2 : ((1 - 1 / 2 ^ 53) * |by1 - ay|) * ((1 - 1 / 2 ^ 53) * |by1 - ay|) ≤ dy * dy := by
    rw [← abs_mul_abs_self dy]
    exact mul_le_mul hy hy (mul_nonneg ha (abs_nonneg _)) (abs_nonneg _)
  have hS : (1 - 1 / 2 ^ 53) *
      Real.sqrt ((bx - ax) * (bx - ax) + (by1 - ay) * (by1 - ay)) ≤
      Real.sqrt (dx * dx + dy * dy) := by
    apply Real.le_sqrt_of_sq_le
    rw [mul_pow, sq (Real.sqrt _), hXX]
    have e : (1 - 1 / 2 ^ 53 : ℝ) ^ 2 * ((bx - ax) * (bx - ax) + (by1 - ay) * (by1 - ay)) =
        ((1 - 1 / 2 ^ 53) * |bx - ax|) * ((1 - 1 / 2 ^ 53) * |bx - ax|) +
          ((1 - 1 / 2 ^ 53) * |by1 - ay|) * ((1 - 1 / 2 ^ 53) * |by1 - ay|) := by
      rw [← abs_mul_abs_self (bx - ax), ← abs_mul_abs_self (by1 - ay)]; ring
    rw [e]
    exact add_le_add hx2 hy2
  generalize Real.sqrt ((bx - ax) * (bx - ax) + (by1 - ay) * (by1 - ay)) = X at h hS hX0
  generalize Real.sqrt (dx * dx + dy * dy) = Y at hD hS
  have h1 : (1 - 1 / 2 ^ 53 : ℝ) ^ 2 * ((1 - 1 / 2 ^ 53) * X) ≤ D :=
    le_trans (mul_le_mul_of_nonneg_left hS (by norm_num)) hD
  have h2 : (1 - 1 / 2 ^ 53 : ℝ) ^ 2 * ((1 - 1 / 2 ^ 53) * (4 + 1 / 2 ^ 21)) ≤
      (1 - 1 / 2 ^ 53) ^ 2 * ((1 - 1 / 2 ^ 53) * X) :=
    mul_le_mul_of_nonneg_left (mul_le_mul_of_nonneg_left h ha) (by norm_num)
  have h3 : (4 : ℝ) ≤ (1 - 1 / 2 ^ 53) ^ 2 * ((1 - 1 / 2 ^ 53) * (4 + 1 / 2 ^ 21)) := by
    norm_num
  linarith

/-- On an accurate platform two moved nodes whose homes, of coordinates at most
`2^20`, are at least `mt0 + mt1 + 4 + 2^-20` apart are not in contact. -/
theorem far_homes_no_contact_rounded (P : Platform ℝ) (hacc : Accurate P) (n0 n1 : Node ℝ)
    (p0 p1 : vd2d ℝ) (x0 y0 x1 y1 mt0 mt1 : ℝ)
    (hs0 : n0.sPos = ⟨Dbl.val x0, Dbl.val y0⟩) (hs1 : n1.sPos = ⟨Dbl.val x1, Dbl.val y1⟩)
    (hm0 : n0.maxTravel = Dbl.val mt0) (hm1 : n1.maxTravel = Dbl.val mt1)
    (h0 : 0 ≤ mt0) (h1 : 0 ≤ mt1)
    (hB : |x0| ≤ 2 ^ 20 ∧ |y0| ≤ 2 ^ 20 ∧ |x1| ≤ 2 ^ 20 ∧ |y1| ≤ 2 ^ 20 ∧
      mt0 ≤ 2 ^ 20 ∧
      mt1 ≤ 2 ^ 20)
    (hfar : mt0 + mt1 + 4 + 1 / 2 ^ 20 ≤
      Real.sqrt ((x0 - x1) * (x0 - x1) + (y0 - y1) * (y0 - y1))) :
    Dbl.lt (vd2d.mag P (vd2d.sub P (moveWith P n1 p1).cPos (moveWith P n0 p0).cPos))
      (Dbl.val 4) = false := by
  rcases moveWith_within_rounded P hacc n0 p0 x0 y0 mt0 hs0 hm0 h0 hB.1 hB.2.1 hB.2.2.2.2.1 with
    ha | ⟨ax, ay, ha, hda⟩
  · rw [ha, mag_nan P _ (Or.inl (by cases (moveWith P n1 p1).cPos; simp))]
    rfl
  · rcases moveWith_within_rounded P hacc n1 p1 x1 y1 mt1 hs1 hm1 h1 hB.2.2.1 hB.2.2.2.1
      hB.2.2.2.2.2 with hb | ⟨bx, by1, hb, hdb⟩
    · rw [hb, mag_nan P _ (Or.inl rfl)]
      rfl
    · rw [ha, hb]
      apply apart_no_contact P hacc
      apply far_homes_far_points x0 y0 x1 y1 ax ay bx by1 (mt0 + 1 / 2 ^ 28) (mt1 + 1 / 2 ^ 28) _
        hda hdb
      have : (1 / 2 ^ 28 : ℝ) + 1 / 2 ^ 28 + 1 / 2 ^ 21 ≤ 1 / 2 ^ 20 := by norm_num
      linarith

theorem magsq_le (P : Platform ℝ) (hacc : Accurate P) (p q : ℝ) :
    P.rnd (P.rnd (p * p) + P.rnd (q * q)) ≤ (1 + 1 / 2 ^ 53) ^ 2 * (p * p + q * q) := by
  have hp := rnd_le_of_nonneg P hacc (p * p) (mul_self_nonneg p)
  have hq := rnd_le_of_nonneg P hacc (q * q) (mul_self_nonneg q)
  have hp0 := rnd_ge_of_nonneg P hacc (p * p) (mul_self_nonneg p)
  have hq0 := rnd_ge_of_nonneg P hacc (q * q) (mul_self_nonneg q)
  have ha : (0 : ℝ) ≤ (1 - 1 / 2 ^ 53) := by norm_num
  have hpq : 0 ≤ P.rnd (p * p) + P.rnd (q * q) := by
    nlinarith [mul_self_nonneg p, mul_self_nonneg q]
  have hs := rnd_le_of_nonneg P hacc _ hpq
  have hb : (0 : ℝ) ≤ (1 + 1 / 2 ^ 53) := by norm_num
  calc P.rnd (P.rnd (p * p) + P.rnd (q * q))
      ≤ (1 + 1 / 2 ^ 53) * (P.rnd (p * p) + P.rnd (q * q)) := hs
    _ ≤ (1 + 1 / 2 ^ 53) * ((1 + 1 / 2 ^ 53) * (p * p) + (1 + 1 / 2 ^ 53) * (q * q)) :=
        mul_le_mul_of_nonneg_left (by linarith) hb
    _ = _ := by ring

theorem mag_le (P : Platform ℝ) (hacc : Accurate P) (p q : ℝ) :
    P.sqrt (P.rnd (P.rnd (p * p) + P.rnd (q * q))) ≤
      (1 + 1 / 2 ^ 53) ^ 2 * Real.sqrt (p * p + q * q) := by
  have hb : (0 : ℝ) ≤ (1 + 1 / 2 ^ 53) := by norm_num
  have h1 := platform_sqrt_le P hacc _ (magsq_nonneg P hacc p q)
  have h2 : Real.sqrt (P.rnd (P.rnd (p * p) + P.rnd (q * q))) ≤
      (1 + 1 / 2 ^ 53) * Real.sqrt (p * p + q * q) := by
    rw [Real.sqrt_le_left (mul_nonneg hb (Real.sqrt_nonneg _)), mul_pow,
      Real.sq_sqrt (sq_add_sq_nonneg p q)]
    exact magsq_le P hacc p q
  calc P.sqrt (P.rnd (P.rnd (p * p) + P.rnd (q * q)))
      ≤ (1 + 1 / 2 ^ 53) * Real.sqrt (P.rnd (P.rnd (p * p) + P.rnd (q * q))) := h1
    _ ≤ (1 + 1 / 2 ^ 53) * ((1 + 1 / 2 ^ 53) * Real.sqrt (p * p + q * q)) :=
        mul_le_mul_of_nonneg_left h2 hb
    _ = _ := by ring

/-- On an accurate platform two positions that are at most `4 - 2^-21` apart
are in contact. -/
theorem near_contact (P : Platform ℝ) (hacc : Accurate P) (ax ay bx by1 : ℝ)
    (h : Real.sqrt ((bx - ax) * (bx - ax) + (by1 - ay) * (by1 - ay)) ≤ 4 - 1 / 2 ^ 21) :
    Dbl.lt (vd2d.mag P (vd2d.sub P ⟨Dbl.val bx, Dbl.val by1⟩ ⟨Dbl.val ax, Dbl.val ay⟩))
      (Dbl.val 4) = true := by
  simp only [vd2d.sub_mk, Dbl.val_sub_val, vd2d.mag_mk, Dbl.val_mul_val, Dbl.val_add_val,
    Dbl.sqrt_val_of_nonneg _ _ (magsq_nonneg P hacc _ _), Dbl.lt_val_val, decide_eq_true_eq]
  have hD := mag_le P hacc (P.rnd (bx - ax)) (P.rnd (by1 - ay))
  have hx := rnd_abs_le P hacc (bx - ax)
  have hy := rnd_abs_le P hacc (by1 - ay)
  generalize P.rnd (bx - ax) = dx at hD hx
  generalize P.rnd (by1 - ay) = dy at hD hy
  generalize P.sqrt (P.rnd (P.rnd (dx * dx) + P.rnd (dy * dy))) = D at hD
  have hb : (0 : ℝ) ≤ 1 + 1 / 2 ^ 53 := by norm_num
  have hX0 : 0 ≤ Real.sqrt ((bx - ax) * (bx - ax) + (by1 - ay) * (by1 - ay)) :=
    Real.sqrt_nonneg _
  have hXX := Real.mul_self_sqrt (sq_add_sq_nonneg (bx - ax) (by1 - ay))
  have hx2 : dx * dx ≤ ((1 + 1 / 2 ^ 53) * |bx - ax|) * ((1 + 1 / 2 ^ 53) * |bx - ax|) := by
    rw [← abs_mul_abs_self dx]
    exact mul_le_mul hx hx (abs_nonneg _) (mul_nonneg hb (abs_nonneg _))
  have hy2 : dy * dy ≤ ((1 + 1 / 2 ^ 53) * |by1 - ay|) * ((1 + 1 / 2 ^ 53) * |by1 - ay|) := by
    rw [← abs_mul_abs_self dy]
    exact mul_le_mul hy hy (abs_nonneg _) (mul_nonneg hb (abs_nonneg _))
  have hS : Real.sqrt (dx * dx + dy * dy) ≤ (1 + 1 / 2 ^ 53) *
      Real.sqrt ((bx - ax) * (bx - ax) + (by1 - ay) * (by1 - ay)) := by
    apply sqrt_sq_add_sq_le dx dy _ (mul_nonneg hb hX0)
    have e : (1 + 1 / 2 ^ 53 : ℝ) *
        Real.sqrt ((bx - ax) * (bx - ax) + (by1 - ay) * (by1 - ay)) *
        ((1 + 1 / 2 ^ 53) * Real.sqrt ((bx - ax) * (bx - ax) + (by1 - ay) * (by1 - ay))) =
        ((1 + 1 / 2 ^ 53) * |bx - ax|) * ((1 + 1 / 2 ^ 53) * |bx - ax|) +
          ((1 + 1 / 2 ^ 53) * |by1 - ay|) * ((1 + 1 / 2 ^ 53) * |by1 - ay|) := by
      rw [show (1 + 1 / 2 ^ 53 : ℝ) *
        Real.sqrt ((bx - ax) * (bx - ax) + (by1 - ay) * (by1 - ay)) *
        ((1 + 1 / 2 ^ 53) * Real.sqrt ((bx - ax) * (bx - ax) + (by1 - ay) * (by1 - ay))) =
        (1 + 1 / 2 ^ 53) ^ 2 * (Real.sqrt ((bx - ax) * (bx - ax) + (by1 - ay) * (by1 - ay)) *
          Real.sqrt ((bx - ax) * (bx - ax) + (by1 - ay) * (by1 - ay))) by ring, hXX,
        ← abs_mul_abs_self (bx - ax), ← abs_mul_abs_self (by1 - ay)]
      ring
    rw [e]
    exact add_le_add hx2 hy2
  generalize Real.sqrt ((bx - ax) * (bx - ax) + (by1 - ay) * (by1 - ay)) = X at h hS hX0
  generalize Real.sqrt (dx * dx + dy * dy) = Y at hD hS
  have h1 : D ≤ (1 + 1 / 2 ^ 53 : ℝ) ^ 2 * ((1 + 1 / 2 ^ 53) * X) :=
    le_trans hD (mul_le_mul_of_nonneg_left hS (by norm_num))
  have h2 : (1 + 1 / 2 ^ 53 : ℝ) ^ 2 * ((1 + 1 / 2 ^ 53) * X) ≤
      (1 + 1 / 2 ^ 53) ^ 2 * ((1 + 1 / 2 ^ 53) * (4 - 1 / 2 ^ 21)) :=
    mul_le_mul_of_nonneg_left (mul_le_mul_of_nonneg_left h hb) (by norm_num)
  have h3 : (1 + 1 / 2 ^ 53 : ℝ) ^ 2 * ((1 + 1 / 2 ^ 53) * (4 - 1 / 2 ^ 21)) < 4 := by
    norm_num
  linarith

theorem nodeUpdate_sPos (P : Platform ℝ) (self : Node ℝ) (nodes : List (Node ℝ)) :
    (Node.update P self nodes).sPos = self.sPos := by
  rw [nodeUpdate_eq]

theorem nodeUpdate_maxTravel (P : Platform ℝ) (self : Node ℝ) (nodes : List (Node ℝ)) :
    (Node.update P self nodes).maxTravel = self.maxTravel := by
  rw [nodeUpdate_eq]

theorem checkAll_pair (P : Platform ℝ) (a0 a1 : Node ℝ) (stream : List (Record ℝ)) :
    (World.checkAll P [a0, a1] stream).1 =
      [Node.update P a0 [a0, a1], Node.update P a1 [Node.update P a0 [a0, a1], a1]] := by
  simp [World.checkAll, World.checkStep, List.range_succ]

theorem afterMoves_pair {G : Type} (P : Platform ℝ) (rng : Rng G) (w : World ℝ)
    (m0 m1 : Node ℝ) (hw : w.nodes = [m0, m1]) :
    afterMoves P rng w =
      [(Node.move P rng m0 (rng.srand w.nextSeed)).1,
        (Node.move P rng m1 (Node.move P rng m0 (rng.srand w.nextSeed)).2).1] := by
  simp [afterMoves, hw, World.moveAll]

/-- One tick of a world of two nodes that are never in contact after their
moves: the second node stays uninfected; homes and travel radii are kept. -/
theorem pair_step {G : Type} (P : Platform ℝ) (rng : Rng G) (w : World ℝ) (g : G)
    (m0 m1 : Node ℝ) (hw : w.nodes = [m0, m1])
    (hc : ∀ p0 p1 : vd2d ℝ,
      Dbl.lt (vd2d.mag P (vd2d.sub P (moveWith P m1 p1).cPos (moveWith P m0 p0).cPos))
        (Dbl.val 4) = false)
    (hinf : m1.infected = false) :
    ∃ b0 b1 : Node ℝ, (World.update P rng w g).1.nodes = [b0, b1] ∧
      b0.sPos = m0.sPos ∧ b1.sPos = m1.sPos ∧
      b0.maxTravel = m0.maxTravel ∧ b1.maxTravel = m1.maxTravel ∧ b1.infected = false := by
  rw [update_nodes, afterMoves_pair P rng w m0 m1 hw, checkAll_pair]
  refine ⟨_, _, rfl, ?_, ?_, ?_, ?_, ?_⟩
  · rw [nodeUpdate_sPos, move_eq_set_cPos]
  · rw [nodeUpdate_sPos, move_eq_set_cPos]
  · rw [nodeUpdate_maxTravel, move_eq_set_cPos]
  · rw [nodeUpdate_maxTravel, move_eq_set_cPos]
  · have hc1 := hc (drawPosOff P rng m0 (rng.srand w.nextSeed))
      (drawPosOff P rng m1 (Node.move P rng m0 (rng.srand w.nextSeed)).2)
    rw [← move_eq_moveWith, ← move_eq_moveWith] at hc1
    rw [nodeUpdate_infected, move_infected, hinf]
    simp [infectTest, nodeUpdate_cPos, hc1]

/-- Two nodes that are not in contact after any move from any position, as
long as they keep their homes and travel radii: the second one is never
infected. -/
theorem pair_never_infected {G : Type} (P : Platform ℝ) (rng : Rng G) (other : Nat → G → G)
    (w : World ℝ) (g : G) (n0 n1 : Node ℝ) (hw : w.nodes = [n0, n1])
    (hc : ∀ (m0 m1 : Node ℝ) (p0 p1 : vd2d ℝ), m0.sPos = n0.sPos → m1.sPos = n1.sPos →
      m0.maxTravel = n0.maxTravel → m1.maxTravel = n1.maxTravel →
      Dbl.lt (vd2d.mag P (vd2d.sub P (moveWith P m1 p1).cPos (moveWith P m0 p0).cPos))
        (Dbl.val 4) = false)
    (hinf : n1.infected = false) (k : Nat) :
    infectedAt (runTicks P rng other k (w, g)).1.nodes 1 = false := by
  have inv : ∃ b0 b1 : Node ℝ, (runTicks P rng other k (w, g)).1.nodes = [b0, b1] ∧
      b0.sPos = n0.sPos ∧ b1.sPos = n1.sPos ∧
      b0.maxTravel = n0.maxTravel ∧ b1.maxTravel = n1.maxTravel ∧ b1.infected = false := by
    induction k with
    | zero => exact ⟨n0, n1, hw, rfl, rfl, rfl, rfl, hinf⟩
    | succ k ih =>
      obtain ⟨b0, b1, hb, e0, e1, e2, e3, e4⟩ := ih
      obtain ⟨c0, c1, hcn, f0, f1, f2, f3, f4⟩ := pair_step P rng
        (runTicks P rng other k (w, g)).1
        (other k (runTicks P rng other k (w, g)).2) b0 b1 hb
        (fun p0 p1 => hc b0 b1 p0 p1 e0 e1 e2 e3) e4
      exact ⟨c0, c1, hcn, f0.trans e0, f1.trans e1, f2.trans e2, f3.trans e3, f4⟩
  obtain ⟨b0, b1, hb, _, _, _, _, e4⟩ := inv
  simp [infectedAt, hb, e4]

/-- C6 (amended): two agents with both `maxTravel >= 0`, agent 1 not infected:
the infected flag of agent 1 is false after any number of ticks, whatever the
generator draws (and whether or not agent 0 is infected, wherever the two
agents stand), (a) with the arithmetic taken over the reals (no operation
rounds, `sqrt` is the real square root) when the homes are at least
`maxTravel_0 + maxTravel_1 + 4` apart, and (b) on an accurate platform (every
operation and `sqrt` rounded with a relative error of at most `2^-53`) when the
homes are at least `maxTravel_0 + maxTravel_1 + 4 + 2^-20` apart and their
coordinates and both `maxTravel` are at most `2^20` in absolute value. -/
theorem unreachable_agents_never_infect {G : Type} (P : Platform ℝ) (rng : Rng G)
    (other : Nat → G → G) (w : World ℝ) (g : G)
    (n0 n1 : Node ℝ) (x0 y0 x1 y1 mt0 mt1 : ℝ) (hw : w.nodes = [n0, n1])
    (hs0 : n0.sPos = ⟨Dbl.val x0, Dbl.val y0⟩) (hs1 : n1.sPos = ⟨Dbl.val x1, Dbl.val y1⟩)
    (hm0 : n0.maxTravel = Dbl.val mt0) (hm1 : n1.maxTravel = Dbl.val mt1)
    (h0 : 0 ≤ mt0) (h1 : 0 ≤ mt1) (hinf : n1.infected = false) (k : Nat) :
    ((∀ x, P.rnd x = x) → P.sqrt = Real.sqrt →
        mt0 + mt1 + 4 ≤ Real.sqrt ((x0 - x1) * (x0 - x1) + (y0 - y1) * (y0 - y1)) →
        infectedAt (runTicks P rng other k (w, g)).1.nodes 1 = false) ∧
      (Accurate P →
        |x0| ≤ 2 ^ 20 ∧ |y0| ≤ 2 ^ 20 ∧ |x1| ≤ 2 ^ 20 ∧ |y1| ≤ 2 ^ 20 ∧
          mt0 ≤ 2 ^ 20 ∧
          mt1 ≤ 2 ^ 20 →
        mt0 + mt1 + 4 + 1 / 2 ^ 20 ≤
          Real.sqrt ((x0 - x1) * (x0 - x1) + (y0 - y1) * (y0 - y1)) →
        infectedAt (runTicks P rng other k (w, g)).1.nodes 1 = false) := by
  constructor
  · intro hrnd hsqrt hfar
    exact pair_never_infected P rng other w g n0 n1 hw
      (fun m0 m1 p0 p1 e0 e1 e2 e3 => far_homes_no_contact P hrnd hsqrt m0 m1 p0 p1
        x0 y0 x1 y1 mt0 mt1 (e0.trans hs0) (e1.trans hs1) (e2.trans hm0) (e3.trans hm1)
        h0 h1 hfar) hinf k
  · intro hacc hB hfar
    exact pair_never_infected P rng other w g n0 n1 hw
      (fun m0 m1 p0 p1 e0 e1 e2 e3 => far_homes_no_contact_rounded P hacc m0 m1 p0 p1
        x0 y0 x1 y1 mt0 mt1 (e0.trans hs0) (e1.trans hs1) (e2.trans hm0) (e3.trans hm1)
        h0 h1 hB hfar) hinf k

/-- C6 (amended), applied to two agents 1000 apart with travel radius 10, over
50 ticks: on the actual platform, and with arithmetic over the reals. -/
theorem unreachable_agents_never_infect_witness :
    infectedAt (runTicks (binaryPlatform Real.sqrt Real.sin Real.cos) zeroRng
        (fun _ g => g) 50 (pairWorld 1000 1, ())).1.nodes 1 = false ∧
      infectedAt (runTicks (Platform.mk id Real.sqrt Real.sin Real.cos id true) zeroRng
        (fun _ g => g) 50 (pairWorld 1000 1, ())).1.nodes 1 = false :=
  ⟨(unreachable_agents_never_infect (binaryPlatform Real.sqrt Real.sin Real.cos) zeroRng
      (fun _ g => g) (pairWorld 1000 1) () _ _ 0 0 1000 0 10 10 rfl rfl rfl rfl rfl
      (by norm_num) (by norm_num) rfl 50).2 binaryPlatform_accurate
      (by norm_num)
      (by
        apply Real.le_sqrt_of_sq_le
        norm_num),
    (unreachable_agents_never_infect (Platform.mk id Real.sqrt Real.sin Real.cos id true) zeroRng
      (fun _ g => g) (pairWorld 1000 1) () _ _ 0 0 1000 0 10 10 rfl rfl rfl rfl rfl
      (by norm_num) (by norm_num) rfl 50).1 (fun _ => rfl) rfl
      (by
        apply Real.le_sqrt_of_sq_le
        norm_num)⟩

/-- The moves of the first tick of `grazeWorld` on the actual platform, with the
draws of `scriptRng`: node 0 draws the direction 0 and the full speed and moves
up by its travel radius, to `y = 100 + (1.5 + 17 * 2^-51)`, which rounds up to
`101.5 + 2^-46`; node 1 draws the speed 0 and stays. -/
theorem graze_afterMoves :
    afterMoves (binaryPlatform Real.sqrt Real.sin Real.cos) scriptRng (grazeWorld : World ℝ) =
      [ { id := 0, cPos := ⟨Dbl.val 0, Dbl.val (7142427534032897 / 70368744177664)⟩,
          sPos := ⟨Dbl.val 0, Dbl.val 100⟩,
          reinfectable := false, infectable := true, infected := true, infectedFor := 0,
          maxTravel := Dbl.val (3377699720527889 / 2251799813685248), maxSpeed := Dbl.val 2 },
        { id := 1, cPos := ⟨Dbl.val (5 / 16777216), Dbl.val (211 / 2)⟩,
          sPos := ⟨Dbl.val (5 / 16777216), Dbl.val (211 / 2)⟩,
          reinfectable := false, infectable := true, infected := false, infectedFor := 0,
          maxTravel := Dbl.val 0, maxSpeed := Dbl.val 2 } ] := by
  norm_num [afterMoves, World.moveAll, Node.move, drand, scriptRng, grazeWorld, PI,
    binaryPlatform, vd2d.mag_mk, vd2d.norm_mk, Dbl.sqrt_val, Dbl.val_div_val, Dbl.min_val_val,
    roundTo_zero, double_one, double_two, double_four, double_hundred_two, double_half,
    double_graze_radius, double_graze_moved, double_graze_dx, double_graze_y, sqrt_four]

/-- C6 as stated fails on the actual platform. In `grazeWorld` both agents are
at home, the travel radii are `1.5 + 17 * 2^-51` and 0, and the homes are at
least `1.5 + 17 * 2^-51 + 0 + 4` apart; agent 0 is infected and agent 1 is not.
In the first tick agent 0 moves up by its travel radius and its `y` rounds up to
`101.5 + 2^-46`; the difference of the `y` coordinates is `4 - 2^-46`, its
square rounds down to `16 - 2^-43`, the computed distance is `4 - 7 * 2^-51`,
strictly less than 4, and agent 1 is infected after one tick. -/
theorem unreachable_agents_never_infect_counterexample :
    (grazeWorld : World ℝ).nodes.map (fun n => (n.cPos, n.sPos, n.maxTravel, n.infected)) =
        [(⟨Dbl.val 0, Dbl.val 100⟩, ⟨Dbl.val 0, Dbl.val 100⟩,
            Dbl.val (3377699720527889 / 2251799813685248), true),
          (⟨Dbl.val (5 / 16777216), Dbl.val (211 / 2)⟩,
            ⟨Dbl.val (5 / 16777216), Dbl.val (211 / 2)⟩, Dbl.val 0, false)] ∧
      (3377699720527889 / 2251799813685248 : ℝ) + 0 + 4 ≤
        Real.sqrt (((0 : ℝ) - 5 / 16777216) * (0 - 5 / 16777216) +
          ((100 : ℝ) - 211 / 2) * (100 - 211 / 2)) ∧
      infectedAt (runTicks (binaryPlatform Real.sqrt Real.sin Real.cos) scriptRng (fun _ g => g) 1
        ((grazeWorld : World ℝ), 0)).1.nodes 1 = true := by
  refine ⟨rfl, ?_, ?_⟩
  · apply Real.le_sqrt_of_sq_le
    norm_num
  · have h := double_graze_distance
    rw [Real.sqrt_div (by norm_num)] at h
    simp only [runTicks]
    rw [update_nodes, graze_afterMoves, checkAll_pair]
    norm_num [infectedAt, Node.update, infectTest, vd2d.mag_mk, Dbl.sqrt_val, binaryPlatform,
      roundTo_zero, double_graze_dx, double_graze_dy, double_graze_dx_sq, double_graze_dy_sq,
      double_graze_sum, h]

theorem drawPosOff_defined {G : Type} (P : Platform ℝ) (hrnd : ∀ x, P.rnd x = x) (rng : Rng G)
    (hRM : rng.RAND_MAX ≠ 0) (self : Node ℝ) (ms : ℝ) (hms : self.maxSpeed = Dbl.val ms)
    (g : G) :
    drawPosOff P rng self g =
      ⟨Dbl.val (P.sin (((rng.rand g).1 : ℝ) / (rng.RAND_MAX : ℝ) * (3141592 / 1000000) * 2) *
          (((rng.rand (rng.rand g).2).1 : ℝ) / (rng.RAND_MAX : ℝ) * ms)),
        Dbl.val (P.cos (((rng.rand g).1 : ℝ) / (rng.RAND_MAX : ℝ) * (3141592 / 1000000) * 2) *
          (((rng.rand (rng.rand g).2).1 : ℝ) / (rng.RAND_MAX : ℝ) * ms))⟩ := by
  have h : (rng.RAND_MAX : ℝ) ≠ 0 := by exact_mod_cast hRM
  simp [drawPosOff, drand, PI, hms, Dbl.val_div_val, h, hrnd]

theorem sqrt_sin_cos_scale (t d : ℝ) (hd : 0 ≤ d) :
    Real.sqrt (Real.sin t * d * (Real.sin t * d) + Real.cos t * d * (Real.cos t * d)) = d := by
  have h : Real.sin t * d * (Real.sin t * d) + Real.cos t * d * (Real.cos t * d) = d * d := by
    linear_combination (d * d) * Real.sin_sq_add_cos_sq t
  rw [h]
  exact Real.sqrt_mul_self hd

/-- A node at home with `maxTravel >= 0` and `maxSpeed >= 0`, moved with draws
of `rand()` between 0 and `RAND_MAX`: the new position is a point within
`min(maxSpeed, maxTravel)` of home. -/
theorem home_move_reach {G : Type} (P : Platform ℝ) (hrnd : ∀ x, P.rnd x = x)
    (hsqrt : P.sqrt = Real.sqrt)
    (hsin : P.sin = Real.sin) (hcos : P.cos = Real.cos) (rng : Rng G)
    (hRM : 0 < rng.RAND_MAX)
    (hrand : ∀ g, 0 ≤ (rng.rand g).1 ∧ (rng.rand g).1 ≤ rng.RAND_MAX) (n : Node ℝ)
    (sx sy mt ms : ℝ) (hc : n.cPos = ⟨Dbl.val sx, Dbl.val sy⟩)
    (hs : n.sPos = ⟨Dbl.val sx, Dbl.val sy⟩) (hmt : n.maxTravel = Dbl.val mt)
    (hms : n.maxSpeed = Dbl.val ms) (h0 : 0 ≤ mt) (h1 : 0 ≤ ms) (g : G) :
    ∃ nx ny : ℝ, (Node.move P rng n g).1.cPos = ⟨Dbl.val nx, Dbl.val ny⟩ ∧
      Real.sqrt ((nx - sx) * (nx - sx) + (ny - sy) * (ny - sy)) ≤ min ms mt := by
  have hRM1 : (0 : ℝ) < (rng.RAND_MAX : ℝ) := by exact_mod_cast hRM
  have hr0 : (0 : ℝ) ≤ ((rng.rand (rng.rand g).2).1 : ℝ) := by
    exact_mod_cast (hrand (rng.rand g).2).1
  have hr1 : ((rng.rand (rng.rand g).2).1 : ℝ) ≤ (rng.RAND_MAX : ℝ) := by
    exact_mod_cast (hrand (rng.rand g).2).2
  have hd0 : 0 ≤ ((rng.rand (rng.rand g).2).1 : ℝ) / (rng.RAND_MAX : ℝ) * ms :=
    mul_nonneg (div_nonneg hr0 (le_of_lt hRM1)) h1
  have hd1 : ((rng.rand (rng.rand g).2).1 : ℝ) / (rng.RAND_MAX : ℝ) * ms ≤ ms := by
    have : ((rng.rand (rng.rand g).2).1 : ℝ) / (rng.RAND_MAX : ℝ) ≤ 1 :=
      (div_le_one hRM1).mpr hr1
    nlinarith
  rw [move_eq_moveWith, drawPosOff_defined P hrnd rng (ne_of_gt hRM) n ms hms g, hsin, hcos]
  have hd := moveWith_distance P hrnd hsqrt n
    (Real.sin (((rng.rand g).1 : ℝ) / (rng.RAND_MAX : ℝ) * (3141592 / 1000000) * 2) *
      (((rng.rand (rng.rand g).2).1 : ℝ) / (rng.RAND_MAX : ℝ) * ms))
    (Real.cos (((rng.rand g).1 : ℝ) / (rng.RAND_MAX : ℝ) * (3141592 / 1000000) * 2) *
      (((rng.rand (rng.rand g).2).1 : ℝ) / (rng.RAND_MAX : ℝ) * ms))
    sx sy sx sy mt hc hs hmt h0
  simp only [add_sub_cancel_right, sqrt_sin_cos_scale _ _ hd0] at hd
  rcases hd with ⟨hne, heq, _⟩ | ⟨nx, ny, hpos, _, _, hle⟩
  · exact absurd heq hne
  · exact ⟨nx, ny, hpos, le_trans hle (min_le_min_right mt hd1)⟩

theorem drand_bounds {G : Type} (P : Platform ℝ) (hacc : Accurate P) (rng : Rng G)
    (hRM : 0 < rng.RAND_MAX)
    (hrand : ∀ g, 0 ≤ (rng.rand g).1 ∧ (rng.rand g).1 ≤ rng.RAND_MAX) (g : G) :
    ∃ d : ℝ, (drand P rng g : Dbl ℝ × G).1 = Dbl.val d ∧ 0 ≤ d ∧
      d ≤ 1 + 1 / 2 ^ 53 := by
  have hRM1 : (0 : ℝ) < (rng.RAND_MAX : ℝ) := by exact_mod_cast hRM
  have hr0 : (0 : ℝ) ≤ ((rng.rand g).1 : ℝ) := by exact_mod_cast (hrand g).1
  have hr1 : ((rng.rand g).1 : ℝ) ≤ (rng.RAND_MAX : ℝ) := by exact_mod_cast (hrand g).2
  have hq0 : 0 ≤ ((rng.rand g).1 : ℝ) / (rng.RAND_MAX : ℝ) := div_nonneg hr0 (le_of_lt hRM1)
  have hq1 : ((rng.rand g).1 : ℝ) / (rng.RAND_MAX : ℝ) ≤ 1 := (div_le_one hRM1).mpr hr1
  refine ⟨P.rnd (((rng.rand g).1 : ℝ) / (rng.RAND_MAX : ℝ)), ?_, ?_, ?_⟩
  · simp [drand, Dbl.val_div_val, ne_of_gt hRM1]
  · have := rnd_ge_of_nonneg P hacc _ hq0
    have ha : (0 : ℝ) ≤ 1 - 1 / 2 ^ 53 := by norm_num
    exact le_trans (mul_nonneg ha hq0) this
  · have := rnd_le_of_nonneg P hacc _ hq0
    have hb : (0 : ℝ) ≤ 1 + 1 / 2 ^ 53 := by norm_num
    calc P.rnd (((rng.rand g).1 : ℝ) / (rng.RAND_MAX : ℝ))
        ≤ (1 + 1 / 2 ^ 53) * (((rng.rand g).1 : ℝ) / (rng.RAND_MAX : ℝ)) := this
      _ ≤ (1 + 1 / 2 ^ 53) * 1 := mul_le_mul_of_nonneg_left hq1 hb
      _ = _ := mul_one _

/-- On an accurate platform the displacement `posOff` drawn with draws of
`rand()` between 0 and `RAND_MAX` has a magnitude of at most
`(1 + 2^-50) * maxSpeed`. -/
theorem drawPosOff_le {G : Type} (P : Platform ℝ) (hacc : Accurate P) (htrig : TrigBounded P)
    (rng : Rng G)
    (hRM : 0 < rng.RAND_MAX)
    (hrand : ∀ g, 0 ≤ (rng.rand g).1 ∧ (rng.rand g).1 ≤ rng.RAND_MAX) (self : Node ℝ)
    (ms : ℝ) (hms : self.maxSpeed = Dbl.val ms) (h1 : 0 ≤ ms) (g : G) :
    ∃ px py : ℝ, drawPosOff P rng self g = ⟨Dbl.val px, Dbl.val py⟩ ∧
      Real.sqrt (px * px + py * py) ≤ (1 + 1 / 2 ^ 50) * ms := by
  obtain ⟨d1, hd1, -, -⟩ := drand_bounds P hacc rng hRM hrand g
  obtain ⟨d2, hd2, hd20, hd21⟩ := drand_bounds P hacc rng hRM hrand
    (drand P rng g : Dbl ℝ × G).2
  unfold drawPosOff
  simp only [hd1, hd2, hms, PI, Dbl.val_mul_val, Dbl.map_val, vd2d.scale_mk]
  refine ⟨_, _, rfl, ?_⟩
  have htrig := htrig (P.rnd (P.rnd (d1 * P.rnd (3141592 / 1000000)) * 2))
  generalize P.sin (P.rnd (P.rnd (d1 * P.rnd (3141592 / 1000000)) * 2)) = S at htrig
  generalize P.cos (P.rnd (P.rnd (d1 * P.rnd (3141592 / 1000000)) * 2)) = C at htrig
  have hb : (0 : ℝ) ≤ 1 + 1 / 2 ^ 53 := by norm_num
  have hdm0 : 0 ≤ d2 * ms := mul_nonneg hd20 h1
  have hdist0 : 0 ≤ P.rnd (d2 * ms) :=
    le_trans (mul_nonneg (by norm_num) hdm0) (rnd_ge_of_nonneg P hacc _ hdm0)
  have hdist1 : P.rnd (d2 * ms) ≤ (1 + 1 / 2 ^ 53) * ((1 + 1 / 2 ^ 53) * ms) :=
    le_trans (rnd_le_of_nonneg P hacc _ hdm0)
      (mul_le_mul_of_nonneg_left (mul_le_mul_of_nonneg_right hd21 h1) hb)
  have hpx := rnd_abs_le P hacc (S * P.rnd (d2 * ms))
  have hpy := rnd_abs_le P hacc (C * P.rnd (d2 * ms))
  rw [abs_mul, abs_of_nonneg hdist0] at hpx hpy
  generalize P.rnd (d2 * ms) = dist at hdist0 hdist1 hpx hpy
  generalize P.rnd (S * dist) = px at hpx
  generalize P.rnd (C * dist) = py at hpy
  have hL0 : 0 ≤ (1 + 1 / 2 ^ 53) * (1 + 1 / 2 ^ 52) * dist :=
    mul_nonneg (by norm_num) hdist0
  have hsq : Real.sqrt (px * px + py * py) ≤ (1 + 1 / 2 ^ 53) * (1 + 1 / 2 ^ 52) * dist := by
    apply sqrt_sq_add_sq_le px py _ hL0
    have h1 : px * px ≤
        ((1 + 1 / 2 ^ 53) * (|S| * dist)) * ((1 + 1 / 2 ^ 53) * (|S| * dist)) := by
      rw [← abs_mul_abs_self px]
      exact mul_le_mul hpx hpx (abs_nonneg _) (le_trans (abs_nonneg _) hpx)
    have h2 : py * py ≤
        ((1 + 1 / 2 ^ 53) * (|C| * dist)) * ((1 + 1 / 2 ^ 53) * (|C| * dist)) := by
      rw [← abs_mul_abs_self py]
      exact mul_le_mul hpy hpy (abs_nonneg _) (le_trans (abs_nonneg _) hpy)
    have h3 : ((1 + 1 / 2 ^ 53) * (|S| * dist)) * ((1 + 1 / 2 ^ 53) * (|S| * dist)) +
        ((1 + 1 / 2 ^ 53) * (|C| * dist)) * ((1 + 1 / 2 ^ 53) * (|C| * dist)) =
        ((1 + 1 / 2 ^ 53) * dist) ^ 2 * (S * S + C * C) := by
      rw [← abs_mul_abs_self S, ← abs_mul_abs_self C]; ring
    calc px * px + py * py ≤ _ := add_le_add h1 h2
      _ = _ := h3
      _ ≤ ((1 + 1 / 2 ^ 53) * dist) ^ 2 * ((1 + 1 / 2 ^ 52) * (1 + 1 / 2 ^ 52)) :=
          mul_le_mul_of_nonneg_left htrig (sq_nonneg _)
      _ = _ := by ring
  have hk : ((1 + 1 / 2 ^ 53 : ℝ) * (1 + 1 / 2 ^ 52)) * ((1 + 1 / 2 ^ 53) * (1 + 1 / 2 ^ 53)) ≤
      1 + 1 / 2 ^ 50 := by norm_num
  calc Real.sqrt (px * px + py * py) ≤ (1 + 1 / 2 ^ 53) * (1 + 1 / 2 ^ 52) * dist := hsq
    _ ≤ (1 + 1 / 2 ^ 53) * (1 + 1 / 2 ^ 52) * ((1 + 1 / 2 ^ 53) * ((1 + 1 / 2 ^ 53) * ms)) :=
        mul_le_mul_of_nonneg_left hdist1 (by norm_num)
    _ = ((1 + 1 / 2 ^ 53 : ℝ) * (1 + 1 / 2 ^ 52)) * ((1 + 1 / 2 ^ 53) * (1 + 1 / 2 ^ 53)) *
          ms := by ring
    _ ≤ (1 + 1 / 2 ^ 50) * ms := mul_le_mul_of_nonneg_right hk h1

/-- The candidate offset of a node at home: `(p + s) - s`, computed with two
roundings, is `p` up to `3 * 2^-53 * (|p| + |s|)`. -/
theorem cand_near (P : Platform ℝ) (hacc : Accurate P) (p s : ℝ) :
    |P.rnd (P.rnd (p + s) - s) - p| ≤ 3 / 2 ^ 53 * (|p| + |s|) := by
  have h1 := hacc.1 (p + s)
  have h2 := hacc.1 (P.rnd (p + s) - s)
  have h3 : |p + s| ≤ |p| + |s| := abs_add p s
  generalize P.rnd (P.rnd (p + s) - s) = w at h2
  generalize P.rnd (p + s) = t at h1 h2
  have h4 : |t - s| ≤ |p| + |t - (p + s)| := by
    have := abs_add p (t - (p + s))
    have e : p + (t - (p + s)) = t - s := by ring
    rw [e] at this
    exact this
  have h5 : |w - p| ≤ |w - (t - s)| + |t - (p + s)| := by
    have := abs_add (w - (t - s)) (t - (p + s))
    have e : w - (t - s) + (t - (p + s)) = w - p := by ring
    rw [e] at this
    exact this
  have hp0 := abs_nonneg p
  have hs0 := abs_nonneg s
  have h6 : |t - (p + s)| ≤ (|p| + |s|) / 2 ^ 53 :=
    le_trans h1 (div_le_div_of_nonneg_right h3 (by positivity))
  have h7 : |w - (t - s)| ≤ (|p| + (|p| + |s|) / 2 ^ 53) / 2 ^ 53 :=
    le_trans h2 (div_le_div_of_nonneg_right (by linarith) (by positivity))
  have h8 : (|p| + (|p| + |s|) / 2 ^ 53) / 2 ^ 53 + (|p| + |s|) / 2 ^ 53 ≤
      3 / 2 ^ 53 * (|p| + |s|) := by
    have e : (|p| + (|p| + |s|) / 2 ^ 53) / 2 ^ 53 + (|p| + |s|) / 2 ^ 53 =
        (2 / 2 ^ 53 + 1 / 2 ^ 106) * |p| + (1 / 2 ^ 53 + 1 / 2 ^ 106) * |s| := by
      field_simp; ring
    rw [e]
    have c1 : (2 / 2 ^ 53 + 1 / 2 ^ 106 : ℝ) ≤ 3 / 2 ^ 53 := by norm_num
    have c2 : (1 / 2 ^ 53 + 1 / 2 ^ 106 : ℝ) ≤ 3 / 2 ^ 53 := by norm_num
    nlinarith [mul_le_mul_of_nonneg_right c1 hp0, mul_le_mul_of_nonneg_right c2 hs0]
  linarith

/-- The computed magnitude of the candidate offset of a node at home. -/
theorem cand_mag_le (P : Platform ℝ) (hacc : Accurate P) (px py sx sy : ℝ)
    (hsx : |sx| ≤ 2 ^ 20) (hsy : |sy| ≤ 2 ^ 20) :
    P.sqrt (P.rnd (P.rnd (P.rnd (P.rnd (px + sx) - sx) * P.rnd (P.rnd (px + sx) - sx)) +
        P.rnd (P.rnd (P.rnd (py + sy) - sy) * P.rnd (P.rnd (py + sy) - sy)))) ≤
      (1 + 1 / 2 ^ 49) * Real.sqrt (px * px + py * py) + 1 / 2 ^ 29 := by
  have hN := mag_le P hacc (P.rnd (P.rnd (px + sx) - sx)) (P.rnd (P.rnd (py + sy) - sy))
  have hfx := cand_near P hacc px sx
  have hfy := cand_near P hacc py sy
  generalize P.rnd (P.rnd (px + sx) - sx) = ux at hN hfx
  generalize P.rnd (P.rnd (py + sy) - sy) = uy at hN hfy
  generalize P.sqrt (P.rnd (P.rnd (ux * ux) + P.rnd (uy * uy))) = N at hN
  have hL0 : 0 ≤ Real.sqrt (px * px + py * py) := Real.sqrt_nonneg _
  have hpx : |px| ≤ Real.sqrt (px * px + py * py) :=
    abs_le_of_sq_add_sq_le px py _ hL0 (le_of_eq (Real.mul_self_sqrt (sq_add_sq_nonneg px py)).symm)
  have hpy : |py| ≤ Real.sqrt (px * px + py * py) :=
    abs_le_of_sq_add_sq_le py px _ hL0
      (by rw [Real.mul_self_sqrt (sq_add_sq_nonneg px py)]; linarith)
  have htri := sqrt_add_le px (ux - px) py (uy - py)
  have e1 : px + (ux - px) = ux := by ring
  have e2 : py + (uy - py) = uy := by ring
  rw [e1, e2] at htri
  have herr := sqrt_sq_add_sq_le_abs (ux - px) (uy - py)
  generalize Real.sqrt (px * px + py * py) = L at hL0 hpx hpy htri ⊢
  generalize Real.sqrt (ux * ux + uy * uy) = U at hN htri
  generalize Real.sqrt ((ux - px) * (ux - px) + (uy - py) * (uy - py)) = F at htri herr
  have hF : F ≤ 6 / 2 ^ 53 * L + 1 / 2 ^ 30 := by
    have a1 : (3 / 2 ^ 53 : ℝ) * (|px| + |sx|) ≤ 3 / 2 ^ 53 * (L + 2 ^ 20) :=
      mul_le_mul_of_nonneg_left (add_le_add hpx hsx) (by norm_num)
    have a2 : (3 / 2 ^ 53 : ℝ) * (|py| + |sy|) ≤ 3 / 2 ^ 53 * (L + 2 ^ 20) :=
      mul_le_mul_of_nonneg_left (add_le_add hpy hsy) (by norm_num)
    have a3 : (3 / 2 ^ 53 : ℝ) * (L + 2 ^ 20) + 3 / 2 ^ 53 * (L + 2 ^ 20) =
        6 / 2 ^ 53 * L + 6 / 2 ^ 33 := by ring
    have a4 : (6 / 2 ^ 33 : ℝ) ≤ 1 / 2 ^ 30 := by norm_num
    linarith
  have hU : U ≤ (1 + 6 / 2 ^ 53) * L + 1 / 2 ^ 30 := by linarith
  have hU2 : (1 + 1 / 2 ^ 53 : ℝ) ^ 2 * U ≤
      (1 + 1 / 2 ^ 53) ^ 2 * ((1 + 6 / 2 ^ 53) * L + 1 / 2 ^ 30) :=
    mul_le_mul_of_nonneg_left hU (by norm_num)
  have e3 : (1 + 1 / 2 ^ 53 : ℝ) ^ 2 * ((1 + 6 / 2 ^ 53) * L + 1 / 2 ^ 30) =
      ((1 + 1 / 2 ^ 53) ^ 2 * (1 + 6 / 2 ^ 53)) * L + (1 + 1 / 2 ^ 53) ^ 2 * (1 / 2 ^ 30) := by
    ring
  have c1 : ((1 + 1 / 2 ^ 53 : ℝ) ^ 2 * (1 + 6 / 2 ^ 53)) ≤ 1 + 1 / 2 ^ 49 := by norm_num
  have c2 : (1 + 1 / 2 ^ 53 : ℝ) ^ 2 * (1 / 2 ^ 30) ≤ 1 / 2 ^ 29 := by norm_num
  have c3 := mul_le_mul_of_nonneg_right c1 hL0
  linarith

/-- A node at home on an accurate platform, with a home of coordinates at most
`2^20`, `maxTravel >= 0`, `maxSpeed >= 0` and `min(maxSpeed, maxTravel) <= 4`,
moved with draws of `rand()` between 0 and `RAND_MAX`: the new position is a
point within `(1 + 2^-48) * min(maxSpeed, maxTravel) + 2^-27` of home. -/
theorem home_move_reach_rounded {G : Type} (P : Platform ℝ) (hacc : Accurate P)
    (htrig : TrigBounded P) (rng : Rng G)
    (hRM : 0 < rng.RAND_MAX)
    (hrand : ∀ g, 0 ≤ (rng.rand g).1 ∧ (rng.rand g).1 ≤ rng.RAND_MAX) (n : Node ℝ)
    (sx sy mt ms : ℝ) (hc : n.cPos = ⟨Dbl.val sx, Dbl.val sy⟩)
    (hs : n.sPos = ⟨Dbl.val sx, Dbl.val sy⟩) (hmt : n.maxTravel = Dbl.val mt)
    (hms : n.maxSpeed = Dbl.val ms) (h0 : 0 ≤ mt) (h1 : 0 ≤ ms) (hsx : |sx| ≤ 2 ^ 20)
    (hsy : |sy| ≤ 2 ^ 20) (h4 : min ms mt ≤ 4) (g : G) :
    ∃ nx ny : ℝ, (Node.move P rng n g).1.cPos = ⟨Dbl.val nx, Dbl.val ny⟩ ∧
      Real.sqrt ((nx - sx) * (nx - sx) + (ny - sy) * (ny - sy)) ≤
        (1 + 1 / 2 ^ 48) * min ms mt + 1 / 2 ^ 27 := by
  obtain ⟨px, py, hpos, hL⟩ := drawPosOff_le P hacc htrig rng hRM hrand n ms hms h1 g
  rw [move_eq_moveWith, hpos]
  have hmin0 : 0 ≤ min ms mt := le_min h1 h0
  have hN1 := cand_mag_le P hacc px py sx sy hsx hsy
  have hN0 := mag_nonneg P hacc (P.rnd (P.rnd (px + sx) - sx)) (P.rnd (P.rnd (py + sy) - sy))
  have hNms : P.sqrt (P.rnd (P.rnd (P.rnd (P.rnd (px + sx) - sx) * P.rnd (P.rnd (px + sx) - sx)) +
        P.rnd (P.rnd (P.rnd (py + sy) - sy) * P.rnd (P.rnd (py + sy) - sy)))) ≤
      (1 + 1 / 2 ^ 48) * ms + 1 / 2 ^ 29 := by
    have a1 : (1 + 1 / 2 ^ 49 : ℝ) * Real.sqrt (px * px + py * py) ≤
        (1 + 1 / 2 ^ 49) * ((1 + 1 / 2 ^ 50) * ms) :=
      mul_le_mul_of_nonneg_left hL (by norm_num)
    have a2 : (1 + 1 / 2 ^ 49 : ℝ) * ((1 + 1 / 2 ^ 50) * ms) ≤ (1 + 1 / 2 ^ 48) * ms := by
      rw [← mul_assoc]
      exact mul_le_mul_of_nonneg_right (by norm_num) h1
    linarith
  unfold moveWith
  simp only [hc, hs, hmt, vd2d.add_mk, vd2d.sub_mk, Dbl.val_add_val, Dbl.val_sub_val,
    vd2d.mag_mk, vd2d.norm_mk, Dbl.val_mul_val,
    Dbl.sqrt_val_of_nonneg _ _ (magsq_nonneg P hacc _ _), Dbl.ne_val_val,
    Dbl.min_val_val, Dbl.val_div_val]
  generalize P.rnd (P.rnd (px + sx) - sx) = ux at hN0 hNms
  generalize P.rnd (P.rnd (py + sy) - sy) = uy at hN0 hNms
  have hbound0 : (0 : ℝ) ≤ (1 + 1 / 2 ^ 48) * min ms mt + 1 / 2 ^ 27 :=
    add_nonneg (mul_nonneg (by norm_num) hmin0) (by norm_num)
  by_cases hN : P.sqrt (P.rnd (P.rnd (ux * ux) + P.rnd (uy * uy))) = 0
  · refine ⟨sx, sy, by simp [hN], ?_⟩
    simp only [sub_self, mul_zero, add_zero, Real.sqrt_zero]
    exact hbound0
  · have hm0 : 0 ≤ (if mt < P.sqrt (P.rnd (P.rnd (ux * ux) + P.rnd (uy * uy))) then mt
        else P.sqrt (P.rnd (P.rnd (ux * ux) + P.rnd (uy * uy)))) := by
      split_ifs <;> assumption
    have hm1 : (if mt < P.sqrt (P.rnd (P.rnd (ux * ux) + P.rnd (uy * uy))) then mt
        else P.sqrt (P.rnd (P.rnd (ux * ux) + P.rnd (uy * uy)))) ≤
        (1 + 1 / 2 ^ 48) * min ms mt + 1 / 2 ^ 29 := by
      have hk : (0 : ℝ) ≤ 1 / 2 ^ 48 := by norm_num
      split_ifs with h
      · rcases le_total ms mt with hle | hle
        · rw [min_eq_left hle]; linarith
        · rw [min_eq_right hle]; nlinarith
      · rcases le_total ms mt with hle | hle
        · rw [min_eq_left hle]; linarith
        · rw [min_eq_right hle]
          have := not_lt.1 h
          nlinarith
    have hT : (1 + 1 / 2 ^ 48 : ℝ) * min ms mt + 1 / 2 ^ 29 ≤ 2 ^ 20 := by
      have : (1 + 1 / 2 ^ 48 : ℝ) * min ms mt ≤ (1 + 1 / 2 ^ 48) * 4 :=
        mul_le_mul_of_nonneg_left h4 (by norm_num)
      have c : (1 + 1 / 2 ^ 48 : ℝ) * 4 + 1 / 2 ^ 29 ≤ 2 ^ 20 := by norm_num
      linarith
    refine ⟨_, _, by
      simp only [hN, ne_eq, not_false_eq_true, decide_True, if_true,
        if_false, Dbl.val_mul_val, vd2d.scale_mk, vd2d.add_mk, Dbl.val_add_val]
      rfl, ?_⟩
    have := step_le P hacc _ _ _ _ sx sy (unit_norm_le P hacc ux uy hN) hm0 hm1 hsx hsy hT
    have c : (1 / 2 ^ 29 : ℝ) + 1 / 2 ^ 28 ≤ 1 / 2 ^ 27 := by norm_num
    linarith

/-- C7 (amended): two agents with distinct ids at home at the same position,
agent 0 infected, both `maxTravel >= 0` and `maxSpeed >= 0`, every draw of
`rand()` between 0 and `RAND_MAX`: after one `World::update` agent 1 is
infected, (a) with the arithmetic taken over the reals (no operation rounds,
`sqrt`, `sin` and `cos` are the real functions) when
`min(maxSpeed_0, maxTravel_0) + min(maxSpeed_1, maxTravel_1) < 4`, and (b) on
an accurate platform (every operation and `sqrt` rounded with a relative error
of at most `2^-53`, `sin^2 + cos^2 <= (1 + 2^-52)^2`) when that sum is at most
`4 - 2^-20` and the coordinates of the home are at most `2^20` in absolute
value. -/
theorem colocated_agents_infect {G : Type} (P : Platform ℝ) (rng : Rng G)
    (hRM : 0 < rng.RAND_MAX)
    (hrand : ∀ g, 0 ≤ (rng.rand g).1 ∧ (rng.rand g).1 ≤ rng.RAND_MAX)
    (w : World ℝ) (g : G) (n0 n1 : Node ℝ) (sx sy mt0 mt1 ms0 ms1 : ℝ)
    (hw : w.nodes = [n0, n1]) (hid : n0.id ≠ n1.id)
    (hc0 : n0.cPos = ⟨Dbl.val sx, Dbl.val sy⟩) (hs0 : n0.sPos = ⟨Dbl.val sx, Dbl.val sy⟩)
    (hc1 : n1.cPos = ⟨Dbl.val sx, Dbl.val sy⟩) (hs1 : n1.sPos = ⟨Dbl.val sx, Dbl.val sy⟩)
    (hmt0 : n0.maxTravel = Dbl.val mt0) (hmt1 : n1.maxTravel = Dbl.val mt1)
    (hms0 : n0.maxSpeed = Dbl.val ms0) (hms1 : n1.maxSpeed = Dbl.val ms1)
    (ht0 : 0 ≤ mt0) (ht1 : 0 ≤ mt1) (hv0 : 0 ≤ ms0) (hv1 : 0 ≤ ms1)
    (hinf : n0.infected = true) :
    ((∀ x, P.rnd x = x) → P.sqrt = Real.sqrt → P.sin = Real.sin → P.cos = Real.cos →
        min ms0 mt0 + min ms1 mt1 < 4 →
        infectedAt (World.update P rng w g).1.nodes 1 = true) ∧
      (Accurate P → TrigBounded P → |sx| ≤ 2 ^ 20 → |sy| ≤ 2 ^ 20 →
        min ms0 mt0 + min ms1 mt1 ≤ 4 - 1 / 2 ^ 20 →
        infectedAt (World.update P rng w g).1.nodes 1 = true) := by
  have hA : (afterMoves P rng w)[1]? =
      some (Node.move P rng n1 (Node.move P rng n0 (rng.srand w.nextSeed)).2).1 := by
    rw [afterMoves_pair P rng w n0 n1 hw]; rfl
  have hB : (afterMoves P rng w)[0]? = some (Node.move P rng n0 (rng.srand w.nextSeed)).1 := by
    rw [afterMoves_pair P rng w n0 n1 hw]; rfl
  constructor
  · intro hrnd hsqrt hsin hcos hreach
    obtain ⟨ax, ay, ha, hda⟩ := home_move_reach P hrnd hsqrt hsin hcos rng hRM hrand n0 sx sy
      mt0 ms0 hc0 hs0 hmt0 hms0 ht0 hv0 (rng.srand w.nextSeed)
    obtain ⟨bx, by1, hb, hdb⟩ := home_move_reach P hrnd hsqrt hsin hcos rng hRM hrand n1 sx sy
      mt1 ms1 hc1 hs1 hmt1 hms1 ht1 hv1 (Node.move P rng n0 (rng.srand w.nextSeed)).2
    rw [update_nodes, checkAll_infected_iff P _ _ 1 _ hA]
    refine Or.inr ⟨0, _, hB, ?_, ?_, Or.inl ?_⟩
    · rw [move_id, move_id]; exact hid
    · rw [ha, hb]
      simp only [vd2d.sub_mk, Dbl.val_sub_val, vd2d.mag_mk, Dbl.val_mul_val, Dbl.val_add_val,
        Dbl.sqrt_val_of_nonneg _ _ (sq_add_sq_nonneg _ _), hrnd, hsqrt, Dbl.lt_val_val,
        decide_eq_true_eq]
      have htri := sqrt_add_le (bx - sx) (sx - ax) (by1 - sy) (sy - ay)
      have e1 : bx - sx + (sx - ax) = bx - ax := by ring
      have e2 : by1 - sy + (sy - ay) = by1 - ay := by ring
      rw [e1, e2, sqrt_sub_comm sx ax sy ay] at htri
      linarith
    · rw [move_infected]; exact hinf
  · intro hacc htrig hsx hsy hreach
    have hr0 : 0 ≤ min ms0 mt0 := le_min hv0 ht0
    have hr1 : 0 ≤ min ms1 mt1 := le_min hv1 ht1
    have hk : (0 : ℝ) ≤ 1 / 2 ^ 20 := by norm_num
    obtain ⟨ax, ay, ha, hda⟩ := home_move_reach_rounded P hacc htrig rng hRM hrand n0 sx sy
      mt0 ms0 hc0 hs0 hmt0 hms0 ht0 hv0 hsx hsy (by linarith) (rng.srand w.nextSeed)
    obtain ⟨bx, by1, hb, hdb⟩ := home_move_reach_rounded P hacc htrig rng hRM hrand n1 sx sy
      mt1 ms1 hc1 hs1 hmt1 hms1 ht1 hv1 hsx hsy (by linarith)
      (Node.move P rng n0 (rng.srand w.nextSeed)).2
    rw [update_nodes, checkAll_infected_iff P _ _ 1 _ hA]
    refine Or.inr ⟨0, _, hB, ?_, ?_, Or.inl ?_⟩
    · rw [move_id, move_id]; exact hid
    · rw [ha, hb]
      apply near_contact P hacc
      have htri := sqrt_add_le (bx - sx) (sx - ax) (by1 - sy) (sy - ay)
      have e1 : bx - sx + (sx - ax) = bx - ax := by ring
      have e2 : by1 - sy + (sy - ay) = by1 - ay := by ring
      rw [e1, e2, sqrt_sub_comm sx ax sy ay] at htri
      have hsum : (1 + 1 / 2 ^ 48 : ℝ) * min ms0 mt0 + (1 + 1 / 2 ^ 48) * min ms1 mt1 ≤
          (1 + 1 / 2 ^ 48) * (4 - 1 / 2 ^ 20) := by
        rw [← mul_add]
        exact mul_le_mul_of_nonneg_left hreach (by norm_num)
      have hnum : (1 + 1 / 2 ^ 48 : ℝ) * (4 - 1 / 2 ^ 20) + 1 / 2 ^ 27 + 1 / 2 ^ 27 ≤
          4 - 1 / 2 ^ 21 := by norm_num
      linarith
    · rw [move_infected]; exact hinf

theorem sqrt_hundred : Real.sqrt 100 = 10 := by
  rw [show (100 : ℝ) = 10 ^ 2 by norm_num]; exact Real.sqrt_sq (by norm_num)

theorem pairWorld_fast_afterMoves :
    afterMoves (Platform.mk id Real.sqrt Real.sin Real.cos id true) scriptRng (pairWorld 0 10) =
      [ { id := 0, cPos := ⟨Dbl.val 0, Dbl.val 10⟩, sPos := ⟨Dbl.val 0, Dbl.val 0⟩,
          reinfectable := false, infectable := true, infected := true, infectedFor := 0,
          maxTravel := Dbl.val 10, maxSpeed := Dbl.val 10 },
        { id := 1, cPos := ⟨Dbl.val 0, Dbl.val 0⟩, sPos := ⟨Dbl.val 0, Dbl.val 0⟩,
          reinfectable := false, infectable := true, infected := false, infectedFor := 0,
          maxTravel := Dbl.val 10, maxSpeed := Dbl.val 10 } ] := by
  norm_num [afterMoves, World.moveAll, Node.move, drand, scriptRng, pairWorld, PI, vd2d.mag_mk,
    vd2d.norm_mk, Dbl.sqrt_val, Dbl.val_div_val, Dbl.min_val_val, sqrt_hundred]

/-- C7 as stated fails: two agents at the same position `(0, 0)` with
`maxSpeed = 10` and `maxTravel = 10`, agent 0 infected. Agent 0 draws the
direction 0 and the full speed and moves to `(0, 10)`; agent 1 draws the speed
0 and stays. They are 10 apart when the checks run, and agent 1 is not infected
after the tick. -/
theorem colocated_agents_infect_counterexample :
    (∀ n ∈ (pairWorld 0 10).nodes,
        n.cPos = ⟨Dbl.val 0, Dbl.val 0⟩ ∧ n.sPos = ⟨Dbl.val 0, Dbl.val 0⟩) ∧
      infectedAt (pairWorld 0 10).nodes 0 = true ∧
      infectedAt (World.update (Platform.mk id Real.sqrt Real.sin Real.cos id true) scriptRng
        (pairWorld 0 10) 0).1.nodes 1 = false := by
  refine ⟨?_, rfl, ?_⟩
  · intro n hn
    simp only [pairWorld, List.mem_cons, List.mem_singleton, List.not_mem_nil, or_false] at hn
    rcases hn with h | h <;> subst h <;> exact ⟨rfl, rfl⟩
  · rw [update_nodes, pairWorld_fast_afterMoves, checkAll_pair]
    norm_num [infectedAt, Node.update, infectTest, vd2d.mag_mk, Dbl.sqrt_val, sqrt_hundred]

/-- C7 (amended), applied to two agents at `(0, 0)` with `maxSpeed = 1` and
`maxTravel = 10`: on the actual platform, and with arithmetic over the reals. -/
theorem colocated_agents_infect_witness :
    infectedAt (World.update (binaryPlatform Real.sqrt Real.sin Real.cos) scriptRng
        (pairWorld 0 1) 0).1.nodes 1 = true ∧
      infectedAt (World.update (Platform.mk id Real.sqrt Real.sin Real.cos id true) scriptRng
        (pairWorld 0 1) 0).1.nodes 1 = true :=
  ⟨(colocated_agents_infect (binaryPlatform Real.sqrt Real.sin Real.cos) scriptRng (by decide)
      (by
        intro g
        simp only [scriptRng]
        split_ifs <;> decide)
      (pairWorld 0 1) 0 _ _ 0 0 10 10 1 1 rfl (by decide) rfl rfl rfl rfl rfl rfl rfl rfl
      (by norm_num) (by norm_num) (by norm_num) (by norm_num) rfl).2 binaryPlatform_accurate
      binaryPlatform_trigBounded (by norm_num) (by norm_num) (by norm_num),
    (colocated_agents_infect (Platform.mk id Real.sqrt Real.sin Real.cos id true) scriptRng
      (by decide)
      (by
        intro g
        simp only [scriptRng]
        split_ifs <;> decide)
      (pairWorld 0 1) 0 _ _ 0 0 10 10 1 1 rfl (by decide) rfl rfl rfl rfl rfl rfl rfl rfl
      (by norm_num) (by norm_num) (by norm_num) (by norm_num) rfl).1 (fun _ => rfl) rfl rfl rfl
      (by norm_num)⟩

end Geometry

/-! ## The frame and the log of a tick -/

section Frame

variable {R G : Type} [LinearOrderedField R]

theorem checkPrefix_stream (P : Platform R) (nodes : List (Node R)) (stream : List (Record R))
    (k : Nat) (hk : k ≤ nodes.length) :
    (checkPrefix P nodes stream k).2 =
      stream ++ ((World.checkAll P nodes stream).1.take k).map Node.record := by
  induction k with
  | zero => simp [checkPrefix]
  | succ k ih =>
    have hlt : k < nodes.length := by omega
    rw [checkPrefix_succ]
    have hk1 : (checkPrefix P nodes stream k).1[k]? = nodes[k]? := by
      rw [checkPrefix_getElem?]; simp
    have hn : nodes[k]? = some nodes[k] := List.getElem?_eq_getElem hlt
    have hfin : (World.checkAll P nodes stream).1[k]? =
        some (Node.update P nodes[k] (checkPrefix P nodes stream k).1) := by
      rw [checkAll_getElem?, hn]; rfl
    unfold World.checkStep
    rw [hk1, hn]
    simp only
    rw [ih (by omega), List.take_succ, hfin]
    simp

theorem checkAll_length (P : Platform R) (nodes : List (Node R)) (stream : List (Record R)) :
    (World.checkAll P nodes stream).1.length = nodes.length := by
  simpa using congrArg List.length
    (checkAll_map P (fun n => n.id) (fun _ _ => rfl) nodes stream)

theorem update_stream (P : Platform R) (rng : Rng G) (w : World R) (g : G) :
    (World.update P rng w g).1.stream =
      w.stream ++ [Record.NODEHEADER] ++ (World.update P rng w g).1.nodes.map Node.record := by
  show (World.checkAll P (afterMoves P rng w) (w.stream ++ [Record.NODEHEADER])).2 = _
  rw [checkAll_eq_checkPrefix, checkPrefix_stream P _ _ _ (le_refl _), update_nodes,
    ← checkAll_length P (afterMoves P rng w) (w.stream ++ [Record.NODEHEADER]),
    List.take_length]

theorem checkPrefix_emits (P : Platform R) (nodes : List (Node R)) (stream : List (Record R))
    (k : Nat) (n : Node R) (hn : (World.checkAll P nodes stream).1[k]? = some n) :
    (checkPrefix P nodes stream (k + 1)).2 = (checkPrefix P nodes stream k).2 ++ [n.record] := by
  have hk : k < nodes.length := by
    rw [← checkAll_length P nodes stream]
    exact (List.getElem?_eq_some.mp hn).1
  rw [checkPrefix_stream P nodes stream (k + 1) (by omega),
    checkPrefix_stream P nodes stream k (by omega), List.take_succ, hn]
  simp

/-- C12: `World::update` keeps the number of agents and, agent by agent, the
fields `id`, `sPos`, `reinfectable`, `infectable`, `infectedFor`, `maxTravel`
and `maxSpeed` (only `cPos` and `infected` can differ); of the fields of the
`World` it changes `nextSeed` only, and it only appends to the log stream. -/
theorem tick_frame (P : Platform R) (rng : Rng G) (w : World R) (g : G) :
    (World.update P rng w g).1.nodes.length = w.nodes.length ∧
      (World.update P rng w g).1.nodes.map Node.frame = w.nodes.map Node.frame ∧
      (World.update P rng w g).1.minInfTime = w.minInfTime ∧
      (World.update P rng w g).1.maxInfTime = w.maxInfTime ∧
      (World.update P rng w g).1.suvRate = w.suvRate ∧
      (World.update P rng w g).1.maxSpeed = w.maxSpeed ∧
      ∃ written, (World.update P rng w g).1.stream = w.stream ++ written := by
  have h := update_map P rng Node.frame (fun _ _ => rfl) (fun _ _ => rfl) w g
  refine ⟨by simpa using congrArg List.length h, h, rfl, rfl, rfl, rfl, ?_⟩
  refine ⟨Record.NODEHEADER :: (World.update P rng w g).1.nodes.map Node.record, ?_⟩
  rw [update_stream]
  simp

/-- C17: the record `World::update` writes right after the check of agent `k`
is the record of that agent as it is at the end of the tick, so the stream
after the tick is the stream before it, the column header, and the records of
the final population in population order, as if every check had run before
the first record was written. -/
theorem interleaved_log_is_bulk_log (P : Platform R) (rng : Rng G) (w : World R) (g : G) :
    (∀ (k : Nat) (n : Node R), (World.update P rng w g).1.nodes[k]? = some n →
        (checkPrefix P (afterMoves P rng w) (w.stream ++ [Record.NODEHEADER]) (k + 1)).2 =
          (checkPrefix P (afterMoves P rng w) (w.stream ++ [Record.NODEHEADER]) k).2 ++
            [n.record]) ∧
      (World.update P rng w g).1.stream =
        w.stream ++ [Record.NODEHEADER] ++
          (World.update P rng w g).1.nodes.map Node.record :=
  ⟨fun k n hn => checkPrefix_emits P _ _ k n (by rw [← update_nodes P rng w g]; exact hn),
    update_stream P rng w g⟩

end Frame

/-! ## Order of the checks and chains of contacts -/

section Order

variable {R G : Type} [LinearOrderedField R]

theorem nodeUpdate_infected_iff (P : Platform R) (A : Node R) (nodes : List (Node R)) :
    (Node.update P A nodes).infected = true ↔
      A.infected = true ∨ ∃ B ∈ nodes, B.id ≠ A.id ∧
        Dbl.lt (vd2d.mag P (vd2d.sub P A.cPos B.cPos)) (Dbl.val 4) = true ∧
          B.infected = true := by
  rw [nodeUpdate_infected, Bool.or_eq_true, List.any_eq_true]
  apply or_congr Iff.rfl
  constructor
  · rintro ⟨B, hB, hc⟩
    simp only [Bool.and_eq_true, decide_eq_true_eq, infectTest] at hc
    obtain ⟨hid, ht⟩ := hc
    by_cases hlt : Dbl.lt (vd2d.mag P (vd2d.sub P A.cPos B.cPos)) (Dbl.val 4) = true
    · rw [if_pos hlt] at ht
      exact ⟨B, hB, hid, hlt, ht⟩
    · rw [if_neg hlt] at ht
      exact absurd ht (by simp)
  · rintro ⟨B, hB, hid, hlt, hinf⟩
    exact ⟨B, hB, by simp [infectTest, hid, hlt, hinf]⟩

theorem nodeUpdate_perm (P : Platform R) (A : Node R) (nodes nodes1 : List (Node R))
    (h : nodes.Perm nodes1) : Node.update P A nodes1 = Node.update P A nodes := by
  rw [nodeUpdate_eq, nodeUpdate_eq]
  congr 2
  rw [Bool.eq_iff_iff, List.any_eq_true, List.any_eq_true]
  constructor
  · rintro ⟨x, hx, hp⟩; exact ⟨x, h.mem_iff.mpr hx, hp⟩
  · rintro ⟨x, hx, hp⟩; exact ⟨x, h.mem_iff.mp hx, hp⟩

/-- C15: after `Node::update` the flag `A.infected` is true if and only if it
was true before or the list holds an agent `B` with `B.id != A.id`, at distance
strictly less than 4 from `A` and infected; `Node::update` gives the same node
for every permutation of the list. -/
theorem check_order_independent (P : Platform R) (A : Node R) (nodes : List (Node R)) :
    ((Node.update P A nodes).infected = true ↔
        A.infected = true ∨ ∃ B ∈ nodes, B.id ≠ A.id ∧
          Dbl.lt (vd2d.mag P (vd2d.sub P A.cPos B.cPos)) (Dbl.val 4) = true ∧
            B.infected = true) ∧
      ∀ nodes1 : List (Node R), nodes.Perm nodes1 →
        Node.update P A nodes1 = Node.update P A nodes :=
  ⟨nodeUpdate_infected_iff P A nodes, fun nodes1 h => nodeUpdate_perm P A nodes nodes1 h⟩

theorem checkAll_infected_chain (P : Platform R) (nodes : List (Node R))
    (stream : List (Record R)) (i : Nat)
    (h : infectedAt (World.checkAll P nodes stream).1 i = true) :
    ∃ k, infectedAt nodes k = true ∧ contactChain P nodes i k := by
  induction i using Nat.strong_induction_on with
  | _ i ih =>
    cases hA : nodes[i]? with
    | none => simp [infectedAt, checkAll_getElem?, hA] at h
    | some A =>
      rcases (checkAll_infected_iff P nodes stream i A hA).mp h with
        hinf | ⟨j, B, hB, _, hlt, hsrc⟩
      · exact ⟨i, by simp [infectedAt, hA, hinf], Relation.ReflTransGen.refl⟩
      · have hstep : contactChain P nodes i j :=
          Relation.ReflTransGen.single ⟨A, B, hA, hB, hlt⟩
        rcases hsrc with hBinf | ⟨hji, hfin⟩
        · exact ⟨j, by simp [infectedAt, hB, hBinf], hstep⟩
        · obtain ⟨k, hk, hchain⟩ := ih j hji hfin
          exact ⟨k, hk, Relation.ReflTransGen.trans hstep hchain⟩

/-- C16: every agent that is infected after `World::update` is linked to an
agent that was infected before the tick by a chain of agents in which each one
is at post-move distance strictly less than 4 from the next (the chain is
empty for an agent that was itself infected before); when no agent is infected
before a tick, none is after it. -/
theorem no_spontaneous_infection (P : Platform R) (rng : Rng G) (w : World R) (g : G) :
    (∀ i, infectedAt (World.update P rng w g).1.nodes i = true →
        ∃ k, infectedAt w.nodes k = true ∧ contactChain P (afterMoves P rng w) i k) ∧
      ((∀ k, infectedAt w.nodes k = false) →
        ∀ i, infectedAt (World.update P rng w g).1.nodes i = false) := by
  have main : ∀ i, infectedAt (World.update P rng w g).1.nodes i = true →
      ∃ k, infectedAt w.nodes k = true ∧ contactChain P (afterMoves P rng w) i k := by
    intro i hi
    rw [update_nodes] at hi
    obtain ⟨k, hk, hc⟩ := checkAll_infected_chain P _ _ i hi
    refine ⟨k, ?_, hc⟩
    unfold afterMoves at hk
    rw [infectedAt_moveAll] at hk
    exact hk
  refine ⟨main, fun hnone i => ?_⟩
  cases hfin : infectedAt (World.update P rng w g).1.nodes i with
  | false => rfl
  | true =>
    obtain ⟨k, hk, _⟩ := main i hfin
    rw [hnone k] at hk
    exact absurd hk (by simp)

end Order

/-! ## The movement formula -/

section Formula

theorem moveSpec_defined (P : Platform ℝ) (hrnd : ∀ x, P.rnd x = x)
    (hsqrt : P.sqrt = Real.sqrt) (self : Node ℝ)
    (px py cx cy sx sy mt : ℝ) (hc : self.cPos = ⟨Dbl.val cx, Dbl.val cy⟩)
    (hs : self.sPos = ⟨Dbl.val sx, Dbl.val sy⟩) (hmt : self.maxTravel = Dbl.val mt) :
    (moveSpec P self ⟨Dbl.val px, Dbl.val py⟩).cPos =
      if Real.sqrt ((px + cx - sx) * (px + cx - sx) + (py + cy - sy) * (py + cy - sy)) = 0 then
        ⟨Dbl.val sx, Dbl.val sy⟩
      else
        ⟨Dbl.val (sx + (px + cx - sx) *
            (1 / Real.sqrt ((px + cx - sx) * (px + cx - sx) + (py + cy - sy) * (py + cy - sy))) *
            (if mt < Real.sqrt ((px + cx - sx) * (px + cx - sx) + (py + cy - sy) * (py + cy - sy))
              then mt
              else Real.sqrt
                ((px + cx - sx) * (px + cx - sx) + (py + cy - sy) * (py + cy - sy)))),
          Dbl.val (sy + (py + cy - sy) *
            (1 / Real.sqrt ((px + cx - sx) * (px + cx - sx) + (py + cy - sy) * (py + cy - sy))) *
            (if mt < Real.sqrt ((px + cx - sx) * (px + cx - sx) + (py + cy - sy) * (py + cy - sy))
              then mt
              else Real.sqrt
                ((px + cx - sx) * (px + cx - sx) + (py + cy - sy) * (py + cy - sy))))⟩ := by
  unfold moveSpec
  simp only [hc, hs, hmt, vd2d.add_mk, vd2d.sub_mk, Dbl.val_add_val, Dbl.val_sub_val,
    vd2d.mag_mk, vd2d.norm_mk, Dbl.val_mul_val, Dbl.sqrt_val_of_nonneg _ _ (sq_add_sq_nonneg _ _),
    hrnd, hsqrt, Dbl.ne_val_val, Dbl.min_val_val, Dbl.val_div_val]
  by_cases h1 : Real.sqrt ((px + cx - sx) * (px + cx - sx) + (py + cy - sy) * (py + cy - sy)) = 0
  · simp [h1, hrnd]
  · simp [h1, hrnd]

theorem turn_angle_bounds :
    (0 : ℝ) < 1 / 32767 * (3141592 / 1000000) * 2 ∧
      (1 : ℝ) / 32767 * (3141592 / 1000000) * 2 < 1 := by
  constructor <;> norm_num

theorem turn_posOff :
    drawPosOff (Platform.mk id Real.sqrt Real.sin Real.cos id true) turnRng (homeNode 1) 0 =
      ⟨Dbl.val (Real.sin (1 / 32767 * (3141592 / 1000000) * 2)),
        Dbl.val (Real.cos (1 / 32767 * (3141592 / 1000000) * 2))⟩ := by
  norm_num [drawPosOff, drand, turnRng, homeNode, PI, Dbl.val_div_val]

theorem turn_move_differs :
    (Node.move (Platform.mk id Real.sqrt Real.sin Real.cos id true) turnRng
        (homeNode 1) 0).1.cPos ≠
      (moveSpec (Platform.mk id Real.sqrt Real.sin Real.cos id true) (homeNode 1)
        (drawPosOff (Platform.mk id Real.sqrt Real.sin Real.cos id true) turnRng
          (homeNode 1) 0)).cPos := by
  have hS : 0 < Real.sin (1 / 32767 * (3141592 / 1000000) * 2) :=
    Real.sin_pos_of_pos_of_lt_pi turn_angle_bounds.1
      (lt_trans turn_angle_bounds.2 (by linarith [Real.pi_gt_three]))
  have hC : 0 < Real.cos (1 / 32767 * (3141592 / 1000000) * 2) :=
    Real.cos_pos_of_mem_Ioo
      ⟨by linarith [turn_angle_bounds.1, Real.pi_gt_three],
        by linarith [turn_angle_bounds.2, Real.pi_gt_three]⟩
  have hSC := Real.sin_sq_add_cos_sq (1 / 32767 * (3141592 / 1000000) * 2)
  rw [move_eq_moveWith, turn_posOff,
    moveWith_defined _ (fun _ => rfl) rfl (homeNode 1) _ _ 0 1 0 0 5 rfl rfl rfl,
    moveSpec_defined _ (fun _ => rfl) rfl (homeNode 1) _ _ 0 1 0 0 5 rfl rfl rfl]
  generalize Real.sin (1 / 32767 * (3141592 / 1000000) * 2) = S at hS hSC ⊢
  generalize Real.cos (1 / 32767 * (3141592 / 1000000) * 2) = C at hC hSC ⊢
  simp only [add_zero, sub_zero, zero_add]
  have hone : Real.sqrt (S * S + C * C) = 1 := by
    rw [show S * S + C * C = 1 by nlinarith [hSC], Real.sqrt_one]
  have hNN : Real.sqrt (S * S + (C + 1) * (C + 1)) * Real.sqrt (S * S + (C + 1) * (C + 1)) =
      S * S + (C + 1) * (C + 1) := Real.mul_self_sqrt (sq_add_sq_nonneg S (C + 1))
  have hN0 : 0 ≤ Real.sqrt (S * S + (C + 1) * (C + 1)) := Real.sqrt_nonneg _
  generalize Real.sqrt (S * S + (C + 1) * (C + 1)) = N at hNN hN0 ⊢
  have hN1 : 1 < N := by nlinarith
  have hC1 : C ≤ 1 := by nlinarith [sq_nonneg S]
  have hN5 : ¬ 5 < N := by
    intro h5
    nlinarith
  have hNne : N ≠ 0 := by linarith
  rw [hone, if_neg hNne, if_neg one_ne_zero, if_neg hNne, if_neg hN5]
  intro h
  injection h with hx _
  injection hx with hx
  have : S * N = S := by
    field_simp at hx
    linarith
  nlinarith

/-- C11 fails on the code. `Node::move` recomputes `(posOff + cPos - sPos)`
after `cPos = sPos`, so the vector it normalises is the drawn displacement
`posOff`, not the candidate offset. For the node `homeNode 1`, one unit away
from home: with the speed draw 0 the code gives no number where the formula of
the claim gives `(0, 1)`; with the direction draw 1 and the full speed the code
adds a vector in the direction of `posOff` and its position differs from the
one of the formula. -/
theorem move_formula_failing_input :
    (Node.move (Platform.mk id Real.sqrt Real.sin Real.cos id true) zeroRng
          (homeNode 1) ()).1.cPos =
        ⟨Dbl.nan, Dbl.nan⟩ ∧
      (moveSpec (Platform.mk id Real.sqrt Real.sin Real.cos id true) (homeNode 1)
        (drawPosOff (Platform.mk id Real.sqrt Real.sin Real.cos id true) zeroRng
          (homeNode 1) ())).cPos = ⟨Dbl.val 0, Dbl.val 1⟩ ∧
      (Node.move (Platform.mk id Real.sqrt Real.sin Real.cos id true) turnRng
          (homeNode 1) 0).1.cPos ≠
        (moveSpec (Platform.mk id Real.sqrt Real.sin Real.cos id true) (homeNode 1)
          (drawPosOff (Platform.mk id Real.sqrt Real.sin Real.cos id true) turnRng
            (homeNode 1) 0)).cPos := by
  refine ⟨?_, ?_, turn_move_differs⟩
  · norm_num [Node.move, drand, zeroRng, homeNode, PI, vd2d.mag_mk, vd2d.norm_mk, Dbl.sqrt_val,
      Dbl.val_div_val]
  · norm_num [moveSpec, drawPosOff, drand, zeroRng, homeNode, PI, vd2d.mag_mk, vd2d.norm_mk,
      Dbl.sqrt_val, Dbl.val_div_val, Dbl.min_val_val]

/-- C14 fails on the code: the node `homeNode 1`, one unit away from home,
draws the speed 0, so `posOff = (0, 0)`. The guard `ndist != 0` passes, since
the candidate offset `posOff + cPos - sPos` has magnitude 1; the vector that is
normalised, `posOff + cPos - sPos` after `cPos = sPos`, is `(0, 0)`, of
magnitude 0, and `norm()` divides by it. -/
theorem move_guard_failing_input :
    drawPosOff (Platform.mk id Real.sqrt Real.sin Real.cos id true) zeroRng (homeNode 1) () =
        ⟨Dbl.val 0, Dbl.val 0⟩ ∧
      Dbl.ne (vd2d.mag (Platform.mk id Real.sqrt Real.sin Real.cos id true)
        (vd2d.sub (Platform.mk id Real.sqrt Real.sin Real.cos id true)
          (vd2d.add (Platform.mk id Real.sqrt Real.sin Real.cos id true)
            ⟨Dbl.val 0, Dbl.val 0⟩ (homeNode 1).cPos) (homeNode 1).sPos)) (Dbl.val 0) = true ∧
      vd2d.mag (Platform.mk id Real.sqrt Real.sin Real.cos id true)
        (vd2d.sub (Platform.mk id Real.sqrt Real.sin Real.cos id true)
          (vd2d.add (Platform.mk id Real.sqrt Real.sin Real.cos id true)
            ⟨Dbl.val 0, Dbl.val 0⟩ (homeNode 1).sPos) (homeNode 1).sPos) = Dbl.val 0 ∧
      vd2d.norm (Platform.mk id Real.sqrt Real.sin Real.cos id true)
        (vd2d.sub (Platform.mk id Real.sqrt Real.sin Real.cos id true)
          (vd2d.add (Platform.mk id Real.sqrt Real.sin Real.cos id true)
            ⟨Dbl.val 0, Dbl.val 0⟩ (homeNode 1).sPos) (homeNode 1).sPos) =
          ⟨Dbl.nan, Dbl.nan⟩ := by
  refine ⟨?_, ?_, ?_, ?_⟩
  · norm_num [drawPosOff, drand, zeroRng, homeNode, PI, Dbl.val_div_val]
  · norm_num [homeNode, vd2d.mag_mk, Dbl.sqrt_val]
  · norm_num [homeNode, vd2d.mag_mk, Dbl.sqrt_val]
  · norm_num [homeNode, vd2d.mag_mk, vd2d.norm_mk, Dbl.sqrt_val, Dbl.val_div_val]

end Formula

/-! ## Initial placement -/

section Placement

theorem drand_unit {G : Type} (P : Platform ℝ) (hrnd : ∀ x, P.rnd x = x) (rng : Rng G)
    (hRM : 0 < rng.RAND_MAX)
    (hrand : ∀ g, 0 ≤ (rng.rand g).1 ∧ (rng.rand g).1 ≤ rng.RAND_MAX) (g : G) :
    ∃ d : ℝ, (drand P rng g : Dbl ℝ × G).1 = Dbl.val d ∧ 0 ≤ d ∧ d ≤ 1 := by
  have hRM1 : (0 : ℝ) < (rng.RAND_MAX : ℝ) := by exact_mod_cast hRM
  have hr0 : (0 : ℝ) ≤ ((rng.rand g).1 : ℝ) := by exact_mod_cast (hrand g).1
  have hr1 : ((rng.rand g).1 : ℝ) ≤ (rng.RAND_MAX : ℝ) := by exact_mod_cast (hrand g).2
  refine ⟨((rng.rand g).1 : ℝ) / (rng.RAND_MAX : ℝ), ?_, div_nonneg hr0 (le_of_lt hRM1),
    (div_le_one hRM1).mpr hr1⟩
  simp [drand, Dbl.val_div_val, ne_of_gt hRM1, hrnd]

theorem between_of_unit (lo hi d : ℝ) (h : lo ≤ hi) (h0 : 0 ≤ d) (h1 : d ≤ 1) :
    lo ≤ lo + d * (hi - lo) ∧ lo + d * (hi - lo) ≤ hi := by
  constructor <;> nlinarith

theorem buildPrefix_within {G : Type} (P : Platform ℝ) (hrnd : ∀ x, P.rnd x = x) (rng : Rng G)
    (hRM : 0 < rng.RAND_MAX)
    (hrand : ∀ g, 0 ≤ (rng.rand g).1 ∧ (rng.rand g).1 ≤ rng.RAND_MAX)
    (hmono : Monotone P.toFloat) (lo hi minX minY maxX maxY : ℝ)
    (hfix : P.toFloat minX = minX ∧ P.toFloat maxX = maxX ∧ P.toFloat minY = minY ∧
      P.toFloat maxY = maxY)
    (hlohi : lo ≤ hi) (hx : minX ≤ maxX) (hy : minY ≤ maxY) (maxSpeed : Dbl ℝ)
    (reInfect : Bool) (log : List (Record ℝ)) (g : G) (k : Nat) (n : Node ℝ)
    (hn : n ∈ (buildPrefix P rng (Dbl.val lo) (Dbl.val hi)
      (vd2d.sub P ⟨Dbl.val maxX, Dbl.val maxY⟩ ⟨Dbl.val minX, Dbl.val minY⟩)
      ⟨Dbl.val minX, Dbl.val minY⟩ maxSpeed reInfect log g k).1) :
    ∃ x y t : ℝ, n.cPos = ⟨Dbl.val x, Dbl.val y⟩ ∧ n.sPos = ⟨Dbl.val x, Dbl.val y⟩ ∧
      minX ≤ x ∧ x ≤ maxX ∧ minY ≤ y ∧ y ≤ maxY ∧
      n.maxTravel = Dbl.val t ∧ lo ≤ t ∧ t ≤ hi := by
  induction k with
  | zero => simp [buildPrefix] at hn
  | succ k ih =>
    rw [buildPrefix_succ] at hn
    simp only [World.addNode, Node.Node, List.mem_append, List.mem_singleton] at hn
    rcases hn with h | h
    · exact ih h
    · obtain ⟨a, ha, ha0, ha1⟩ := drand_unit P hrnd rng hRM hrand
        (buildPrefix P rng (Dbl.val lo) (Dbl.val hi)
          (vd2d.sub P ⟨Dbl.val maxX, Dbl.val maxY⟩ ⟨Dbl.val minX, Dbl.val minY⟩)
          ⟨Dbl.val minX, Dbl.val minY⟩ maxSpeed reInfect log g k).2.2
      obtain ⟨b, hb, hb0, hb1⟩ := drand_unit P hrnd rng hRM hrand
        (drand P rng (buildPrefix P rng (Dbl.val lo) (Dbl.val hi)
          (vd2d.sub P ⟨Dbl.val maxX, Dbl.val maxY⟩ ⟨Dbl.val minX, Dbl.val minY⟩)
          ⟨Dbl.val minX, Dbl.val minY⟩ maxSpeed reInfect log g k).2.2 : Dbl ℝ × G).2
      obtain ⟨c, hc, hc0, hc1⟩ := drand_unit P hrnd rng hRM hrand
        (drand P rng (drand P rng (buildPrefix P rng (Dbl.val lo) (Dbl.val hi)
          (vd2d.sub P ⟨Dbl.val maxX, Dbl.val maxY⟩ ⟨Dbl.val minX, Dbl.val minY⟩)
          ⟨Dbl.val minX, Dbl.val minY⟩ maxSpeed reInfect log g k).2.2 : Dbl ℝ × G).2
            : Dbl ℝ × G).2
      subst h
      rw [ha, hb, hc]
      have bx := fun d h0 h1 => between_of_unit minX maxX d hx h0 h1
      have bY := fun d h0 h1 => between_of_unit minY maxY d hy h0 h1
      have bt := between_of_unit lo hi c hlohi hc0 hc1
      have fx : ∀ v, minX ≤ v → v ≤ maxX →
          minX ≤ P.toFloat v ∧ P.toFloat v ≤ maxX := by
        intro v h1 h2
        exact ⟨by rw [← hfix.1]; exact hmono h1, by rw [← hfix.2.1]; exact hmono h2⟩
      have fy : ∀ v, minY ≤ v → v ≤ maxY →
          minY ≤ P.toFloat v ∧ P.toFloat v ≤ maxY := by
        intro v h1 h2
        exact ⟨by rw [← hfix.2.2.1]; exact hmono h1, by rw [← hfix.2.2.2]; exact hmono h2⟩
      cases hlr : P.leftToRight
      · simp only [Bool.false_eq_true, if_false, vd2d.sub_mk, vd2d.mul_mk, vd2d.add_mk,
          Dbl.val_sub_val, Dbl.val_mul_val, Dbl.val_add_val, vd2d.toFloat, Dbl.map_val, hrnd]
        exact ⟨_, _, _, rfl, rfl, (fx _ (bx b hb0 hb1).1 (bx b hb0 hb1).2).1,
          (fx _ (bx b hb0 hb1).1 (bx b hb0 hb1).2).2,
          (fy _ (bY a ha0 ha1).1 (bY a ha0 ha1).2).1,
          (fy _ (bY a ha0 ha1).1 (bY a ha0 ha1).2).2, rfl, bt.1, bt.2⟩
      · simp only [if_true, vd2d.sub_mk, vd2d.mul_mk, vd2d.add_mk,
          Dbl.val_sub_val, Dbl.val_mul_val, Dbl.val_add_val, vd2d.toFloat, Dbl.map_val, hrnd]
        exact ⟨_, _, _, rfl, rfl, (fx _ (bx a ha0 ha1).1 (bx a ha0 ha1).2).1,
          (fx _ (bx a ha0 ha1).1 (bx a ha0 ha1).2).2,
          (fy _ (bY b hb0 hb1).1 (bY b hb0 hb1).2).1,
          (fy _ (bY b hb0 hb1).1 (bY b hb0 hb1).2).2, rfl, bt.1, bt.2⟩

/-- Where C13 holds: with `minPos <= maxPos` componentwise,
`minMaxTravel <= maxMaxTravel` and every draw of `rand()` between 0 and
`RAND_MAX`, with the arithmetic of the reals and a narrowing to `float` that is
monotone and leaves the four bounds as they are, each agent of a freshly
constructed `World` stands at its home, at a position componentwise within
`[minPos, maxPos]`, with `maxTravel` within `[minMaxTravel, maxMaxTravel]`. -/
theorem placement_within_bounds {G : Type} (P : Platform ℝ) (hrnd : ∀ x, P.rnd x = x)
    (rng : Rng G) (hRM : 0 < rng.RAND_MAX)
    (hrand : ∀ g, 0 ≤ (rng.rand g).1 ∧ (rng.rand g).1 ≤ rng.RAND_MAX)
    (hmono : Monotone P.toFloat) (lo hi minX minY maxX maxY : ℝ)
    (hfix : P.toFloat minX = minX ∧ P.toFloat maxX = maxX ∧ P.toFloat minY = minY ∧
      P.toFloat maxY = maxY)
    (hlohi : lo ≤ hi) (hx : minX ≤ maxX) (hy : minY ≤ maxY) (log : List (Record ℝ))
    (numNodes minInfTime maxInfTime : Int) (suvRate : Dbl ℝ) (reInfect : Bool)
    (maxSpeed : Dbl ℝ) (randSeed : Int) (g : G) (n : Node ℝ)
    (hn : n ∈ (World.World P rng log numNodes minInfTime maxInfTime suvRate reInfect
      (Dbl.val lo) (Dbl.val hi) ⟨Dbl.val maxX, Dbl.val maxY⟩ ⟨Dbl.val minX, Dbl.val minY⟩
      maxSpeed randSeed g).1.nodes) :
    ∃ x y t : ℝ, n.cPos = ⟨Dbl.val x, Dbl.val y⟩ ∧ n.sPos = ⟨Dbl.val x, Dbl.val y⟩ ∧
      minX ≤ x ∧ x ≤ maxX ∧ minY ≤ y ∧ y ≤ maxY ∧
      n.maxTravel = Dbl.val t ∧ lo ≤ t ∧ t ≤ hi := by
  rw [World_nodes] at hn
  exact buildPrefix_within P hrnd rng hRM hrand hmono lo hi minX minY maxX maxY hfix hlohi hx hy
    maxSpeed reInfect _ _ _ n hn

/-- C13 fails on the code: `minPos = (0.7, 0.7)` (the double nearest to 0.7,
`3152519739159347 / 2^52`), `maxPos = (500, 500)`, every draw of `rand()` 0.
The drawn position is `minPos + 0 * (maxPos - minPos) = minPos`, without any
rounding; `Node::Node` takes it as an `olc::vf2d`, and the `float` nearest to
the double 0.7 is `11744051 / 2^24 = 0.699999988...`: the agent stands below
`minPos`. The arithmetic is that of the reals in the first evaluation and that
of binary64 in the second one; the narrowing is the same. -/
theorem initial_placement_failing_input :
    (World.World (Platform.mk id Real.sqrt Real.sin Real.cos (roundTo 24) true) zeroRng [] 1 5 20
        (Dbl.val 1) false (Dbl.val 3) (Dbl.val 10) ⟨Dbl.val 500, Dbl.val 500⟩
        ⟨Dbl.val (3152519739159347 / 4503599627370496),
          Dbl.val (3152519739159347 / 4503599627370496)⟩
        (Dbl.val 1) 42 ()).1.nodes.map (fun n => n.sPos) =
        [⟨Dbl.val (11744051 / 16777216), Dbl.val (11744051 / 16777216)⟩] ∧
      (World.World (binaryPlatform Real.sqrt Real.sin Real.cos) zeroRng [] 1 5 20
        (Dbl.val 1) false (Dbl.val 3) (Dbl.val 10) ⟨Dbl.val 500, Dbl.val 500⟩
        ⟨Dbl.val (3152519739159347 / 4503599627370496),
          Dbl.val (3152519739159347 / 4503599627370496)⟩
        (Dbl.val 1) 42 ()).1.nodes.map (fun n => n.sPos) =
        [⟨Dbl.val (11744051 / 16777216), Dbl.val (11744051 / 16777216)⟩] ∧
      (11744051 / 16777216 : ℝ) < 3152519739159347 / 4503599627370496 := by
  refine ⟨?_, ?_, by norm_num⟩
  · simp only [World.World, World.addNode, Node.Node, Int.toNat_one,
      show List.range 1 = [0] from rfl, List.foldl_cons, List.foldl_nil, List.nil_append,
      List.map_cons, List.map_nil, drand, zeroRng, if_true, vd2d.sub_mk, vd2d.mul_mk,
      vd2d.add_mk, Dbl.val_sub_val, Dbl.val_mul_val, Dbl.val_add_val, vd2d.toFloat, Dbl.map_val,
      Dbl.val_div_val, id_eq, Int.cast_zero, zero_div, zero_mul, add_zero, float_seven_tenths]
    norm_num [float_seven_tenths]
  · simp only [World.World, World.addNode, Node.Node, Int.toNat_one,
      show List.range 1 = [0] from rfl, List.foldl_cons, List.foldl_nil, List.nil_append,
      List.map_cons, List.map_nil, drand, zeroRng, binaryPlatform, if_true, vd2d.sub_mk,
      vd2d.mul_mk, vd2d.add_mk, Dbl.val_sub_val, Dbl.val_mul_val, Dbl.val_add_val, vd2d.toFloat,
      Dbl.map_val, Dbl.val_div_val, Int.cast_zero, zero_div, zero_mul, add_zero, roundTo_zero,
      double_seven_tenths, float_seven_tenths]
    norm_num [roundTo_zero, double_seven_tenths, float_seven_tenths]

end Placement

/-! ## The argument loop of `main` -/

section ArgsRound

variable {R : Type}

theorem noArgs_falls (argv : List String) (i : Int) (wp : WorldParams R) (falls : Int) :
    falls ≤ (main.noArgs argv i wp falls).2 ∧
      (main.noArgs argv i wp falls).2 ≤ falls + 1 := by
  unfold main.noArgs
  split_ifs <;> constructor <;> simp

theorem roundOk_some (i falls j f : Int) (wp : WorldParams R) (h1 : f ≤ falls + 1)
    (h2 : i ≤ j) : main.RoundOk i falls (some (j, wp, f)) := by
  intro r hr
  simp only [Option.some.injEq] at hr
  subst hr
  exact ⟨h1, h2⟩

theorem roundOk_map {α : Type} (i falls : Int) (o : Option α)
    (f : α → Int × WorldParams R × Int) (h : ∀ v, main.RoundOk i falls (some (f v))) :
    main.RoundOk i falls (o.map f) := by
  intro r hr
  obtain ⟨v, _, hv⟩ := Option.map_eq_some'.mp hr
  exact h v r (by rw [hv])

theorem roundOk_ite (i falls : Int) (c : Prop) [Decidable c]
    (a b : Option (Int × WorldParams R × Int)) (ha : main.RoundOk i falls a)
    (hb : main.RoundOk i falls b) : main.RoundOk i falls (if c then a else b) := by
  split <;> assumption

end ArgsRound

section Args

variable {R : Type} [LinearOrderedField R]

theorem oneArg_falls (S : Conversions R) (argv : List String) (i : Int) (wp : WorldParams R)
    (falls : Int) : main.RoundOk i falls (main.oneArg S argv i wp falls) := by
  unfold main.oneArg
  repeat' apply roundOk_ite
  all_goals
    first
    | exact roundOk_some _ _ _ _ _ (by omega) (by omega)
    | exact roundOk_map _ _ _ _ (fun v => roundOk_some _ _ _ _ _ (by omega) (by omega))

theorem round_falls (S : Conversions R) (argc : Int) (argv : List String) (i : Int)
    (wp : WorldParams R) (r : Int × WorldParams R × Int)
    (h : main.round S argc argv i wp = some r) : r.2.2 ≤ 1 ∧ i ≤ r.1 := by
  unfold main.round at h
  by_cases h1 : argc - i ≤ 1
  · have h2 : ¬ argc - i ≥ 2 := by omega
    simp only [h1, h2, if_true, if_false, Option.some.injEq] at h
    subst h
    exact ⟨by simpa using (noArgs_falls argv i wp 0).2, le_refl _⟩
  · have h2 : argc - i ≥ 2 := by omega
    simp only [h1, h2, if_true, if_false] at h
    simpa using oneArg_falls S argv i wp 0 r h

theorem loop_total (S : Conversions R) (argc : Int) (argv : List String) (fuel : Nat) (i : Int)
    (wp : WorldParams R) (hfuel : (argc - i).toNat ≤ fuel) :
    ∃ r, main.loop S argc argv fuel i wp = some r ∧
      ∀ a, r ≠ ParseResult.unknownArgument a := by
  induction fuel generalizing i wp with
  | zero =>
    have : ¬ i < argc := by omega
    exact ⟨ParseResult.start wp, by simp [main.loop, this], fun a h => by cases h⟩
  | succ fuel ih =>
    unfold main.loop
    by_cases hi : i < argc
    · rw [if_pos hi]
      cases hr : main.round S argc argv i wp with
      | none => exact ⟨ParseResult.thrown, rfl, fun a h => by cases h⟩
      | some r =>
        obtain ⟨h1, h2⟩ := round_falls S argc argv i wp r hr
        have hne : ¬ r.2.2 = 2 := by omega
        simp only [hne, if_false]
        exact ih (r.1 + 1) r.2.1 (by omega)
    · rw [if_neg hi]
      exact ⟨ParseResult.start wp, rfl, fun a h => by cases h⟩

theorem round_unknown_flag (S : Conversions R) (argc : Int) (argv : List String) (i : Int)
    (wp : WorldParams R) (h : main.arg argv i ∉ main.knownFlags) :
    main.round S argc argv i wp = some (i, wp, 1) := by
  simp only [main.knownFlags, List.mem_cons, List.mem_singleton, List.not_mem_nil, or_false,
    not_or] at h
  obtain ⟨f1, f2, f3, f4, f5, f6, f7, f8, f9, f10, f11, f12, f13, f14, f15, f16, f17, f18⟩ := h
  unfold main.round
  by_cases h1 : argc - i ≤ 1
  · have h2 : ¬ argc - i ≥ 2 := by omega
    simp [h1, h2, main.noArgs, f1, f2, f3]
  · have h2 : argc - i ≥ 2 := by omega
    simp [h1, h2, main.oneArg, f4, f5, f6, f7, f8, f9, f10, f11, f12, f13, f14, f15, f16, f17,
      f18]

/-- C18: in every round of the argument loop of `main` the counter `falls` is
at most 1 when it is compared with 2 (the bodies of `argc - i <= 1` and of
`argc - i >= 2` never both run); the loop ends for every argument vector, and
never with the report `unknown argument` and the exit code 1; a round on an
argument that is none of the known options changes neither the index nor the
parameters, so the argument is skipped. -/
theorem unknown_argument_never_reported (P : Platform R) (S : Conversions R) (now : Int)
    (argv : List String) :
    (∀ (argc i : Int) (wp : WorldParams R) (r : Int × WorldParams R × Int),
        main.round S argc argv i wp = some r → r.2.2 ≤ 1) ∧
      (∃ r, main P S now argv = some r ∧ ∀ a, r ≠ ParseResult.unknownArgument a) ∧
      (∀ (argc i : Int) (wp : WorldParams R), main.arg argv i ∉ main.knownFlags →
        main.round S argc argv i wp = some (i, wp, 1)) :=
  ⟨fun argc i wp r h => (round_falls S argc argv i wp r h).1,
    loop_total S argv.length argv argv.length 1 (main.wp P now) (by omega),
    fun argc i wp h => round_unknown_flag S argc argv i wp h⟩

theorem main_skips_unknown_flag (P : Platform R) (S : Conversions R) (now : Int)
    (h : S.stoi "42" = some 42) :
    main P S now ["dsim", "--bogus", "--seed", "42"] =
      some (ParseResult.start { (main.wp P now : WorldParams R) with randSeed := 42 }) := by
  simp [main, main.loop, main.round, main.oneArg, main.noArgs, main.arg, h]

end Args

end DSim
